import Mathlib

/-! # RIOT kernel configuration, blocking hand-off and peripheral drivers

A shallow embedding of parts of the RIOT sources:

* `core/include/kernel.h`: the priority constants, the sleep-prevention
  reason bits and the default `GET_CPU_ID` loop;
* the scheduler and the mutex, which `kernel.h` and the drivers only include
  (`sched.h`, `mutex.h`): both are modelled from the specification;
* `cpu/nrf51822/periph/spi.c`: the SPI transfer functions;
* `cpu/stm32f1/periph/i2c.c`: the I2C master driver with its DMA completion
  interrupt handlers;
* `cpu/stm32f3/periph/adc.c`: `adc_init` and `adc_map`;
* `boards/mulle/drivers/at86rf231_driver.c`: `at86rf231_reset`;
* `drivers/kw41zrf/kw41zrf_netdev.c`: the send and receive functions of the
  netdev interface.

Machine integers are natural numbers or integers with explicit ranges.
Hardware status registers are read from an environment (a stream of values),
and every busy-wait loop carries a fuel bound on its number of polls.
-/

namespace RIOT

/-! ## Machine integers -/

/-- Largest value of a C `int` (32 bit). -/
def INT_MAX : Nat := 2147483647

/-- All-ones 32-bit word, the bit pattern of `~0`. -/
def WORD_MASK : Nat := 4294967295

/-- Signed value of the 32-bit two's complement bit pattern `v` of an `int`. -/
def int_val (v : Nat) : Int :=
  if v % 4294967296 < 2147483648 then ((v % 4294967296 : Nat) : Int)
  else ((v % 4294967296 : Nat) : Int) - 4294967296

/-- Bit pattern of `~x` for a 32-bit operand. -/
def bit_not (x : Nat) : Nat := WORD_MASK ^^^ (x % 4294967296)

/-! ## kernel.h: priorities -/

/-- Macro `#define PRIORITY_MIN SCHED_PRIO_LEVELS-1`. `SCHED_PRIO_LEVELS` comes from
sched.h, which is not among the sources, and is a parameter. -/
def PRIORITY_MIN (SCHED_PRIO_LEVELS : Int) : Int := SCHED_PRIO_LEVELS - 1

/-- Macro `#define PRIORITY_IDLE PRIORITY_MIN`. -/
def PRIORITY_IDLE (SCHED_PRIO_LEVELS : Int) : Int := PRIORITY_MIN SCHED_PRIO_LEVELS

/-- Macro `#define PRIORITY_MAIN (PRIORITY_MIN - (SCHED_PRIO_LEVELS/2))`, with the
truncating division of C. -/
def PRIORITY_MAIN (SCHED_PRIO_LEVELS : Int) : Int :=
  PRIORITY_MIN SCHED_PRIO_LEVELS - (Int.tdiv SCHED_PRIO_LEVELS 2)

/-! ## kernel.h: low-power gate -/

/-- Modelled from the spec: the `BITn` masks of bitarithm.h (not among the
sources), the word with only bit `n` set. -/
def BIT (n : Nat) : Nat := 2 ^ n

/-- Macro `#define LPM_PREVENT_SLEEP_UART BIT2`. -/
def LPM_PREVENT_SLEEP_UART : Nat := BIT 2

/-- Macro `#define LPM_PREVENT_SLEEP_HWTIMER BIT1`. -/
def LPM_PREVENT_SLEEP_HWTIMER : Nat := BIT 1

/-- Modelled from the spec: `prevent_sleep_begin(reason_bit)` is not among the
sources; it sets the reason bit in the bit pattern of the `int`
`lpm_prevent_sleep` (`lpm_prevent_sleep |= reason_bit`). -/
def prevent_sleep_begin (reason_bit : Nat) (lpm_prevent_sleep : Nat) : Nat :=
  (lpm_prevent_sleep ||| reason_bit) % 4294967296

/-- Modelled from the spec: `prevent_sleep_end(reason_bit)` is not among the
sources; it clears the reason bit (`lpm_prevent_sleep &= ~reason_bit`). -/
def prevent_sleep_end (reason_bit : Nat) (lpm_prevent_sleep : Nat) : Nat :=
  (lpm_prevent_sleep &&& bit_not reason_bit) % 4294967296

/-- The two sleep-prevention reasons that kernel.h defines. -/
inductive LpmReason where
  | uart
  | hwtimer
  deriving DecidableEq, Repr

/-- The mask of a reason. -/
def LpmReason.mask : LpmReason → Nat
  | .uart => LPM_PREVENT_SLEEP_UART
  | .hwtimer => LPM_PREVENT_SLEEP_HWTIMER

/-- One operation on the low-power gate. -/
inductive LpmOp where
  | sleep_begin (r : LpmReason)
  | sleep_end (r : LpmReason)
  deriving DecidableEq, Repr

/-- Effect of one gate operation on `lpm_prevent_sleep`. -/
def lpm_step (v : Nat) : LpmOp → Nat
  | .sleep_begin r => prevent_sleep_begin r.mask v
  | .sleep_end r => prevent_sleep_end r.mask v

/-- Value of `lpm_prevent_sleep` after a sequence of operations from `v`. -/
def lpm_run (v : Nat) (ops : List LpmOp) : Nat := ops.foldl lpm_step v

/-! ## kernel.h: CPU identifier -/

/-- Macro `#define CPU_ID_LEN (2U)`, the length of `cpu_id_t` unless cpu-conf.h
overrides it. -/
def CPU_ID_LEN_default : Nat := 2

/-- Type `cpu_id_t`: the bytes at `id.id[i]`. The memory is indexed beyond
`CPU_ID_LEN` too, so that a write outside the array would be visible. -/
structure cpu_id_t where
  id : Nat → Nat

/-- State of the `GET_CPU_ID` loop: the buffer, the counter `i`, the number of
iterations done and the indices written so far. -/
structure CpuIdLoop where
  buf : cpu_id_t
  i : Nat
  iterations : Nat
  written : List Nat

/-- Loop `for (int i = 0; i < CPU_ID_LEN; id.id[i] = 0xff, i++)` with an empty
body: test, then the step expression `id.id[i] = 0xff, i++`. `CPU_ID_LEN` is
the dimension of the array in `cpu_id_t`, so the counter `i`, which stops at
`CPU_ID_LEN`, stays in the range of `int`. -/
def GET_CPU_ID_loop (CPU_ID_LEN : Nat) : Nat → CpuIdLoop → Option CpuIdLoop
  | 0, _ => none
  | fuel + 1, s =>
    if s.i < CPU_ID_LEN then
      GET_CPU_ID_loop CPU_ID_LEN fuel
        { buf := ⟨fun j => if j = s.i then 0xff else s.buf.id j⟩,
          i := s.i + 1,
          iterations := s.iterations + 1,
          written := s.written ++ [s.i] }
    else some s

/-- Macro `GET_CPU_ID(id)`: the loop started at `i = 0`. -/
def GET_CPU_ID (CPU_ID_LEN : Nat) (fuel : Nat) (id : cpu_id_t) : Option CpuIdLoop :=
  GET_CPU_ID_loop CPU_ID_LEN fuel { buf := id, i := 0, iterations := 0, written := [] }

/-! ## Scheduler (modelled from the specification) -/

/-- Modelled from the spec: the thread control block of tcb.h (not among the
sources), reduced to the identity and the priority of the thread; a lower
numeric priority is a higher actual priority. -/
structure tcb_t where
  pid : Nat
  priority : Nat
  deriving DecidableEq, Repr

/-- Modelled from the spec: the ready queues of sched.h (not among the
sources), one FIFO queue of runnable threads per priority level; the queue of
level `p` is the entry at index `p`. -/
abbrev RunQueues := List (List tcb_t)

/-- Apply `f` to the queue of level `p`. -/
def rq_update (f : List tcb_t → List tcb_t) : Nat → RunQueues → RunQueues
  | _, [] => []
  | 0, q :: qs => f q :: qs
  | p + 1, q :: qs => q :: rq_update f p qs

/-- The threads that are runnable: the members of all ready queues. -/
def runnable (rq : RunQueues) (t : tcb_t) : Prop := ∃ q ∈ rq, t ∈ q

/-- Ready queues are well formed from level `p` on when every thread queued at
index `i` has priority `p + i`. -/
def rq_wf : Nat → RunQueues → Prop
  | _, [] => True
  | p, q :: qs => (∀ t ∈ q, t.priority = p) ∧ rq_wf (p + 1) qs

/-- Modelled from the spec: `next_runnable()` returns the head of the
highest-occupied-priority ready queue, scanning from level 0. -/
def next_runnable : RunQueues → Option tcb_t
  | [] => none
  | [] :: qs => next_runnable qs
  | (t :: _) :: _ => some t

/-- Modelled from the spec: `set_runnable` puts a thread that is in no ready
queue at the tail of the queue of its own level. -/
def set_runnable (t : tcb_t) (rq : RunQueues) : RunQueues :=
  if rq.any (fun q => q.any (fun u => u.pid == t.pid)) then rq
  else rq_update (fun q => q ++ [t]) t.priority rq

/-- Modelled from the spec: `set_sleeping` takes a thread out of its ready
queue. -/
def set_sleeping (pid : Nat) (rq : RunQueues) : RunQueues :=
  rq.map (fun q => q.filter (fun u => u.pid != pid))

/-- Modelled from the spec: `yield` requeues the calling (selected) thread at
the tail of its own level. -/
def sched_yield : RunQueues → RunQueues
  | [] => []
  | [] :: qs => [] :: sched_yield qs
  | (t :: q) :: qs => (q ++ [t]) :: qs

/-- The scheduler operations between two scheduling decisions. -/
inductive SchedOp where
  | set_runnable (t : tcb_t)
  | set_sleeping (pid : Nat)
  | yield
  deriving DecidableEq, Repr

/-- Effect of one scheduler operation on the ready queues. -/
def sched_step (rq : RunQueues) : SchedOp → RunQueues
  | .set_runnable t => set_runnable t rq
  | .set_sleeping pid => set_sleeping pid rq
  | .yield => sched_yield rq

/-- Ready queues at system start: `levels` empty queues, then the idle thread
made runnable at its level. -/
def sched_init (levels : Nat) (idle : tcb_t) : RunQueues :=
  set_runnable idle (List.replicate levels [])

/-- Ready queues after a sequence of operations. -/
def sched_run (rq : RunQueues) (ops : List SchedOp) : RunQueues :=
  ops.foldl sched_step rq

/-! ## Mutex (modelled from the specification) -/

/-- Modelled from the spec: the mutex of mutex.h (not among the sources): an
owning-thread reference (or none) and a FIFO wait queue of blocked threads. -/
structure mutex_t where
  owner : Option Nat
  queue : List Nat
  deriving DecidableEq, Repr

/-- Outcome of `mutex_lock` for the calling thread. -/
inductive LockResult where
  | acquired
  | blocked
  deriving DecidableEq, Repr

/-- Modelled from the spec: `mutex_init` leaves the mutex unheld with an empty
wait queue. -/
def mutex_init : mutex_t := { owner := none, queue := [] }

/-- Modelled from the spec: `lock(mutex)`: if unheld, acquire immediately and
return; if held, append the calling thread to the wait queue and block. -/
def mutex_lock (m : mutex_t) (t : Nat) : mutex_t × LockResult :=
  match m.owner with
  | none => ({ m with owner := some t }, .acquired)
  | some _ => ({ m with queue := m.queue ++ [t] }, .blocked)

/-- Modelled from the spec: `unlock(mutex)`: if the wait queue is empty, mark
unheld; otherwise transfer ownership to the head of the wait queue, which is
woken. The second component is the woken thread. -/
def mutex_unlock (m : mutex_t) : mutex_t × Option Nat :=
  match m.queue with
  | [] => ({ m with owner := none }, none)
  | t :: rest => ({ owner := some t, queue := rest }, some t)

/-- A call on the mutex: `mutex_lock` by thread `t`, or `mutex_unlock`. -/
inductive MutexOp where
  | lock (t : Nat)
  | unlock
  deriving DecidableEq, Repr

/-- What a call makes observable to the threads: `t` got the mutex at once,
`t` blocked, the holder `t` lost the mutex, the blocked `t` was woken with the
mutex. -/
inductive MutexEv where
  | acquired (t : Nat)
  | blocked (t : Nat)
  | released (t : Nat)
  | woken (t : Nat)
  deriving DecidableEq, Repr

/-- Events of a release: the previous holder, if any, loses the mutex. -/
def release_events : Option Nat → List MutexEv
  | none => []
  | some o => [.released o]

/-- One atomic call on the mutex with the events it produces. -/
def mutex_step (m : mutex_t) : MutexOp → mutex_t × List MutexEv
  | .lock t =>
    match mutex_lock m t with
    | (m1, .acquired) => (m1, [.acquired t])
    | (m1, .blocked) => (m1, [.blocked t])
  | .unlock =>
    match mutex_unlock m with
    | (m1, none) => (m1, release_events m.owner)
    | (m1, some t) => (m1, release_events m.owner ++ [.woken t])

/-- An interleaving of calls, run from `m`: the final mutex and all events in
order. -/
def mutex_run (m : mutex_t) : List MutexOp → mutex_t × List MutexEv
  | [] => (m, [])
  | op :: ops =>
    let r := mutex_step m op
    let rest := mutex_run r.1 ops
    (rest.1, r.2 ++ rest.2)

/-- The threads that hold the mutex according to the events seen so far: a
thread holds it from the return of its `lock` (at once or when woken) until
the release. -/
def holders : List Nat → List MutexEv → List Nat
  | hs, [] => hs
  | hs, .acquired t :: es => holders (hs ++ [t]) es
  | hs, .woken t :: es => holders (hs ++ [t]) es
  | hs, .released t :: es => holders (hs.erase t) es
  | hs, .blocked _ :: es => holders hs es

/-- The threads that blocked, in the order in which they queued. -/
def blocked_order : List MutexEv → List Nat
  | [] => []
  | .blocked t :: es => t :: blocked_order es
  | _ :: es => blocked_order es

/-- The threads that were woken with the mutex, in the order of release. -/
def woken_order : List MutexEv → List Nat
  | [] => []
  | .woken t :: es => t :: woken_order es
  | _ :: es => woken_order es

/-! ## Fuel -/

/-- The computation `p`, which takes a fuel bound for its loops, returns `a`
for every sufficient fuel. -/
def ReturnsWith {α : Type} (p : Nat → Option α) (a : α) : Prop :=
  ∃ F, ∀ fuel, F ≤ fuel → p fuel = some a

/-! ## cpu/nrf51822/periph/spi.c -/

/-- The registers of `NRF_SPI_Type` that the transfer functions access. -/
inductive SpiReg where
  | EVENTS_READY
  | TXD
  | RXD
  deriving DecidableEq, Repr

/-- One access to a register of the SPI device `spi[dev]`. -/
inductive SpiAccess where
  | write (dev : Nat) (reg : SpiReg) (val : Nat)
  | read (dev : Nat) (reg : SpiReg) (val : Nat)
  deriving DecidableEq, Repr

/-- The SPI hardware as the driver sees it: the value that the `k`-th read of
`EVENTS_READY` and of `RXD` returns. -/
structure SpiHw where
  events_ready : Nat → Nat
  rxd : Nat → Nat

/-- State of a run of the driver: the register accesses in program order, the
number of reads of the two volatile registers, and the memory behind the `in`
pointers. -/
structure SpiState where
  accesses : List SpiAccess
  ready_reads : Nat
  rxd_reads : Nat
  mem : Nat → Nat

/-- Statement `spi[dev]->reg = val`. -/
def spi_write (dev : Nat) (reg : SpiReg) (val : Nat) (s : SpiState) : SpiState :=
  { s with accesses := s.accesses ++ [.write dev reg val] }

/-- The state after one read of `spi[dev]->EVENTS_READY`. -/
def spi_read_ready (hw : SpiHw) (dev : Nat) (s : SpiState) : SpiState :=
  { s with accesses := s.accesses ++
             [.read dev .EVENTS_READY (hw.events_ready s.ready_reads)],
           ready_reads := s.ready_reads + 1 }

/-- Loop `while (spi[dev]->EVENTS_READY != 1);` with at most `fuel` polls. -/
def spi_wait_ready (hw : SpiHw) (dev : Nat) : Nat → SpiState → Option SpiState
  | 0, _ => none
  | fuel + 1, s =>
    if hw.events_ready s.ready_reads ≠ 1 then
      spi_wait_ready hw dev fuel (spi_read_ready hw dev s)
    else some (spi_read_ready hw dev s)

/-- Statement `if (in) { in[i] = (char)spi[dev]->RXD; }`; a NULL `in` is `none`. -/
def spi_store_rxd (hw : SpiHw) (dev : Nat) (in_ptr : Option Nat) (i : Nat)
    (s : SpiState) : SpiState :=
  match in_ptr with
  | none => s
  | some p =>
    let v := hw.rxd s.rxd_reads
    { s with accesses := s.accesses ++ [.read dev .RXD v],
             rxd_reads := s.rxd_reads + 1,
             mem := fun a => if a = p + i then v % 256 else s.mem a }

/-- The loop `for (int i = 0; i < length; i++) { ... }` of
`spi_transfer_bytes` from counter `i`, with at most `n` tests of the loop
condition; `i++` beyond `INT_MAX` is undefined and gives `none`. -/
def spi_transfer_loop (hw : SpiHw) (fuel : Nat) (dev : Nat) (out : Nat → Nat)
    (in_ptr : Option Nat) (length : Nat) : Nat → Nat → SpiState → Option SpiState
  | 0, _, _ => none
  | n + 1, i, s =>
    if i < length then
      let s1 := spi_write dev .EVENTS_READY 0 s
      let s2 := spi_write dev .TXD (out i % 256) s1
      (spi_wait_ready hw dev fuel s2).bind fun s3 =>
        let s4 := spi_store_rxd hw dev in_ptr i s3
        if INT_MAX < i + 1 then none
        else spi_transfer_loop hw fuel dev out in_ptr length n (i + 1) s4
    else some s

/-- Function `int spi_transfer_bytes(spi_t dev, char *out, char *in, unsigned int
length)`. `SPI_NUMOF` comes from the board's periph_conf.h and is a parameter;
`out` gives the bytes `out[i]`; the result is `length` converted to `int`. -/
def spi_transfer_bytes (SPI_NUMOF : Nat) (hw : SpiHw) (fuel : Nat) (dev : Nat)
    (out : Nat → Nat) (in_ptr : Option Nat) (length : Nat) (s : SpiState) :
    Option (SpiState × Int) :=
  if SPI_NUMOF ≤ dev then some (s, -1)
  else
    (spi_transfer_loop hw fuel dev out in_ptr length fuel 0 s).map
      fun s1 => (s1, int_val length)

/-- Function `int spi_transfer_byte(spi_t dev, char out, char *in)`. -/
def spi_transfer_byte (SPI_NUMOF : Nat) (hw : SpiHw) (fuel : Nat) (dev : Nat)
    (out : Nat) (in_ptr : Option Nat) (s : SpiState) : Option (SpiState × Int) :=
  spi_transfer_bytes SPI_NUMOF hw fuel dev (fun _ => out) in_ptr 1 s

/-- Function `int spi_transfer_reg(spi_t dev, uint8_t reg, char out, char *in)`: the
result of the first transfer is dropped. -/
def spi_transfer_reg (SPI_NUMOF : Nat) (hw : SpiHw) (fuel : Nat) (dev : Nat)
    (reg : Nat) (out : Nat) (in_ptr : Option Nat) (s : SpiState) :
    Option (SpiState × Int) :=
  (spi_transfer_byte SPI_NUMOF hw fuel dev reg none s).bind fun r =>
    spi_transfer_byte SPI_NUMOF hw fuel dev out in_ptr r.1

/-- Function `int spi_transfer_regs(spi_t dev, uint8_t reg, char *out, char *in,
unsigned int length)`. -/
def spi_transfer_regs (SPI_NUMOF : Nat) (hw : SpiHw) (fuel : Nat) (dev : Nat)
    (reg : Nat) (out : Nat → Nat) (in_ptr : Option Nat) (length : Nat)
    (s : SpiState) : Option (SpiState × Int) :=
  (spi_transfer_byte SPI_NUMOF hw fuel dev reg none s).bind fun r =>
    spi_transfer_bytes SPI_NUMOF hw fuel dev out in_ptr length r.1

/-- The hardware signals `EVENTS_READY`: after every read, some later read
returns 1. -/
def SpiHw.signals_ready (hw : SpiHw) : Prop :=
  ∀ n, ∃ k, hw.events_ready (n + k) = 1

/-! ## cpu/stm32f1/periph/i2c.c -/

/-- The constants that i2c.c takes from the board's periph_conf.h, from
periph/i2c.h and from the vendor header, none of which is among the sources:
they are parameters of the driver. -/
structure I2CConf where
  I2C_NUMOF : Nat
  I2C_APBCLK : Nat
  I2C_IRQ_PRIO : Nat
  I2C_SPEED_NORMAL : Nat
  I2C_SPEED_FAST : Nat
  I2C_FLAG_READ : Nat
  I2C_FLAG_WRITE : Nat
  I2C_0_SCL_PORT : Nat
  I2C_0_SCL_PIN : Nat
  I2C_0_SDA_PORT : Nat
  I2C_0_SDA_PIN : Nat
  I2C_0_DMA_RX_IRQ : Nat
  I2C_0_DMA_TX_IRQ : Nat
  I2C_0_DMA_RX_OFF : Nat
  I2C_0_DMA_TX_OFF : Nat
  I2C_CR1_PE : Nat
  I2C_CR1_START : Nat
  I2C_CR1_STOP : Nat
  I2C_CR1_ACK : Nat
  I2C_CR2_DMAEN : Nat
  I2C_CR2_LAST : Nat
  I2C_SR1_SB : Nat
  I2C_SR1_ADDR : Nat
  I2C_SR1_BTF : Nat
  DMA_CCR1_EN : Nat
  DMA_CCR1_TCIE : Nat
  DMA_CCR1_DIR : Nat
  DMA_CCR1_MINC : Nat
  DMA_CCR1_PL : Nat

/-- The device `I2C_0`: the index of the only entry of `i2c_conf[]`. -/
def I2C_0 : Nat := 0

/-- The registers that the driver writes: those of `I2C_0_DEV`, of the DMA
channels `I2C_0_DMA_RX_CH` and `I2C_0_DMA_TX_CH`, the interrupt flag clear
register of `I2C_0_DMA_DEV`, and the configuration registers of a GPIO port. -/
inductive I2CReg where
  | I2C_CR1
  | I2C_CR2
  | I2C_CCR
  | I2C_TRISE
  | I2C_OAR1
  | I2C_DR
  | DMA_RX_CCR
  | DMA_RX_CNDTR
  | DMA_RX_CMAR
  | DMA_RX_CPAR
  | DMA_TX_CCR
  | DMA_TX_CNDTR
  | DMA_TX_CMAR
  | DMA_TX_CPAR
  | DMA_IFCR
  | GPIO_CRL (port : Nat)
  | GPIO_CRH (port : Nat)
  deriving DecidableEq, Repr

/-- The clock macros of periph_conf.h that the driver invokes. -/
inductive ClockMacro where
  | I2C_0_CLKEN
  | I2C_0_DMA_CLKEN
  | I2C_0_SCL_CLKEN
  | I2C_0_SDA_CLKEN
  | I2C_0_CLKDIS
  deriving DecidableEq, Repr

/-- The texts that the interrupt handlers print. -/
inductive IsrText where
  | RX_ISR
  | TX_ISR
  deriving DecidableEq, Repr

/-- What the driver does to its surroundings, in program order: register
writes (`r = v`, `r |= mask`, `r &= ~mask`), clock macros, NVIC calls, calls
on the device mutex and output. -/
inductive I2CEv where
  | assign (r : I2CReg) (v : Nat)
  | set_bits (r : I2CReg) (mask : Nat)
  | clear_bits (r : I2CReg) (mask : Nat)
  | clock (m : ClockMacro)
  | nvic_set_priority (irq : Nat) (prio : Nat)
  | nvic_enable_irq (irq : Nat)
  | mutex_init
  | mutex_lock (t : Nat)
  | mutex_unlock
  | puts (text : IsrText)
  deriving DecidableEq, Repr

/-- When the DMA transfer-complete interrupt of a transfer is served: never,
before the calling thread reaches `mutex_lock`, or while it is blocked. -/
inductive IrqDelivery where
  | never
  | before_lock
  | while_blocked
  deriving DecidableEq, Repr

/-- The hardware as the driver sees it: the value that the `k`-th read of
`SR1` and of `DR` returns, and the delivery of the DMA interrupt. -/
structure I2CHw where
  sr1 : Nat → Nat
  dr : Nat → Nat
  dma_irq : IrqDelivery

/-- State of the driver: the registers (a control register reads back what was
last written to it), the mutex `i2c_state[I2C_0].lock`, the number of reads of
the status and data registers, and the trace of events. -/
structure I2CState where
  regs : I2CReg → Nat
  lock : mutex_t
  sr1_reads : Nat
  sr2_reads : Nat
  dr_reads : Nat
  trace : List I2CEv

/-- Bit pattern of an `int` stored to a 32-bit register. -/
def u32_of_int (x : Int) : Nat := (x % 4294967296).toNat

/-- Statement `r = v`. -/
def reg_assign (r : I2CReg) (v : Nat) (s : I2CState) : I2CState :=
  { s with regs := fun x => if x = r then v % 4294967296 else s.regs x,
           trace := s.trace ++ [.assign r v] }

/-- Statement `r |= mask`. -/
def reg_set_bits (r : I2CReg) (mask : Nat) (s : I2CState) : I2CState :=
  { s with regs := fun x => if x = r then (s.regs r ||| mask) % 4294967296 else s.regs x,
           trace := s.trace ++ [.set_bits r mask] }

/-- Statement `r &= ~mask`. -/
def reg_clear_bits (r : I2CReg) (mask : Nat) (s : I2CState) : I2CState :=
  { s with regs := fun x => if x = r then s.regs r &&& bit_not mask else s.regs x,
           trace := s.trace ++ [.clear_bits r mask] }

/-- An event without effect on the registers. -/
def emit (e : I2CEv) (s : I2CState) : I2CState :=
  { s with trace := s.trace ++ [e] }

/-- One read of `dev->SR1`. -/
def read_sr1 (s : I2CState) : I2CState := { s with sr1_reads := s.sr1_reads + 1 }

/-- One read of `dev->SR2`. -/
def read_sr2 (s : I2CState) : I2CState := { s with sr2_reads := s.sr2_reads + 1 }

/-- One read of `dev->DR`. -/
def read_dr (s : I2CState) : I2CState := { s with dr_reads := s.dr_reads + 1 }

/-- Loop `while (!(dev->SR1 & mask));` with at most `fuel` polls. -/
def wait_sr1_set (hw : I2CHw) (mask : Nat) : Nat → I2CState → Option I2CState
  | 0, _ => none
  | fuel + 1, s =>
    if hw.sr1 s.sr1_reads &&& mask = 0 then wait_sr1_set hw mask fuel (read_sr1 s)
    else some (read_sr1 s)

/-- Loop `while (dev->SR1 & mask);` with at most `fuel` polls. -/
def wait_sr1_clear (hw : I2CHw) (mask : Nat) : Nat → I2CState → Option I2CState
  | 0, _ => none
  | fuel + 1, s =>
    if hw.sr1 s.sr1_reads &&& mask ≠ 0 then wait_sr1_clear hw mask fuel (read_sr1 s)
    else some (read_sr1 s)

/-- Function `static void _start(I2C_TypeDef *dev, uint8_t address, uint8_t rw_flag)`. -/
def _start (conf : I2CConf) (hw : I2CHw) (fuel : Nat) (address : Nat) (rw_flag : Nat)
    (s : I2CState) : Option I2CState :=
  (wait_sr1_set hw conf.I2C_SR1_SB fuel (reg_set_bits .I2C_CR1 conf.I2C_CR1_START s)).bind
    fun s1 =>
      (wait_sr1_set hw conf.I2C_SR1_ADDR fuel
        (reg_assign .I2C_DR ((address <<< 1) ||| rw_flag) s1)).bind
        fun s2 => some (read_sr2 (read_sr1 s2))

/-- Function `static inline void _stop(I2C_TypeDef *dev)`; the last loop tests `SR1`
against `I2C_CR1_STOP`, as the source does. -/
def _stop (conf : I2CConf) (hw : I2CHw) (fuel : Nat) (s : I2CState) : Option I2CState :=
  (wait_sr1_set hw conf.I2C_SR1_BTF fuel s).bind fun s1 =>
    wait_sr1_clear hw conf.I2C_CR1_STOP fuel (reg_set_bits .I2C_CR1 conf.I2C_CR1_STOP s1)

/-- Call `mutex_unlock(&(i2c_state[I2C_0].lock))`; the second component is the
thread that the unlock wakes. -/
def i2c_mutex_unlock (s : I2CState) : I2CState × Option Nat :=
  ({ s with lock := (mutex_unlock s.lock).1, trace := s.trace ++ [.mutex_unlock] },
   (mutex_unlock s.lock).2)

/-- Function `void I2C_0_DMA_RX_ISR(void)`. -/
def I2C_0_DMA_RX_ISR (conf : I2CConf) (s : I2CState) : I2CState × Option Nat :=
  i2c_mutex_unlock
    (reg_set_bits .DMA_IFCR (0xf <<< conf.I2C_0_DMA_RX_OFF)
      (reg_clear_bits .DMA_RX_CCR conf.DMA_CCR1_EN (emit (.puts .RX_ISR) s)))

/-- Function `void I2C_0_DMA_TX_ISR(void)`. -/
def I2C_0_DMA_TX_ISR (conf : I2CConf) (s : I2CState) : I2CState × Option Nat :=
  i2c_mutex_unlock
    (reg_set_bits .DMA_IFCR (0xf <<< conf.I2C_0_DMA_TX_OFF)
      (reg_clear_bits .DMA_TX_CCR conf.DMA_CCR1_EN (emit (.puts .TX_ISR) s)))

/-- Call `mutex_lock(&(i2c_state[dev].lock))` by the thread `tid` in a transfer
whose completion interrupt handler is `isr`. The handler runs before the call
or while the thread is blocked, as the hardware delivers the interrupt; a
blocked thread resumes only when the handler's unlock wakes it. -/
def i2c_mutex_lock (hw : I2CHw) (isr : I2CState → I2CState × Option Nat) (tid : Nat)
    (s : I2CState) : Option I2CState :=
  let s0 := match hw.dma_irq with
    | .before_lock => (isr s).1
    | _ => s
  let s1 := { s0 with lock := (mutex_lock s0.lock tid).1,
                      trace := s0.trace ++ [.mutex_lock tid] }
  match (mutex_lock s0.lock tid).2 with
  | .acquired => some s1
  | .blocked =>
    match hw.dma_irq with
    | .while_blocked => if (isr s1).2 = some tid then some (isr s1).1 else none
    | _ => none

/-- Function `int i2c_read_bytes(i2c_t dev, uint8_t address, char *data, int length)`,
called by the thread `tid`; `data` is the address of the buffer. An index
other than `I2C_0` below `I2C_NUMOF` has no entry in `i2c_conf[]`. -/
def i2c_read_bytes (conf : I2CConf) (hw : I2CHw) (fuel : Nat) (tid : Nat) (dev : Nat)
    (address : Nat) (data : Nat) (length : Int) (s : I2CState) :
    Option (I2CState × Int) :=
  if conf.I2C_NUMOF ≤ dev then some (s, -1)
  else if dev ≠ I2C_0 then none
  else
    (_start conf hw fuel address conf.I2C_FLAG_READ
      (reg_set_bits .I2C_CR2 (conf.I2C_CR2_DMAEN ||| conf.I2C_CR2_LAST)
        (reg_set_bits .DMA_RX_CCR conf.DMA_CCR1_EN
          (reg_assign .DMA_RX_CMAR data
            (reg_assign .DMA_RX_CNDTR (u32_of_int length) s))))).bind fun s1 =>
    (i2c_mutex_lock hw (I2C_0_DMA_RX_ISR conf) tid s1).bind fun s2 =>
    (_stop conf hw fuel s2).map fun s3 => (s3, length)

/-- Function `int i2c_read_byte(i2c_t dev, uint8_t address, char *data)`. -/
def i2c_read_byte (conf : I2CConf) (hw : I2CHw) (fuel : Nat) (tid : Nat) (dev : Nat)
    (address : Nat) (data : Nat) (s : I2CState) : Option (I2CState × Int) :=
  i2c_read_bytes conf hw fuel tid dev address data 1 s

/-- Function `int i2c_read_regs(i2c_t dev, uint8_t address, uint8_t reg, char *data,
int length)`. -/
def i2c_read_regs (conf : I2CConf) (hw : I2CHw) (fuel : Nat) (tid : Nat) (dev : Nat)
    (address : Nat) (reg : Nat) (data : Nat) (length : Int) (s : I2CState) :
    Option (I2CState × Int) :=
  if conf.I2C_NUMOF ≤ dev then some (s, -1)
  else if dev ≠ I2C_0 then none
  else
    (_start conf hw fuel address conf.I2C_FLAG_WRITE s).bind fun s1 =>
    (_stop conf hw fuel (reg_assign .I2C_DR reg s1)).bind fun s2 =>
    i2c_read_bytes conf hw fuel tid dev address data length s2

/-- Function `int i2c_read_reg(i2c_t dev, uint8_t address, uint8_t reg, char *data)`. -/
def i2c_read_reg (conf : I2CConf) (hw : I2CHw) (fuel : Nat) (tid : Nat) (dev : Nat)
    (address : Nat) (reg : Nat) (data : Nat) (s : I2CState) : Option (I2CState × Int) :=
  i2c_read_regs conf hw fuel tid dev address reg data 1 s

/-- Function `int i2c_write_bytes(i2c_t dev, uint8_t address, char *data, int length)`. -/
def i2c_write_bytes (conf : I2CConf) (hw : I2CHw) (fuel : Nat) (tid : Nat) (dev : Nat)
    (address : Nat) (data : Nat) (length : Int) (s : I2CState) :
    Option (I2CState × Int) :=
  if conf.I2C_NUMOF ≤ dev then some (s, -1)
  else if dev ≠ I2C_0 then none
  else
    (_start conf hw fuel address conf.I2C_FLAG_WRITE
      (reg_set_bits .I2C_CR2 conf.I2C_CR2_DMAEN
        (reg_clear_bits .I2C_CR2 conf.I2C_CR2_LAST
          (reg_set_bits .DMA_TX_CCR conf.DMA_CCR1_EN
            (reg_assign .DMA_TX_CMAR data
              (reg_assign .DMA_TX_CNDTR (u32_of_int length) s)))))).bind fun s1 =>
    (i2c_mutex_lock hw (I2C_0_DMA_TX_ISR conf) tid s1).bind fun s2 =>
    (_stop conf hw fuel s2).map fun s3 => (s3, length)

/-- Function `int i2c_write_byte(i2c_t dev, uint8_t address, char data)`; `data_ptr` is
the address `&data` of the argument. -/
def i2c_write_byte (conf : I2CConf) (hw : I2CHw) (fuel : Nat) (tid : Nat) (dev : Nat)
    (address : Nat) (data_ptr : Nat) (s : I2CState) : Option (I2CState × Int) :=
  i2c_write_bytes conf hw fuel tid dev address data_ptr 1 s

/-- Function `int i2c_write_regs(i2c_t dev, uint8_t address, uint8_t reg, char *data,
int length)`; the byte sent after the start is `(uint8_t)address`, as in the
source. -/
def i2c_write_regs (conf : I2CConf) (hw : I2CHw) (fuel : Nat) (tid : Nat) (dev : Nat)
    (address : Nat) (reg : Nat) (data : Nat) (length : Int) (s : I2CState) :
    Option (I2CState × Int) :=
  if conf.I2C_NUMOF ≤ dev then some (s, -1)
  else if dev ≠ I2C_0 then none
  else
    (_start conf hw fuel address conf.I2C_FLAG_WRITE
      (reg_set_bits .DMA_TX_CCR conf.DMA_CCR1_EN
        (reg_assign .DMA_TX_CMAR data
          (reg_assign .DMA_TX_CNDTR (u32_of_int length)
            (reg_clear_bits .I2C_CR2 conf.I2C_CR2_DMAEN s))))).bind fun s1 =>
    (i2c_mutex_lock hw (I2C_0_DMA_TX_ISR conf) tid
      (reg_set_bits .I2C_CR2 conf.I2C_CR2_DMAEN
        (reg_clear_bits .I2C_CR2 conf.I2C_CR2_LAST
          (reg_assign .I2C_DR (address % 256) s1)))).bind fun s2 =>
    (_stop conf hw fuel s2).map fun s3 => (s3, length)

/-- Function `int i2c_write_reg(i2c_t dev, uint8_t address, uint8_t reg, char data)`. -/
def i2c_write_reg (conf : I2CConf) (hw : I2CHw) (fuel : Nat) (tid : Nat) (dev : Nat)
    (address : Nat) (reg : Nat) (data_ptr : Nat) (s : I2CState) :
    Option (I2CState × Int) :=
  i2c_write_regs conf hw fuel tid dev address reg data_ptr 1 s

/-- The pin configuration of `i2c_init_master`: `port->CRL |= (0xf << (pin *
4))` for a pin below 8, `port->CRH |= (0xf << ((pin - 8) * 4))` otherwise. -/
def i2c_config_pin (port : Nat) (pin : Nat) (s : I2CState) : I2CState :=
  if pin < 8 then reg_set_bits (.GPIO_CRL port) (0xf <<< (pin * 4)) s
  else reg_set_bits (.GPIO_CRH port) (0xf <<< ((pin - 8) * 4)) s

/-- Statement `i2c_conf[dev].dma_rx->CPAR = i2c_conf[dev].dev->DR` and its TX twin: the
value read from `DR` is stored. -/
def i2c_store_dr (hw : I2CHw) (r : I2CReg) (s : I2CState) : I2CState :=
  reg_assign r (hw.dr s.dr_reads) (read_dr s)

/-- The part of `i2c_init_master` after the two `switch` statements, for the
device `I2C_0`: the mutex is initialised and locked by the calling thread
`tid`, then pins, DMA channels and the I2C device are configured. -/
def i2c_init_master_config (conf : I2CConf) (hw : I2CHw) (tid : Nat) (ccr : Nat)
    (s : I2CState) : Option (I2CState × Int) :=
  let s1 : I2CState := { s with lock := mutex_init, trace := s.trace ++ [.mutex_init] }
  match (mutex_lock s1.lock tid).2 with
  | .blocked => none
  | .acquired =>
    let s2 : I2CState := { s1 with lock := (mutex_lock s1.lock tid).1,
                                   trace := s1.trace ++ [.mutex_lock tid] }
    let s3 := i2c_config_pin conf.I2C_0_SDA_PORT conf.I2C_0_SDA_PIN
      (i2c_config_pin conf.I2C_0_SCL_PORT conf.I2C_0_SCL_PIN s2)
    let s4 := i2c_store_dr hw .DMA_RX_CPAR
      (reg_assign .DMA_RX_CCR
        (conf.DMA_CCR1_PL ||| conf.DMA_CCR1_MINC ||| conf.DMA_CCR1_TCIE) s3)
    let s5 := i2c_store_dr hw .DMA_TX_CPAR
      (reg_assign .DMA_TX_CCR
        (conf.DMA_CCR1_PL ||| conf.DMA_CCR1_MINC ||| conf.DMA_CCR1_DIR |||
          conf.DMA_CCR1_TCIE) s4)
    let s6 := reg_assign .I2C_CR1 conf.I2C_CR1_ACK s5
    let s7 := reg_assign .I2C_CR2 (conf.I2C_APBCLK / 1000000) s6
    let s8 := reg_assign .I2C_CCR ccr s7
    let s9 := reg_assign .I2C_TRISE (conf.I2C_APBCLK / 1000000 + 1) s8
    let s10 := reg_assign .I2C_OAR1 0 s9
    some (reg_set_bits .I2C_CR1 conf.I2C_CR1_PE s10, 0)

/-- The second `switch` of `i2c_init_master`: `case I2C_0` enables the clocks
and the DMA interrupts, `default` returns -1. -/
def i2c_init_master_dev (conf : I2CConf) (hw : I2CHw) (tid : Nat) (dev : Nat) (ccr : Nat)
    (s : I2CState) : Option (I2CState × Int) :=
  if dev = I2C_0 then
    i2c_init_master_config conf hw tid ccr
      (emit (.nvic_enable_irq conf.I2C_0_DMA_TX_IRQ)
        (emit (.nvic_enable_irq conf.I2C_0_DMA_RX_IRQ)
          (emit (.nvic_set_priority conf.I2C_0_DMA_TX_IRQ conf.I2C_IRQ_PRIO)
            (emit (.nvic_set_priority conf.I2C_0_DMA_RX_IRQ conf.I2C_IRQ_PRIO)
              (emit (.clock .I2C_0_SDA_CLKEN)
                (emit (.clock .I2C_0_SCL_CLKEN)
                  (emit (.clock .I2C_0_DMA_CLKEN)
                    (emit (.clock .I2C_0_CLKEN) s))))))))
  else some (s, -1)

/-- Function `int i2c_init_master(i2c_t dev, i2c_speed_t speed)`, called by the thread
`tid`: the first `switch` reads the speed and returns -2 by default. -/
def i2c_init_master (conf : I2CConf) (hw : I2CHw) (tid : Nat) (dev : Nat) (speed : Nat)
    (s : I2CState) : Option (I2CState × Int) :=
  if speed = conf.I2C_SPEED_NORMAL then
    i2c_init_master_dev conf hw tid dev (conf.I2C_APBCLK / 200000) s
  else if speed = conf.I2C_SPEED_FAST then
    i2c_init_master_dev conf hw tid dev (conf.I2C_APBCLK / 800000) s
  else some (s, -2)

/-- The hardware answers the driver: after every read of `SR1` some later read
shows `SB`, some later read shows `ADDR`, some later read shows `BTF`, and some
later read shows the bit tested by the last loop of `_stop` clear. -/
def I2CHw.answers (hw : I2CHw) (conf : I2CConf) : Prop :=
  (∀ n, ∃ k, hw.sr1 (n + k) &&& conf.I2C_SR1_SB ≠ 0) ∧
  (∀ n, ∃ k, hw.sr1 (n + k) &&& conf.I2C_SR1_ADDR ≠ 0) ∧
  (∀ n, ∃ k, hw.sr1 (n + k) &&& conf.I2C_SR1_BTF ≠ 0) ∧
  (∀ n, ∃ k, hw.sr1 (n + k) &&& conf.I2C_CR1_STOP = 0)

/-- The constants of an STM32F103 board with I2C1 on PB6/PB7 at 36 MHz and the
DMA1 channels 7 (RX) and 6 (TX). -/
def stm32f1_conf : I2CConf :=
  { I2C_NUMOF := 1, I2C_APBCLK := 36000000, I2C_IRQ_PRIO := 1,
    I2C_SPEED_NORMAL := 1, I2C_SPEED_FAST := 2,
    I2C_FLAG_READ := 1, I2C_FLAG_WRITE := 0,
    I2C_0_SCL_PORT := 1, I2C_0_SCL_PIN := 6,
    I2C_0_SDA_PORT := 1, I2C_0_SDA_PIN := 7,
    I2C_0_DMA_RX_IRQ := 17, I2C_0_DMA_TX_IRQ := 16,
    I2C_0_DMA_RX_OFF := 24, I2C_0_DMA_TX_OFF := 20,
    I2C_CR1_PE := 0x1, I2C_CR1_START := 0x100, I2C_CR1_STOP := 0x200,
    I2C_CR1_ACK := 0x400, I2C_CR2_DMAEN := 0x800, I2C_CR2_LAST := 0x1000,
    I2C_SR1_SB := 0x1, I2C_SR1_ADDR := 0x2, I2C_SR1_BTF := 0x4,
    DMA_CCR1_EN := 0x1, DMA_CCR1_TCIE := 0x2, DMA_CCR1_DIR := 0x10,
    DMA_CCR1_MINC := 0x80, DMA_CCR1_PL := 0x3000 }

/-- Hardware that shows `SB`, `ADDR` and `BTF` at every read of `SR1` and
serves the DMA interrupt while the caller is blocked. -/
def hw_prompt : I2CHw :=
  { sr1 := fun _ => 0x7, dr := fun _ => 0, dma_irq := .while_blocked }

/-- Hardware on a bus where no slave acknowledges the address: `SB` is shown,
`ADDR` never. -/
def hw_nack : I2CHw :=
  { sr1 := fun _ => 0x1, dr := fun _ => 0, dma_irq := .while_blocked }

/-- Hardware that shows `SB`, `ADDR` and `BTF` at every read of `SR1` and
serves the DMA interrupt before the caller reaches `mutex_lock`. -/
def hw_early : I2CHw :=
  { sr1 := fun _ => 0x7, dr := fun _ => 0, dma_irq := .before_lock }

/-- Hardware that shows `SB`, `ADDR` and `BTF` at every read of `SR1` and
never serves the DMA interrupt. -/
def hw_no_irq : I2CHw :=
  { sr1 := fun _ => 0x7, dr := fun _ => 0, dma_irq := .never }

/-- The driver state at reset: registers zero, mutex unheld, no event. -/
def i2c_reset_state : I2CState :=
  { regs := fun _ => 0, lock := mutex_init, sr1_reads := 0, sr2_reads := 0,
    dr_reads := 0, trace := [] }

/-- The driver state with the device mutex held by thread `owner` and no
waiter, as `i2c_init_master` leaves it. -/
def i2c_locked_state (owner : Nat) : I2CState :=
  { i2c_reset_state with lock := { owner := some owner, queue := [] } }

/-- The events that the blocking hand-off is about: the START and STOP
conditions and the calls on the mutex. -/
def is_handoff_event (conf : I2CConf) : I2CEv → Bool
  | .set_bits .I2C_CR1 mask => mask == conf.I2C_CR1_START || mask == conf.I2C_CR1_STOP
  | .mutex_lock _ => true
  | .mutex_unlock => true
  | _ => false

/-- The events of `I2C_0_DMA_RX_ISR`. -/
def rx_isr_events (conf : I2CConf) : List I2CEv :=
  [.puts .RX_ISR, .clear_bits .DMA_RX_CCR conf.DMA_CCR1_EN,
   .set_bits .DMA_IFCR (0xf <<< conf.I2C_0_DMA_RX_OFF), .mutex_unlock]

/-- The events of `I2C_0_DMA_TX_ISR`. -/
def tx_isr_events (conf : I2CConf) : List I2CEv :=
  [.puts .TX_ISR, .clear_bits .DMA_TX_CCR conf.DMA_CCR1_EN,
   .set_bits .DMA_IFCR (0xf <<< conf.I2C_0_DMA_TX_OFF), .mutex_unlock]

/-- The events of the hand-off on a held mutex: the call of `mutex_lock` by the
thread `tid` and the events of the interrupt handler, which come first when
the interrupt is served before the call. -/
def handoff_events (irq : IrqDelivery) (tid : Nat) (isr_events : List I2CEv) :
    List I2CEv :=
  match irq with
  | .before_lock => isr_events ++ [.mutex_lock tid]
  | _ => .mutex_lock tid :: isr_events

/-! ## cpu/stm32f3/periph/adc.c -/

/-- The constants that adc.c takes from the board's periph_conf.h and from the
vendor header, which are not among the sources: they are parameters. -/
structure AdcConf where
  ADC_0_EN : Bool
  ADC_1_EN : Bool
  ADC_0_CH0_PIN : Nat
  ADC_0_CH1_PIN : Nat
  ADC_0_CH2_PIN : Nat
  ADC_1_CH0_PIN : Nat
  ADC_1_CH1_PIN : Nat
  ADC_1_CH2_PIN : Nat
  ADC_CFGR_RES_0 : Nat
  ADC_CFGR_RES_1 : Nat
  ADC_CR_ADEN : Nat

/-- The device `ADC_0` of `adc_t`. -/
def ADC_0 : Nat := 0

/-- The device `ADC_1` of `adc_t`. -/
def ADC_1 : Nat := 1

/-- The resolutions of `adc_precision_t` that `adc_init` distinguishes. -/
inductive adc_precision_t where
  | ADC_RES_6BIT
  | ADC_RES_8BIT
  | ADC_RES_10BIT
  | ADC_RES_12BIT
  | ADC_RES_14BIT
  | ADC_RES_16BIT
  deriving DecidableEq, Repr

/-- The integer value of a resolution, the enumerators counting from 0, so
that `6 + 2 * resolution` is the number of bits. -/
def adc_precision_t.val : adc_precision_t → Nat
  | .ADC_RES_6BIT => 0
  | .ADC_RES_8BIT => 1
  | .ADC_RES_10BIT => 2
  | .ADC_RES_12BIT => 3
  | .ADC_RES_14BIT => 4
  | .ADC_RES_16BIT => 5

/-- State of the ADC driver: per device the registers `CR` and `CFGR`, the
`MODER` register of its port, its clock and its port clock, and the array
`config[]` with the resolution in bits. -/
structure AdcState where
  CR : Nat → Nat
  CFGR : Nat → Nat
  MODER : Nat → Nat
  clock : Nat → Bool
  port_clock : Nat → Bool
  config : Nat → Nat

/-- Update of one entry of a per-device table. -/
def adc_set {α : Type} (f : Nat → α) (dev : Nat) (v : α) : Nat → α :=
  fun d => if d = dev then v else f d

/-- Function `void adc_poweron(adc_t dev)`. -/
def adc_poweron (conf : AdcConf) (dev : Nat) (s : AdcState) : AdcState :=
  if dev = ADC_0 ∧ conf.ADC_0_EN = true then { s with clock := adc_set s.clock dev true }
  else if dev = ADC_1 ∧ conf.ADC_1_EN = true then { s with clock := adc_set s.clock dev true }
  else s

/-- Function `void adc_poweroff(adc_t dev)`. -/
def adc_poweroff (conf : AdcConf) (dev : Nat) (s : AdcState) : AdcState :=
  if dev = ADC_0 ∧ conf.ADC_0_EN = true then { s with clock := adc_set s.clock dev false }
  else if dev = ADC_1 ∧ conf.ADC_1_EN = true then { s with clock := adc_set s.clock dev false }
  else s

/-- Statement `reg |= mask` on the 32-bit register of the device `dev`. -/
def adc_or (f : Nat → Nat) (dev : Nat) (mask : Nat) : Nat → Nat :=
  adc_set f dev ((f dev ||| mask) % 4294967296)

/-- The first `switch` of `adc_init`: the port clock is enabled and the pins
of the three channels are set to analog mode; for a device that is not enabled
`adc` stays the null pointer and the following write has no defined result. -/
def adc_init_port (conf : AdcConf) (dev : Nat) (s : AdcState) : Option AdcState :=
  if dev = ADC_0 ∧ conf.ADC_0_EN = true then
    some { s with
      port_clock := adc_set s.port_clock dev true,
      MODER := adc_or s.MODER dev
        (3 <<< conf.ADC_0_CH0_PIN ||| 3 <<< conf.ADC_0_CH1_PIN ||| 3 <<< conf.ADC_0_CH2_PIN) }
  else if dev = ADC_1 ∧ conf.ADC_1_EN = true then
    some { s with
      port_clock := adc_set s.port_clock dev true,
      MODER := adc_or s.MODER dev
        (3 <<< conf.ADC_1_CH0_PIN ||| 3 <<< conf.ADC_1_CH1_PIN ||| 3 <<< conf.ADC_1_CH2_PIN) }
  else none

/-- The statements of `adc_init` between the two `switch` statements: the
control registers are reset and `config[dev].resolution = (6 + (2 *
resolution))` is stored in a `uint8_t`. -/
def adc_init_config (dev : Nat) (resolution : adc_precision_t) (s : AdcState) : AdcState :=
  { s with
    CR := adc_set s.CR dev 0,
    CFGR := adc_set s.CFGR dev 0,
    config := adc_set s.config dev ((6 + 2 * resolution.val) % 256) }

/-- Statement `adc->CFGR |= mask`. -/
def adc_cfgr_or (dev : Nat) (mask : Nat) (s : AdcState) : AdcState :=
  { s with CFGR := adc_or s.CFGR dev mask }

/-- Statement `adc->CR |= ADC_CR_ADEN`, which enables the ADC module. -/
def adc_enable (conf : AdcConf) (dev : Nat) (s : AdcState) : AdcState :=
  { s with CR := adc_or s.CR dev conf.ADC_CR_ADEN }

/-- Function `int adc_init(adc_t dev, adc_precision_t resolution)`. -/
def adc_init (conf : AdcConf) (dev : Nat) (resolution : adc_precision_t)
    (s : AdcState) : Option (AdcState × Int) :=
  (adc_init_port conf dev (adc_poweron conf dev s)).bind fun s1 =>
    let s2 := adc_init_config dev resolution s1
    match resolution with
    | .ADC_RES_6BIT =>
      some (adc_enable conf dev
        (adc_cfgr_or dev (conf.ADC_CFGR_RES_0 ||| conf.ADC_CFGR_RES_1) s2), 0)
    | .ADC_RES_8BIT => some (adc_enable conf dev (adc_cfgr_or dev conf.ADC_CFGR_RES_1 s2), 0)
    | .ADC_RES_10BIT => some (adc_enable conf dev (adc_cfgr_or dev conf.ADC_CFGR_RES_0 s2), 0)
    | .ADC_RES_12BIT => some (adc_enable conf dev s2, 0)
    | .ADC_RES_14BIT => some (adc_poweroff conf dev s2, -1)
    | .ADC_RES_16BIT => some (adc_poweroff conf dev s2, -1)

/-- Function `int adc_map(adc_t dev, int value, int min, int max)`: the body
is `return 0;`. -/
def adc_map (_s : AdcState) (_dev : Nat) (_value : Int) (_min : Int) (_max : Int) : Int := 0

/-- The constants of an STM32F3 board with both ADC devices enabled. -/
def stm32f3_adc_conf : AdcConf :=
  { ADC_0_EN := true, ADC_1_EN := true,
    ADC_0_CH0_PIN := 0, ADC_0_CH1_PIN := 1, ADC_0_CH2_PIN := 2,
    ADC_1_CH0_PIN := 4, ADC_1_CH1_PIN := 5, ADC_1_CH2_PIN := 6,
    ADC_CFGR_RES_0 := 0x8, ADC_CFGR_RES_1 := 0x10, ADC_CR_ADEN := 0x1 }

/-- The ADC driver state at reset. -/
def adc_reset_state : AdcState :=
  { CR := fun _ => 0, CFGR := fun _ => 0, MODER := fun _ => 0,
    clock := fun _ => false, port_clock := fun _ => false, config := fun _ => 0 }

/-! ## boards/mulle/drivers/at86rf231_driver.c -/

/-- The constants of at86rf231.h and at86rf231_spi.h, which are not among the
sources: they are parameters. -/
structure At86Conf where
  AT86RF231_REG__TRX_STATUS : Nat
  AT86RF231_REG__TRX_STATE : Nat
  AT86RF231_TRX_STATE__FORCE_TRX_OFF : Nat
  AT86RF231_TRX_STATUS_MASK__TRX_STATUS : Nat
  AT86RF231_TRX_STATUS__TRX_OFF : Nat

/-- What `at86rf231_reset` does to its surroundings, in program order. -/
inductive At86Ev where
  | spi_unselect
  | slp_clear
  | rst_clear
  | reg_write (addr : Nat) (value : Nat)
  | reg_read (addr : Nat) (value : Nat)
  | printf_error
  deriving DecidableEq, Repr

/-- State of a run of `at86rf231_reset`: the events so far, the number of
iterations of the delay loop and the number of reads of the status register.
The radio is a stream: `radio k` is the value that the `k`-th call of
`at86rf231_reg_read` returns. -/
structure At86State where
  trace : List At86Ev
  delay_iterations : Nat
  status_reads : Nat
  deriving DecidableEq, Repr

/-- Function `uint8_t at86rf231_get_status(void)`: one register read, masked;
the second component is the returned `uint8_t`. -/
def at86rf231_get_status (conf : At86Conf) (radio : Nat → Nat) (s : At86State) :
    At86State × Nat :=
  ({ s with trace := s.trace ++
              [.reg_read conf.AT86RF231_REG__TRX_STATUS (radio s.status_reads % 256)],
            status_reads := s.status_reads + 1 },
   (radio s.status_reads % 256 &&& conf.AT86RF231_TRX_STATUS_MASK__TRX_STATUS) % 256)

/-- Loop `while (delay--){}` on the `uint8_t delay`, with at most `fuel` tests:
the old value is tested and the counter is decremented at every test. -/
def at86rf231_delay_loop : Nat → Nat → At86State → Option (At86State × Nat)
  | 0, _, _ => none
  | fuel + 1, delay, s =>
    if delay ≠ 0 then
      at86rf231_delay_loop fuel ((delay + 255) % 256)
        { s with delay_iterations := s.delay_iterations + 1 }
    else some (s, (delay + 255) % 256)

/-- Loop `do { status = at86rf231_get_status(); if (!--max_wait) { printf(...);
break; } } while ((status & MASK) != TRX_OFF);` on the `uint8_t max_wait`, with
at most `fuel` iterations. -/
def at86rf231_wait_trx_off (conf : At86Conf) (radio : Nat → Nat) :
    Nat → Nat → At86State → Option At86State
  | 0, _, _ => none
  | fuel + 1, max_wait, s =>
    let r := at86rf231_get_status conf radio s
    if (max_wait + 255) % 256 = 0 then
      some { r.1 with trace := r.1.trace ++ [.printf_error] }
    else if r.2 &&& conf.AT86RF231_TRX_STATUS_MASK__TRX_STATUS ≠
        conf.AT86RF231_TRX_STATUS__TRX_OFF then
      at86rf231_wait_trx_off conf radio fuel ((max_wait + 255) % 256) r.1
    else some r.1

/-- Function `void at86rf231_reset(void)`. -/
def at86rf231_reset (conf : At86Conf) (radio : Nat → Nat) (fuel : Nat) (s : At86State) :
    Option At86State :=
  (at86rf231_delay_loop fuel 50
    { s with trace := s.trace ++ [.spi_unselect, .slp_clear] }).bind fun r =>
    at86rf231_wait_trx_off conf radio fuel 100
      { r.1 with trace := r.1.trace ++
          [.rst_clear, .reg_write conf.AT86RF231_REG__TRX_STATE
            conf.AT86RF231_TRX_STATE__FORCE_TRX_OFF] }

/-! ## drivers/kw41zrf/kw41zrf_netdev.c -/

/-- The constants that kw41zrf_netdev.c takes from kw41zrf.h,
net/ieee802154.h, errno.h and the vendor header, none of which is among the
sources, and whether the module netstats_l2 is compiled in: they are
parameters of the driver. -/
structure Kw41zrfConf where
  IEEE802154_FCS_LEN : Nat
  KW41ZRF_MAX_PKT_LENGTH : Nat
  EOVERFLOW : Nat
  ENOBUFS : Nat
  KW41ZRF_OPT_PRELOADING : Nat
  KW41ZRF_OPT_AUTOACK : Nat
  IEEE802154_FCF_ACK_REQ : Nat
  ZLL_IRQSTS_RX_FRAME_LENGTH_MASK : Nat
  ZLL_IRQSTS_RX_FRAME_LENGTH_SHIFT : Nat
  ZLL_LQI_AND_RSSI_LQI_VALUE_MASK : Nat
  ZLL_LQI_AND_RSSI_LQI_VALUE_SHIFT : Nat
  ZLL_LQI_AND_RSSI_RSSI_MASK : Nat
  ZLL_LQI_AND_RSSI_RSSI_SHIFT : Nat
  MODULE_NETSTATS_L2 : Bool

/-- Number of values of a `size_t` on the KW41Z (32 bit). -/
def SIZE_T_MOD : Nat := 4294967296

/-- Type `struct iovec`: the bytes `iov_base[j]` and the length `iov_len`, a
`size_t`. -/
structure iovec where
  iov_base : Nat → Nat
  iov_len : Nat

/-- The transceiver sequences that `kw41zrf_netdev_send` requests. -/
inductive xcvseq_t where
  | XCVSEQ_IDLE
  | XCVSEQ_TRANSMIT
  | XCVSEQ_TX_RX
  deriving DecidableEq, Repr

/-- State of the device and of the transmit side of the radio: the bytes of
`ZLL->PKT_BUFFER_TX` (byte 0 is the frame length; indices beyond the buffer
stand for the memory behind it), `dev->pending_tx`, `dev->netdev.flags`, the
sequences requested by `kw41zrf_set_sequence` in order, the calls of
`kw41zrf_tx_load` as pairs (offset, len) in order, the number of `LOG_ERROR`
calls and `netdev->stats.tx_bytes`. -/
structure Kw41zrfState where
  PKT_BUFFER_TX : Nat → Nat
  pending_tx : Nat
  flags : Nat
  sequences : List xcvseq_t
  tx_loads : List (Nat × Nat)
  log_errors : Nat
  tx_bytes : Nat

/-- Function `static inline size_t kw41zrf_tx_load(const void *buf, size_t
len, size_t offset)`: `memcpy` of `len` bytes to the byte `offset + 1` of the
TX buffer; the result is `offset + len` as a `size_t`. -/
def kw41zrf_tx_load (buf : Nat → Nat) (len : Nat) (offset : Nat) (s : Kw41zrfState) :
    Kw41zrfState × Nat :=
  ({ s with
      PKT_BUFFER_TX := fun k =>
        if offset + 1 ≤ k ∧ k < offset + 1 + len then buf (k - (offset + 1))
        else s.PKT_BUFFER_TX k,
      tx_loads := s.tx_loads ++ [(offset, len)] },
   (offset + len) % SIZE_T_MOD)

/-- Call `kw41zrf_set_sequence(dev, seq)`; the function is not among the
sources and is recorded as a request. -/
def kw41zrf_set_sequence (seq : xcvseq_t) (s : Kw41zrfState) : Kw41zrfState :=
  { s with sequences := s.sequences ++ [seq] }

/-- Function `static void kw41zrf_tx_exec(kw41zrf_t *dev)`. -/
def kw41zrf_tx_exec (conf : Kw41zrfConf) (s : Kw41zrfState) : Kw41zrfState :=
  if s.flags &&& conf.KW41ZRF_OPT_AUTOACK ≠ 0 ∧
      s.PKT_BUFFER_TX 1 % 256 &&& conf.IEEE802154_FCF_ACK_REQ ≠ 0 then
    kw41zrf_set_sequence .XCVSEQ_TX_RX s
  else kw41zrf_set_sequence .XCVSEQ_TRANSMIT s

/-- The loop `for (unsigned i = 0; i < count; i++, ptr++)` of
`kw41zrf_netdev_send` over the `count` entries of `vector`, from the running
length `len`; the sum in the test is a `size_t`. The second component is the
final `len`, or `none` when the loop returns `-EOVERFLOW`. -/
def kw41zrf_send_loop (conf : Kw41zrfConf) :
    List iovec → Nat → Kw41zrfState → Kw41zrfState × Option Nat
  | [], len, s => (s, some len)
  | v :: rest, len, s =>
    if conf.KW41ZRF_MAX_PKT_LENGTH <
        (len + v.iov_len + conf.IEEE802154_FCS_LEN) % SIZE_T_MOD then
      ({ s with log_errors := s.log_errors + 1 }, none)
    else
      kw41zrf_send_loop conf rest (kw41zrf_tx_load v.iov_base v.iov_len len s).2
        (kw41zrf_tx_load v.iov_base v.iov_len len s).1

/-- The part of `kw41zrf_netdev_send` after the successful switch to idle:
the frame length octet is written, the statistics are updated and the frame is
sent unless pre-loading is enabled; the result is `(int)len`. -/
def kw41zrf_send_finish (conf : Kw41zrfConf) (len : Nat) (s : Kw41zrfState) :
    Kw41zrfState × Int :=
  let s1 : Kw41zrfState :=
    { s with PKT_BUFFER_TX := fun k =>
        if k = 0 then (len + conf.IEEE802154_FCS_LEN) % 256 else s.PKT_BUFFER_TX k }
  let s2 : Kw41zrfState :=
    if conf.MODULE_NETSTATS_L2 = true then
      { s1 with tx_bytes := (s1.tx_bytes + len) % 4294967296 }
    else s1
  let s3 := if s2.flags &&& conf.KW41ZRF_OPT_PRELOADING = 0 then kw41zrf_tx_exec conf s2 else s2
  (s3, int_val len)

/-- Function `static int kw41zrf_netdev_send(netdev_t *netdev, const struct
iovec *vector, unsigned count)`; `vector` holds the `count` entries and
`can_switch_to_idle` is the result of `kw41zrf_can_switch_to_idle(dev)`, which
is not among the sources. The type of `dev->pending_tx` is not among the
sources either; the counter is a natural number. -/
def kw41zrf_netdev_send (conf : Kw41zrfConf) (can_switch_to_idle : Bool)
    (vector : List iovec) (s : Kw41zrfState) : Kw41zrfState × Int :=
  match kw41zrf_send_loop conf vector 0 s with
  | (s1, none) => (s1, -(conf.EOVERFLOW : Int))
  | (s1, some len) =>
    if can_switch_to_idle = true then
      kw41zrf_send_finish conf len
        { kw41zrf_set_sequence .XCVSEQ_IDLE s1 with pending_tx := s1.pending_tx + 1 }
    else (s1, 0)

/-- Sum of the `iov_len` of the entries. -/
def iov_total : List iovec → Nat
  | [] => 0
  | v :: rest => v.iov_len + iov_total rest

/-- The contents of the entries, one after the other. -/
def iov_concat : List iovec → List Nat
  | [] => []
  | v :: rest => (List.range v.iov_len).map v.iov_base ++ iov_concat rest

/-- Type `netdev_ieee802154_rx_info_t`, the fields that the driver fills. -/
structure netdev_ieee802154_rx_info_t where
  lqi : Nat
  rssi : Nat
  deriving DecidableEq, Repr

/-- The receive side of the radio: the registers `ZLL->IRQSTS` and
`ZLL->LQI_AND_RSSI` and the bytes of `ZLL->PKT_BUFFER_RX`. -/
structure Kw41zrfRx where
  IRQSTS : Nat
  LQI_AND_RSSI : Nat
  PKT_BUFFER_RX : Nat → Nat

/-- What `kw41zrf_netdev_recv` leaves behind: the returned `int`, the memory at
`buf`, the number of bytes copied into it, the record at `info`, whether it
was written, and the statistics `rx_count` and `rx_bytes`. -/
structure Kw41zrfRecv where
  ret : Int
  buf : Nat → Nat
  copied : Nat
  info : netdev_ieee802154_rx_info_t
  info_written : Bool
  rx_count : Nat
  rx_bytes : Nat

/-- The received frame length: `(ZLL->IRQSTS & ZLL_IRQSTS_RX_FRAME_LENGTH_MASK)
>> ZLL_IRQSTS_RX_FRAME_LENGTH_SHIFT`. -/
def rx_frame_length (conf : Kw41zrfConf) (rx : Kw41zrfRx) : Nat :=
  ((rx.IRQSTS % 4294967296 &&& conf.ZLL_IRQSTS_RX_FRAME_LENGTH_MASK) >>>
    conf.ZLL_IRQSTS_RX_FRAME_LENGTH_SHIFT) % SIZE_T_MOD

/-- Function `static int kw41zrf_netdev_recv(netdev_t *netdev, void *buf,
size_t len, void *info)`. `buf_null` and `info_null` say whether the pointers
are NULL; `buf` and `info` are what they point to before the call, `rx_count`
and `rx_bytes` the statistics before the call. -/
def kw41zrf_netdev_recv (conf : Kw41zrfConf) (rx : Kw41zrfRx) (buf_null : Bool)
    (buf : Nat → Nat) (len : Nat) (info_null : Bool) (info : netdev_ieee802154_rx_info_t)
    (rx_count : Nat) (rx_bytes : Nat) : Kw41zrfRecv :=
  if buf_null = true then
    { ret := int_val (rx_frame_length conf rx), buf := buf, copied := 0, info := info,
      info_written := false, rx_count := rx_count, rx_bytes := rx_bytes }
  else
    let count1 := if conf.MODULE_NETSTATS_L2 = true then (rx_count + 1) % 4294967296
      else rx_count
    let bytes1 := if conf.MODULE_NETSTATS_L2 = true then
      (rx_bytes + rx_frame_length conf rx) % 4294967296 else rx_bytes
    if len < rx_frame_length conf rx then
      { ret := -(conf.ENOBUFS : Int), buf := buf, copied := 0, info := info,
        info_written := false, rx_count := count1, rx_bytes := bytes1 }
    else
      { ret := int_val ((rx_frame_length conf rx + SIZE_T_MOD - 2) % SIZE_T_MOD),
        buf := fun k => if k < rx_frame_length conf rx then rx.PKT_BUFFER_RX (k + 1) else buf k,
        copied := rx_frame_length conf rx,
        info := if info_null = true then info else
          { lqi := ((rx.LQI_AND_RSSI &&& conf.ZLL_LQI_AND_RSSI_LQI_VALUE_MASK) >>>
              conf.ZLL_LQI_AND_RSSI_LQI_VALUE_SHIFT) % 256,
            rssi := ((rx.LQI_AND_RSSI &&& conf.ZLL_LQI_AND_RSSI_RSSI_MASK) >>>
              conf.ZLL_LQI_AND_RSSI_RSSI_SHIFT) % 256 },
        info_written := !info_null,
        rx_count := count1, rx_bytes := bytes1 }

/-- The constants of the KW41Z: a maximum frame of 127 bytes with 2 bytes of
FCS, the 7-bit frame length field in the bits 24 to 30 of `IRQSTS`, and the
error numbers of newlib. -/
def kw41z_conf : Kw41zrfConf :=
  { IEEE802154_FCS_LEN := 2, KW41ZRF_MAX_PKT_LENGTH := 127,
    EOVERFLOW := 139, ENOBUFS := 105,
    KW41ZRF_OPT_PRELOADING := 0x200, KW41ZRF_OPT_AUTOACK := 0x80,
    IEEE802154_FCF_ACK_REQ := 0x20,
    ZLL_IRQSTS_RX_FRAME_LENGTH_MASK := 0x7F000000, ZLL_IRQSTS_RX_FRAME_LENGTH_SHIFT := 24,
    ZLL_LQI_AND_RSSI_LQI_VALUE_MASK := 0xFF, ZLL_LQI_AND_RSSI_LQI_VALUE_SHIFT := 0,
    ZLL_LQI_AND_RSSI_RSSI_MASK := 0xFF0000, ZLL_LQI_AND_RSSI_RSSI_SHIFT := 16,
    MODULE_NETSTATS_L2 := false }

/-- The device with an empty TX buffer, no pending transmission, no flags and
no request so far. -/
def kw41zrf_idle_state : Kw41zrfState :=
  { PKT_BUFFER_TX := fun _ => 0, pending_tx := 0, flags := 0, sequences := [],
    tx_loads := [], log_errors := 0, tx_bytes := 0 }

/-! # Theorems -/

/-! ## Priorities -/

/-- C1: for every SCHED_PRIO_LEVELS >= 2, PRIORITY_IDLE equals
PRIORITY_MIN = SCHED_PRIO_LEVELS - 1, which is the numerically largest level,
and PRIORITY_MAIN = PRIORITY_MIN - SCHED_PRIO_LEVELS / 2 satisfies
0 <= PRIORITY_MAIN < PRIORITY_IDLE. -/
theorem priority_main_valid (L : Int) (h : 2 ≤ L) :
    PRIORITY_IDLE L = PRIORITY_MIN L ∧
    PRIORITY_MIN L = L - 1 ∧
    (∀ p : Int, 0 ≤ p → p < L → p ≤ PRIORITY_MIN L) ∧
    PRIORITY_MAIN L = PRIORITY_MIN L - L / 2 ∧
    0 ≤ PRIORITY_MAIN L ∧ PRIORITY_MAIN L < PRIORITY_IDLE L := by
  have hd : Int.tdiv L 2 = L / 2 := Int.tdiv_eq_ediv (by omega) (by omega)
  unfold PRIORITY_IDLE PRIORITY_MAIN PRIORITY_MIN
  rw [hd]
  refine ⟨rfl, rfl, ?_, rfl, ?_, ?_⟩
  · intro p _ hp
    omega
  · omega
  · omega

/-- Witness of C1 at the usual 16 priority levels. -/
theorem priority_main_valid_witness :
    (2 : Int) ≤ 16 ∧ PRIORITY_IDLE 16 = PRIORITY_MIN 16 ∧
    PRIORITY_MIN 16 = 16 - 1 ∧
    (∀ p : Int, 0 ≤ p → p < 16 → p ≤ PRIORITY_MIN 16) ∧
    PRIORITY_MAIN 16 = PRIORITY_MIN 16 - 16 / 2 ∧
    0 ≤ PRIORITY_MAIN 16 ∧ PRIORITY_MAIN 16 < PRIORITY_IDLE 16 :=
  ⟨by decide, priority_main_valid 16 (by decide)⟩


/-! ## Low-power gate -/

/-- C5: LPM_PREVENT_SLEEP_UART (BIT2) and LPM_PREVENT_SLEEP_HWTIMER (BIT1) are
distinct single-bit masks, and for every value v of lpm_prevent_sleep setting
or clearing one reason's bit leaves the other reason's bit of v unchanged. -/
theorem lpm_reason_bits_independent (v : Nat) :
    LPM_PREVENT_SLEEP_UART = 2 ^ 2 ∧ LPM_PREVENT_SLEEP_HWTIMER = 2 ^ 1 ∧
    LPM_PREVENT_SLEEP_UART ≠ LPM_PREVENT_SLEEP_HWTIMER ∧
    LPM_PREVENT_SLEEP_UART &&& LPM_PREVENT_SLEEP_HWTIMER = 0 ∧
    (prevent_sleep_begin LPM_PREVENT_SLEEP_UART v).testBit 1 = v.testBit 1 ∧
    (prevent_sleep_end LPM_PREVENT_SLEEP_UART v).testBit 1 = v.testBit 1 ∧
    (prevent_sleep_begin LPM_PREVENT_SLEEP_HWTIMER v).testBit 2 = v.testBit 2 ∧
    (prevent_sleep_end LPM_PREVENT_SLEEP_HWTIMER v).testBit 2 = v.testBit 2 := by
  have h41 : Nat.testBit 4 1 = false := by decide
  have h22 : Nat.testBit 2 2 = false := by decide
  have hn41 : Nat.testBit 4294967291 1 = true := by decide
  have hn22 : Nat.testBit 4294967293 2 = true := by decide
  have e4 : bit_not 4 = 4294967291 := by decide
  have e2 : bit_not 2 = 4294967293 := by decide
  have m32 : (4294967296 : Nat) = 2 ^ 32 := by norm_num
  refine ⟨rfl, rfl, by decide, by decide, ?_, ?_, ?_, ?_⟩
  · show ((v ||| 4) % 4294967296).testBit 1 = v.testBit 1
    rw [m32, Nat.testBit_mod_two_pow, Nat.testBit_or, h41]
    simp
  · show ((v &&& bit_not 4) % 4294967296).testBit 1 = v.testBit 1
    rw [e4, m32, Nat.testBit_mod_two_pow, Nat.testBit_and, hn41]
    simp
  · show ((v ||| 2) % 4294967296).testBit 2 = v.testBit 2
    rw [m32, Nat.testBit_mod_two_pow, Nat.testBit_or, h22]
    simp
  · show ((v &&& bit_not 2) % 4294967296).testBit 2 = v.testBit 2
    rw [e2, m32, Nat.testBit_mod_two_pow, Nat.testBit_and, hn22]
    simp

/-- The values that the gate can take when only the two reasons are used. -/
theorem lpm_step_closed (v : Nat) (op : LpmOp)
    (hv : v = 0 ∨ v = 2 ∨ v = 4 ∨ v = 6) :
    lpm_step v op = 0 ∨ lpm_step v op = 2 ∨ lpm_step v op = 4 ∨ lpm_step v op = 6 := by
  rcases hv with h | h | h | h <;> subst h <;>
    rcases op with r | r <;> cases r <;> decide

/-- Closure of the four gate values under a sequence of operations. -/
theorem lpm_run_closed (ops : List LpmOp) (v : Nat)
    (hv : v = 0 ∨ v = 2 ∨ v = 4 ∨ v = 6) :
    lpm_run v ops = 0 ∨ lpm_run v ops = 2 ∨ lpm_run v ops = 4 ∨ lpm_run v ops = 6 := by
  induction ops generalizing v with
  | nil => exact hv
  | cons op rest ih => exact ih (lpm_step v op) (lpm_step_closed v op hv)

/-- C6: starting from lpm_prevent_sleep = 0, after every finite sequence of
prevent_sleep_begin / prevent_sleep_end operations on the reason bits
LPM_PREVENT_SLEEP_UART and LPM_PREVENT_SLEEP_HWTIMER the signed int value is
never negative, and it is 0 exactly when no reason bit is set. -/
theorem lpm_never_negative (ops : List LpmOp) :
    0 ≤ int_val (lpm_run 0 ops) ∧
    (int_val (lpm_run 0 ops) = 0 ↔
      ((lpm_run 0 ops).testBit 1 = false ∧ (lpm_run 0 ops).testBit 2 = false)) := by
  rcases lpm_run_closed ops 0 (Or.inl rfl) with h | h | h | h <;> rw [h] <;> decide

/-! ## CPU identifier -/

/-- The loop from counter `i` needs `CPU_ID_LEN - i` iterations and one final
test; it writes 0xff at the indices `i .. CPU_ID_LEN - 1` and nowhere else. -/
theorem GET_CPU_ID_loop_spec (N : Nat) (k : Nat) :
    ∀ (s : CpuIdLoop) (fuel : Nat), s.i + k = N → k < fuel →
      ∃ r, GET_CPU_ID_loop N fuel s = some r ∧ r.i = N ∧
        r.iterations = s.iterations + k ∧
        r.written = s.written ++ (List.range k).map (fun j => s.i + j) ∧
        (∀ j, r.buf.id j = if s.i ≤ j ∧ j < N then 0xff else s.buf.id j) := by
  induction k with
  | zero =>
    intro s fuel hs hf
    obtain ⟨f, rfl⟩ : ∃ f, fuel = f + 1 := ⟨fuel - 1, by omega⟩
    refine ⟨s, ?_, by omega, by simp, by simp, ?_⟩
    · have : ¬ s.i < N := by omega
      simp [GET_CPU_ID_loop, this]
    · intro j
      have : ¬ (s.i ≤ j ∧ j < N) := by omega
      simp [this]
  | succ k ih =>
    intro s fuel hs hf
    obtain ⟨f, rfl⟩ : ∃ f, fuel = f + 1 := ⟨fuel - 1, by omega⟩
    have hlt : s.i < N := by omega
    obtain ⟨r, hr, hi, hit, hw, hb⟩ := ih
      { buf := ⟨fun j => if j = s.i then 0xff else s.buf.id j⟩,
        i := s.i + 1, iterations := s.iterations + 1,
        written := s.written ++ [s.i] } f (by simp; omega) (by omega)
    refine ⟨r, ?_, hi, ?_, ?_, ?_⟩
    · simp [GET_CPU_ID_loop, hlt, hr]
    · rw [hit]; simp; omega
    · rw [hw]
      simp only [List.append_assoc, List.range_succ_eq_map, List.map_cons, List.map_map]
      simp
      intro a _
      show s.i + 1 + a = s.i + (a + 1)
      omega
    · intro j
      rw [hb j]
      simp only
      by_cases h1 : j = s.i
      · subst h1
        simp [hlt]
      · by_cases h2 : s.i + 1 ≤ j ∧ j < N
        · have : s.i ≤ j ∧ j < N := by omega
          simp [h2, this]
        · have : ¬ (s.i ≤ j ∧ j < N) := by omega
          simp [h2, this, h1]

/-- C7: for every CPU_ID_LEN >= 0 and every initial content of id, the default
GET_CPU_ID(id) terminates after CPU_ID_LEN iterations, leaves every byte
id.id[0 .. CPU_ID_LEN-1] equal to 0xff, and writes no index outside
0 .. CPU_ID_LEN-1; CPU_ID_LEN defaults to 2. -/
theorem GET_CPU_ID_fills (CPU_ID_LEN : Nat) (id : cpu_id_t) (fuel : Nat) :
    CPU_ID_LEN_default = 2 ∧
    ∃ r, GET_CPU_ID CPU_ID_LEN (CPU_ID_LEN + 1 + fuel) id = some r ∧
      r.iterations = CPU_ID_LEN ∧
      (∀ j, j < CPU_ID_LEN → r.buf.id j = 0xff) ∧
      r.written = List.range CPU_ID_LEN ∧
      (∀ j ∈ r.written, j < CPU_ID_LEN) ∧
      (∀ j, CPU_ID_LEN ≤ j → r.buf.id j = id.id j) := by
  obtain ⟨r, hr, _, hit, hw, hb⟩ := GET_CPU_ID_loop_spec CPU_ID_LEN CPU_ID_LEN
    { buf := id, i := 0, iterations := 0, written := [] } (CPU_ID_LEN + 1 + fuel)
    (by simp) (by omega)
  have hw2 : r.written = List.range CPU_ID_LEN := by
    rw [hw]; simp
  refine ⟨rfl, r, hr, by simpa using hit, ?_, hw2, ?_, ?_⟩
  · intro j hj
    rw [hb j]; simp [hj]
  · intro j hj
    rw [hw2] at hj
    exact List.mem_range.mp hj
  · intro j hj
    rw [hb j]
    have : ¬ j < CPU_ID_LEN := by omega
    simp [this]

/-! ## Scheduler -/

theorem rq_wf_bounds (rq : RunQueues) : ∀ (p : Nat) (t : tcb_t), rq_wf p rq →
    runnable rq t → p ≤ t.priority ∧ t.priority < p + rq.length := by
  induction rq with
  | nil =>
    intro p t _ h
    obtain ⟨q, hq, _⟩ := h
    simp at hq
  | cons q qs ih =>
    intro p t hwf h
    obtain ⟨q', hq', ht⟩ := h
    rcases List.mem_cons.mp hq' with h1 | h1
    · subst h1
      have := hwf.1 t ht
      simp only [List.length_cons]
      omega
    · have := ih (p + 1) t hwf.2 ⟨q', h1, ht⟩
      simp only [List.length_cons]
      omega

theorem rq_update_wf (t : tcb_t) (rq : RunQueues) : ∀ (p k : Nat), rq_wf p rq →
    t.priority = p + k → rq_wf p (rq_update (fun q => q ++ [t]) k rq) := by
  induction rq with
  | nil => intro p k _ _; cases k <;> exact True.intro
  | cons q qs ih =>
    intro p k hwf hk
    cases k with
    | zero =>
      refine ⟨?_, hwf.2⟩
      intro u hu
      rcases List.mem_append.mp hu with h | h
      · exact hwf.1 u h
      · simp at h; subst h; simpa using hk
    | succ k => exact ⟨hwf.1, ih (p + 1) k hwf.2 (by omega)⟩

theorem rq_update_length (f : List tcb_t → List tcb_t) (rq : RunQueues) :
    ∀ k, (rq_update f k rq).length = rq.length := by
  induction rq with
  | nil => intro k; cases k <;> rfl
  | cons q qs ih =>
    intro k
    cases k with
    | zero => rfl
    | succ k => simp [rq_update, ih k]

theorem rq_update_runnable (t u : tcb_t) (rq : RunQueues) : ∀ k, runnable rq u →
    runnable (rq_update (fun q => q ++ [t]) k rq) u := by
  induction rq with
  | nil => intro k h; obtain ⟨q, hq, _⟩ := h; simp at hq
  | cons q qs ih =>
    intro k h
    obtain ⟨q', hq', hu⟩ := h
    cases k with
    | zero =>
      rcases List.mem_cons.mp hq' with h1 | h1
      · subst h1
        exact ⟨q' ++ [t], by simp [rq_update], List.mem_append_left _ hu⟩
      · exact ⟨q', by simp [rq_update, h1], hu⟩
    | succ k =>
      rcases List.mem_cons.mp hq' with h1 | h1
      · subst h1
        exact ⟨q', by simp [rq_update], hu⟩
      · obtain ⟨q2, hq2, hu2⟩ := ih k ⟨q', h1, hu⟩
        exact ⟨q2, by simp [rq_update, hq2], hu2⟩

theorem rq_update_self (t : tcb_t) (rq : RunQueues) : ∀ k, k < rq.length →
    runnable (rq_update (fun q => q ++ [t]) k rq) t := by
  induction rq with
  | nil => intro k h; simp at h
  | cons q qs ih =>
    intro k h
    cases k with
    | zero => exact ⟨q ++ [t], by simp [rq_update], by simp⟩
    | succ k =>
      obtain ⟨q2, hq2, hu2⟩ := ih k (by simpa using h)
      exact ⟨q2, by simp [rq_update, hq2], hu2⟩

theorem set_sleeping_wf (pid : Nat) (rq : RunQueues) : ∀ p, rq_wf p rq →
    rq_wf p (set_sleeping pid rq) := by
  induction rq with
  | nil => intro p _; exact True.intro
  | cons q qs ih =>
    intro p hwf
    refine ⟨?_, ih (p + 1) hwf.2⟩
    intro u hu
    exact hwf.1 u (List.mem_of_mem_filter hu)

theorem sched_yield_wf (rq : RunQueues) : ∀ p, rq_wf p rq → rq_wf p (sched_yield rq) := by
  induction rq with
  | nil => intro p _; exact True.intro
  | cons q qs ih =>
    intro p hwf
    cases q with
    | nil => exact ⟨hwf.1, ih (p + 1) hwf.2⟩
    | cons t q =>
      refine ⟨?_, hwf.2⟩
      intro u hu
      apply hwf.1 u
      rcases List.mem_append.mp hu with h | h
      · exact List.mem_cons_of_mem _ h
      · simp at h; subst h; exact List.mem_cons_self _ _

theorem sched_yield_length (rq : RunQueues) : (sched_yield rq).length = rq.length := by
  induction rq with
  | nil => rfl
  | cons q qs ih => cases q <;> simp [sched_yield, ih]

theorem sched_yield_runnable (u : tcb_t) (rq : RunQueues) : runnable rq u →
    runnable (sched_yield rq) u := by
  induction rq with
  | nil => intro h; exact h
  | cons q qs ih =>
    intro h
    obtain ⟨q', hq', hu⟩ := h
    cases q with
    | nil =>
      rcases List.mem_cons.mp hq' with h1 | h1
      · subst h1; simp at hu
      · obtain ⟨q2, hq2, hu2⟩ := ih ⟨q', h1, hu⟩
        exact ⟨q2, by simp [sched_yield, hq2], hu2⟩
    | cons t q =>
      rcases List.mem_cons.mp hq' with h1 | h1
      · subst h1
        refine ⟨q ++ [t], by simp [sched_yield], ?_⟩
        rcases List.mem_cons.mp hu with h2 | h2
        · subst h2; simp
        · exact List.mem_append_left _ h2
      · exact ⟨q', by simp [sched_yield, h1], hu⟩

theorem sched_step_wf (rq : RunQueues) (op : SchedOp) (h : rq_wf 0 rq) :
    rq_wf 0 (sched_step rq op) := by
  cases op with
  | set_runnable t =>
    show rq_wf 0 (set_runnable t rq)
    unfold set_runnable
    split
    · exact h
    · exact rq_update_wf t rq 0 t.priority h (by omega)
  | set_sleeping pid => exact set_sleeping_wf pid rq 0 h
  | yield => exact sched_yield_wf rq 0 h

theorem sched_step_length (rq : RunQueues) (op : SchedOp) :
    (sched_step rq op).length = rq.length := by
  cases op with
  | set_runnable t =>
    show (set_runnable t rq).length = rq.length
    unfold set_runnable
    split
    · rfl
    · exact rq_update_length _ rq _
  | set_sleeping pid => simp [sched_step, set_sleeping]
  | yield => exact sched_yield_length rq

theorem sched_step_keeps (rq : RunQueues) (op : SchedOp) (idle : tcb_t)
    (hop : op ≠ .set_sleeping idle.pid) (h : runnable rq idle) :
    runnable (sched_step rq op) idle := by
  cases op with
  | set_runnable t =>
    show runnable (set_runnable t rq) idle
    unfold set_runnable
    split
    · exact h
    · exact rq_update_runnable t idle rq _ h
  | set_sleeping pid =>
    obtain ⟨q, hq, hu⟩ := h
    have hne : idle.pid ≠ pid := by
      intro e; apply hop; rw [e]
    refine ⟨q.filter (fun u => u.pid != pid), ?_, ?_⟩
    · simp only [sched_step, set_sleeping]
      exact List.mem_map_of_mem _ hq
    · simp [List.mem_filter, hu, hne]
  | yield => exact sched_yield_runnable idle rq h

theorem sched_run_inv (idle : tcb_t) (ops : List SchedOp) : ∀ (rq : RunQueues),
    (∀ op ∈ ops, op ≠ .set_sleeping idle.pid) → rq_wf 0 rq → runnable rq idle →
    rq_wf 0 (sched_run rq ops) ∧ runnable (sched_run rq ops) idle ∧
      (sched_run rq ops).length = rq.length := by
  induction ops with
  | nil => intro rq _ h1 h2; exact ⟨h1, h2, rfl⟩
  | cons op ops ih =>
    intro rq hops h1 h2
    have h := ih (sched_step rq op) (fun o ho => hops o (List.mem_cons_of_mem _ ho))
      (sched_step_wf rq op h1)
      (sched_step_keeps rq op idle (hops op (List.mem_cons_self _ _)) h2)
    exact ⟨h.1, h.2.1, by rw [← sched_step_length rq op]; exact h.2.2⟩

theorem next_runnable_min (rq : RunQueues) : ∀ (p : Nat) (t : tcb_t), rq_wf p rq →
    next_runnable rq = some t →
    runnable rq t ∧ ∀ u, runnable rq u → t.priority ≤ u.priority := by
  induction rq with
  | nil => intro p t _ h; simp [next_runnable] at h
  | cons q qs ih =>
    intro p t hwf h
    cases q with
    | nil =>
      obtain ⟨h1, h2⟩ := ih (p + 1) t hwf.2 (by simpa [next_runnable] using h)
      obtain ⟨q', hq', ht⟩ := h1
      refine ⟨⟨q', List.mem_cons_of_mem _ hq', ht⟩, ?_⟩
      intro u hu
      obtain ⟨q2, hq2, hu2⟩ := hu
      rcases List.mem_cons.mp hq2 with h3 | h3
      · subst h3; simp at hu2
      · exact h2 u ⟨q2, h3, hu2⟩
    | cons a q =>
      have hta : a = t := by simpa [next_runnable] using h
      subst hta
      refine ⟨⟨a :: q, List.mem_cons_self _ _, List.mem_cons_self _ _⟩, ?_⟩
      intro u hu
      have hp : a.priority = p := hwf.1 a (List.mem_cons_self _ _)
      have := (rq_wf_bounds _ p u hwf hu).1
      omega

theorem next_runnable_some (rq : RunQueues) (u : tcb_t) (h : runnable rq u) :
    ∃ t, next_runnable rq = some t := by
  induction rq with
  | nil => obtain ⟨q, hq, _⟩ := h; simp at hq
  | cons q qs ih =>
    cases q with
    | nil =>
      obtain ⟨q', hq', hu⟩ := h
      rcases List.mem_cons.mp hq' with h1 | h1
      · subst h1; simp at hu
      · obtain ⟨t, ht⟩ := ih ⟨q', h1, hu⟩
        exact ⟨t, by simpa [next_runnable] using ht⟩
    | cons a q => exact ⟨a, rfl⟩

theorem rq_wf_replicate (n : Nat) : ∀ p, rq_wf p (List.replicate n []) := by
  induction n with
  | zero => intro p; exact True.intro
  | succ n ih =>
    intro p
    exact ⟨by simp, ih (p + 1)⟩

theorem sched_init_inv (levels : Nat) (idle : tcb_t) (h : idle.priority < levels) :
    rq_wf 0 (sched_init levels idle) ∧ runnable (sched_init levels idle) idle ∧
      (sched_init levels idle).length = levels := by
  have hno : (List.replicate levels ([] : List tcb_t)).any
      (fun q => q.any (fun u => u.pid == idle.pid)) = false := by
    rw [List.any_eq_false]
    intro q hq
    rw [List.eq_of_mem_replicate hq]
    simp
  unfold sched_init set_runnable
  rw [hno]
  simp only [Bool.false_eq_true, if_false]
  refine ⟨rq_update_wf idle _ 0 idle.priority (rq_wf_replicate levels 0) (by omega), ?_, ?_⟩
  · exact rq_update_self idle _ _ (by simpa using h)
  · rw [rq_update_length]; simp

/-- C2, as stated, fails: with a second thread made runnable at the level
PRIORITY_IDLE = 15 of 16 levels, the idle thread, which queued first at that
level, is selected although another thread is runnable. -/
theorem sched_idle_selected_with_other_runnable :
    next_runnable (sched_run (sched_init 16 ⟨0, 15⟩) [.set_runnable ⟨1, 15⟩]) =
      some ⟨0, 15⟩ ∧
    runnable (sched_run (sched_init 16 ⟨0, 15⟩) [.set_runnable ⟨1, 15⟩]) ⟨1, 15⟩ ∧
    (⟨1, 15⟩ : tcb_t) ≠ ⟨0, 15⟩ ∧
    ((15 : Nat) : Int) = PRIORITY_IDLE ((16 : Nat) : Int) := by
  refine ⟨by decide, ?_, by decide, by decide⟩
  exact ⟨[⟨0, 15⟩, ⟨1, 15⟩], by decide, by decide⟩

/-- C2, amended: at every scheduling decision (after any sequence of scheduler
operations from system start, the idle thread never being put to sleep) a
thread is selected, and its priority value is less than or equal to that of
every other runnable thread, all within the levels 0..PRIORITY_MIN; the idle
thread at PRIORITY_IDLE is selected only when no thread of a level above
PRIORITY_IDLE is runnable, that is, when every runnable thread is at the level
PRIORITY_IDLE. -/
theorem sched_selects_highest_priority (levels : Nat) (idle : tcb_t)
    (ops : List SchedOp)
    (hidle : (idle.priority : Int) = PRIORITY_IDLE (levels : Int))
    (hops : ∀ op ∈ ops, op ≠ .set_sleeping idle.pid) :
    ∃ t, next_runnable (sched_run (sched_init levels idle) ops) = some t ∧
      runnable (sched_run (sched_init levels idle) ops) t ∧
      (∀ u, runnable (sched_run (sched_init levels idle) ops) u →
        t.priority ≤ u.priority ∧ (u.priority : Int) ≤ PRIORITY_MIN (levels : Int)) ∧
      (t = idle → ∀ u, runnable (sched_run (sched_init levels idle) ops) u →
        (u.priority : Int) = PRIORITY_IDLE (levels : Int)) := by
  have hlt : idle.priority < levels := by
    unfold PRIORITY_IDLE PRIORITY_MIN at hidle
    omega
  obtain ⟨i1, i2, i3⟩ := sched_init_inv levels idle hlt
  obtain ⟨w1, w2, w3⟩ := sched_run_inv idle ops (sched_init levels idle) hops i1 i2
  obtain ⟨t, ht⟩ := next_runnable_some _ idle w2
  obtain ⟨m1, m2⟩ := next_runnable_min _ 0 t w1 ht
  have hb : ∀ u, runnable (sched_run (sched_init levels idle) ops) u →
      u.priority < levels := by
    intro u hu
    have := (rq_wf_bounds _ 0 u w1 hu).2
    rw [w3, i3] at this
    omega
  refine ⟨t, ht, m1, ?_, ?_⟩
  · intro u hu
    refine ⟨m2 u hu, ?_⟩
    have := hb u hu
    unfold PRIORITY_MIN
    omega
  · intro hti u hu
    have h1 := m2 u hu
    have h2 := hb u hu
    rw [hti] at h1
    unfold PRIORITY_IDLE PRIORITY_MIN at hidle ⊢
    omega

/-- Witness of the amended C2: the threads A(2), B(2), C(1) are made runnable
in that order over 16 levels with the idle thread at level 15; the thread C is
selected, and every runnable thread has a priority value of at least 1 and at
most PRIORITY_MIN. -/
theorem sched_selects_highest_priority_witness :
    next_runnable (sched_run (sched_init 16 ⟨0, 15⟩)
      [.set_runnable ⟨1, 2⟩, .set_runnable ⟨2, 2⟩, .set_runnable ⟨3, 1⟩]) = some ⟨3, 1⟩ ∧
    ∀ u, runnable (sched_run (sched_init 16 ⟨0, 15⟩)
      [.set_runnable ⟨1, 2⟩, .set_runnable ⟨2, 2⟩, .set_runnable ⟨3, 1⟩]) u →
      1 ≤ u.priority ∧ (u.priority : Int) ≤ PRIORITY_MIN ((16 : Nat) : Int) := by
  obtain ⟨t, h1, _, h3, _⟩ := sched_selects_highest_priority 16 ⟨0, 15⟩
    [.set_runnable ⟨1, 2⟩, .set_runnable ⟨2, 2⟩, .set_runnable ⟨3, 1⟩]
    (by decide) (by decide)
  have e : next_runnable (sched_run (sched_init 16 ⟨0, 15⟩)
      [.set_runnable ⟨1, 2⟩, .set_runnable ⟨2, 2⟩, .set_runnable ⟨3, 1⟩]) =
      some ⟨3, 1⟩ := by decide
  have ht : t = ⟨3, 1⟩ := by
    rw [e] at h1
    exact (Option.some.inj h1).symm
  subst ht
  exact ⟨e, fun u hu => h3 u hu⟩

/-! ## Mutex -/

theorem holders_append (a b : List MutexEv) : ∀ hs, holders hs (a ++ b) = holders (holders hs a) b := by
  induction a with
  | nil => intro hs; rfl
  | cons e a ih => intro hs; cases e <;> simp [holders, ih]

theorem woken_order_append (a b : List MutexEv) :
    woken_order (a ++ b) = woken_order a ++ woken_order b := by
  induction a with
  | nil => rfl
  | cons e a ih => cases e <;> simp [woken_order, ih]

theorem blocked_order_append (a b : List MutexEv) :
    blocked_order (a ++ b) = blocked_order a ++ blocked_order b := by
  induction a with
  | nil => rfl
  | cons e a ih => cases e <;> simp [blocked_order, ih]

theorem mutex_run_append (a b : List MutexOp) : ∀ m, mutex_run m (a ++ b) =
    ((mutex_run (mutex_run m a).1 b).1, (mutex_run m a).2 ++ (mutex_run (mutex_run m a).1 b).2) := by
  induction a with
  | nil => intro m; simp [mutex_run]
  | cons op a ih => intro m; simp [mutex_run, ih]

theorem mutex_step_holders (m : mutex_t) (op : MutexOp) :
    holders m.owner.toList (mutex_step m op).2 = (mutex_step m op).1.owner.toList ∧
    ∀ k, (holders m.owner.toList ((mutex_step m op).2.take k)).length ≤ 1 := by
  obtain ⟨owner, queue⟩ := m
  cases op with
  | lock t =>
    cases owner with
    | none =>
      refine ⟨rfl, ?_⟩
      intro k
      rcases k with _ | k <;> simp [mutex_step, mutex_lock, holders]
    | some o =>
      refine ⟨rfl, ?_⟩
      intro k
      rcases k with _ | k <;> simp [mutex_step, mutex_lock, holders]
  | unlock =>
    cases queue with
    | nil =>
      cases owner with
      | none =>
        refine ⟨rfl, ?_⟩
        intro k
        rcases k with _ | k <;> simp [mutex_step, mutex_unlock, holders, release_events]
      | some o =>
        refine ⟨by simp [mutex_step, mutex_unlock, holders, release_events], ?_⟩
        intro k
        rcases k with _ | k <;> simp [mutex_step, mutex_unlock, holders, release_events]
    | cons t rest =>
      cases owner with
      | none =>
        refine ⟨rfl, ?_⟩
        intro k
        rcases k with _ | k <;> simp [mutex_step, mutex_unlock, holders, release_events]
      | some o =>
        refine ⟨by simp [mutex_step, mutex_unlock, holders, release_events], ?_⟩
        intro k
        rcases k with _ | _ | k <;> simp [mutex_step, mutex_unlock, holders, release_events]

theorem mutex_run_holders (ops : List MutexOp) : ∀ m : mutex_t,
    holders m.owner.toList (mutex_run m ops).2 = (mutex_run m ops).1.owner.toList ∧
    ∀ k, (holders m.owner.toList ((mutex_run m ops).2.take k)).length ≤ 1 := by
  induction ops with
  | nil =>
    intro m
    refine ⟨rfl, ?_⟩
    intro k
    cases h : m.owner <;> simp [mutex_run, holders]
  | cons op ops ih =>
    intro m
    obtain ⟨s1, s2⟩ := mutex_step_holders m op
    obtain ⟨r1, r2⟩ := ih (mutex_step m op).1
    constructor
    · show holders _ ((mutex_step m op).2 ++ _) = _
      rw [holders_append, s1]
      exact r1
    · intro k
      show (holders _ (((mutex_step m op).2 ++ _).take k)).length ≤ 1
      rw [List.take_append_eq_append_take, holders_append]
      by_cases hk : k < (mutex_step m op).2.length
      · have : k - (mutex_step m op).2.length = 0 := by omega
        rw [this]
        simpa [holders] using s2 k
      · rw [List.take_of_length_le (by omega), s1]
        exact r2 _

theorem mutex_step_fifo (m : mutex_t) (op : MutexOp) :
    woken_order (mutex_step m op).2 ++ (mutex_step m op).1.queue =
      m.queue ++ blocked_order (mutex_step m op).2 ∧
    (m.queue ≠ [] → m.owner ≠ none →
      (mutex_step m op).1.queue ≠ [] → (mutex_step m op).1.owner ≠ none) ∧
    (m.queue = [] → (mutex_step m op).1.queue ≠ [] → (mutex_step m op).1.owner ≠ none) := by
  obtain ⟨owner, queue⟩ := m
  cases op with
  | lock t =>
    cases owner <;> simp [mutex_step, mutex_lock, woken_order, blocked_order]
  | unlock =>
    cases queue with
    | nil => cases owner <;>
        simp [mutex_step, mutex_unlock, woken_order, blocked_order, release_events]
    | cons t rest => cases owner <;>
        simp [mutex_step, mutex_unlock, woken_order, blocked_order, release_events,
          woken_order_append, blocked_order_append]

theorem mutex_run_fifo (ops : List MutexOp) : ∀ m : mutex_t,
    (m.queue ≠ [] → m.owner ≠ none) →
    woken_order (mutex_run m ops).2 ++ (mutex_run m ops).1.queue =
      m.queue ++ blocked_order (mutex_run m ops).2 ∧
    ((mutex_run m ops).1.queue ≠ [] → (mutex_run m ops).1.owner ≠ none) := by
  induction ops with
  | nil => intro m h; exact ⟨by simp [mutex_run, woken_order, blocked_order], h⟩
  | cons op ops ih =>
    intro m h
    obtain ⟨s1, s2, s3⟩ := mutex_step_fifo m op
    have hinv : (mutex_step m op).1.queue ≠ [] → (mutex_step m op).1.owner ≠ none := by
      intro hq
      by_cases hm : m.queue = []
      · exact s3 hm hq
      · exact s2 hm (h hm) hq
    obtain ⟨r1, r2⟩ := ih (mutex_step m op).1 hinv
    refine ⟨?_, r2⟩
    show woken_order ((mutex_step m op).2 ++ (mutex_run (mutex_step m op).1 ops).2) ++
        (mutex_run (mutex_step m op).1 ops).1.queue =
      m.queue ++ blocked_order ((mutex_step m op).2 ++ (mutex_run (mutex_step m op).1 ops).2)
    rw [woken_order_append, blocked_order_append, List.append_assoc, r1,
      ← List.append_assoc, s1, List.append_assoc]

theorem mutex_run_locks (ws : List Nat) : ∀ (o : Nat) (q : List Nat),
    mutex_run ⟨some o, q⟩ (ws.map MutexOp.lock) = (⟨some o, q ++ ws⟩, ws.map MutexEv.blocked) := by
  induction ws with
  | nil => intro o q; simp [mutex_run]
  | cons w ws ih =>
    intro o q
    simp [mutex_run, mutex_step, mutex_lock, ih]

theorem mutex_run_unlocks (q : List Nat) : ∀ (o : Nat),
    woken_order (mutex_run ⟨some o, q⟩ (List.replicate q.length MutexOp.unlock)).2 = q := by
  induction q with
  | nil => intro o; simp [mutex_run, woken_order]
  | cons w q ih =>
    intro o
    simp [List.replicate, mutex_run, mutex_step, mutex_unlock, release_events, woken_order, ih]

theorem woken_order_blocked (ws : List Nat) : woken_order (ws.map MutexEv.blocked) = [] := by
  induction ws with
  | nil => rfl
  | cons w ws ih => simpa [woken_order] using ih

/-- C3: for all interleavings of mutex_lock and mutex_unlock calls on one
mutex, at most one thread holds the mutex at any time, and K threads blocked
on it are released in the order in which they queued (FIFO). -/
theorem mutex_exclusion_fifo (ops : List MutexOp) (o : Nat) (ws : List Nat) :
    (∀ k, (holders [] ((mutex_run mutex_init ops).2.take k)).length ≤ 1) ∧
    holders [] (mutex_run mutex_init ops).2 = (mutex_run mutex_init ops).1.owner.toList ∧
    ((mutex_run mutex_init ops).1.queue = [] ∨ (mutex_run mutex_init ops).1.owner ≠ none) ∧
    woken_order (mutex_run mutex_init ops).2 ++ (mutex_run mutex_init ops).1.queue =
      blocked_order (mutex_run mutex_init ops).2 ∧
    woken_order (mutex_run { owner := some o, queue := [] }
      (ws.map MutexOp.lock ++ List.replicate ws.length MutexOp.unlock)).2 = ws := by
  obtain ⟨h1, h2⟩ := mutex_run_holders ops mutex_init
  obtain ⟨f1, f2⟩ := mutex_run_fifo ops mutex_init (by simp [mutex_init])
  refine ⟨h2, h1, ?_, by simpa [mutex_init] using f1, ?_⟩
  · by_cases hq : (mutex_run mutex_init ops).1.queue = []
    · exact Or.inl hq
    · exact Or.inr (f2 hq)
  · rw [mutex_run_append, mutex_run_locks]
    simp only [List.nil_append, woken_order_append, woken_order_blocked]
    exact mutex_run_unlocks ws o

/-! ## Fuel -/

theorem returnsWith_pure {α : Type} (a : α) : ReturnsWith (fun _ => some a) a :=
  ⟨0, fun _ _ => rfl⟩

theorem returnsWith_bind {α β : Type} (p : Nat → Option α) (g : Nat → α → Option β)
    (a : α) (b : β) (hp : ReturnsWith p a) (hg : ReturnsWith (fun f => g f a) b) :
    ReturnsWith (fun f => (p f).bind (g f)) b := by
  obtain ⟨F1, h1⟩ := hp
  obtain ⟨F2, h2⟩ := hg
  refine ⟨max F1 F2, fun f hf => ?_⟩
  have e1 := h1 f (le_trans (le_max_left _ _) hf)
  have e2 := h2 f (le_trans (le_max_right _ _) hf)
  simp only [e1, Option.some_bind]
  exact e2

theorem returnsWith_map {α β : Type} (p : Nat → Option α) (g : α → β) (a : α)
    (hp : ReturnsWith p a) : ReturnsWith (fun f => (p f).map g) (g a) := by
  obtain ⟨F, h⟩ := hp
  exact ⟨F, fun f hf => by simp [h f hf]⟩

/-! ## SPI -/

theorem spi_wait_ready_returns (hw : SpiHw) (dev : Nat) (k : Nat) :
    ∀ s : SpiState, hw.events_ready (s.ready_reads + k) = 1 →
      ∃ s1, ReturnsWith (fun fuel => spi_wait_ready hw dev fuel s) s1 := by
  induction k with
  | zero =>
    intro s h
    refine ⟨spi_read_ready hw dev s, 1, fun fuel hf => ?_⟩
    obtain ⟨f, rfl⟩ : ∃ f, fuel = f + 1 := ⟨fuel - 1, by omega⟩
    have h0 : hw.events_ready s.ready_reads = 1 := by simpa using h
    simp only [spi_wait_ready, h0, ne_eq, not_true_eq_false, if_false]
  | succ k ih =>
    intro s h
    by_cases h0 : hw.events_ready s.ready_reads = 1
    · refine ⟨spi_read_ready hw dev s, 1, fun fuel hf => ?_⟩
      obtain ⟨f, rfl⟩ : ∃ f, fuel = f + 1 := ⟨fuel - 1, by omega⟩
      simp only [spi_wait_ready, h0, ne_eq, not_true_eq_false, if_false]
    · obtain ⟨s1, F, hF⟩ := ih (spi_read_ready hw dev s)
        (by simpa [spi_read_ready, Nat.add_assoc, Nat.add_comm 1 k] using h)
      refine ⟨s1, F + 1, fun fuel hf => ?_⟩
      obtain ⟨f, rfl⟩ : ∃ f, fuel = f + 1 := ⟨fuel - 1, by omega⟩
      simp only [spi_wait_ready, ne_eq, h0, not_false_eq_true, if_true]
      exact hF f (by omega)

theorem spi_transfer_loop_returns (hw : SpiHw) (hhw : hw.signals_ready) (dev : Nat)
    (out : Nat → Nat) (in_ptr : Option Nat) (length : Nat) (hlen : length ≤ INT_MAX)
    (k : Nat) : ∀ (i : Nat) (s : SpiState), i + k = length →
      ∃ s1, ReturnsWith
        (fun fuel => spi_transfer_loop hw fuel dev out in_ptr length fuel i s) s1 ∧
        ∀ n, ∃ F, ∀ fuel, F ≤ fuel → ∀ m, n + k < m →
          spi_transfer_loop hw fuel dev out in_ptr length m i s = some s1 := by
  induction k with
  | zero =>
    intro i s hi
    have hnot : ¬ i < length := by omega
    have key : ∀ fuel m, 0 < m →
        spi_transfer_loop hw fuel dev out in_ptr length m i s = some s := by
      intro fuel m hm
      obtain ⟨m', rfl⟩ : ∃ m', m = m' + 1 := ⟨m - 1, by omega⟩
      simp [spi_transfer_loop, hnot]
    exact ⟨s, ⟨1, fun fuel hf => key fuel fuel (by omega)⟩,
      fun n => ⟨0, fun fuel _ m hm => key fuel m (by omega)⟩⟩
  | succ k ih =>
    intro i s hi
    have hlt : i < length := by omega
    obtain ⟨kk, hkk⟩ := hhw (spi_write dev .TXD (out i % 256)
      (spi_write dev .EVENTS_READY 0 s)).ready_reads
    obtain ⟨s3, F1, hF1⟩ := spi_wait_ready_returns hw dev kk
      (spi_write dev .TXD (out i % 256) (spi_write dev .EVENTS_READY 0 s)) hkk
    obtain ⟨s5, _, hrest⟩ := ih (i + 1) (spi_store_rxd hw dev in_ptr i s3) (by omega)
    have hov : ¬ INT_MAX < i + 1 := by omega
    have key : ∀ n, ∃ F, ∀ fuel, F ≤ fuel → ∀ m, n + (k + 1) < m →
        spi_transfer_loop hw fuel dev out in_ptr length m i s = some s5 := by
      intro n
      obtain ⟨F2, hF2⟩ := hrest n
      refine ⟨max F1 F2, fun fuel hf m hm => ?_⟩
      obtain ⟨m', rfl⟩ : ∃ m', m = m' + 1 := ⟨m - 1, by omega⟩
      have e1 := hF1 fuel (le_trans (le_max_left _ _) hf)
      simp only [spi_transfer_loop, hlt, if_true, e1, Option.some_bind, hov, if_false]
      exact hF2 fuel (le_trans (le_max_right _ _) hf) m' (by omega)
    refine ⟨s5, ?_, key⟩
    obtain ⟨F, hF⟩ := key 0
    exact ⟨max F (k + 2), fun fuel hf =>
      hF fuel (le_trans (le_max_left _ _) hf) fuel
        (by have := le_trans (le_max_right F (k + 2)) hf; omega)⟩

theorem int_val_of_le (n : Nat) (h : n ≤ INT_MAX) : int_val n = (n : Int) := by
  unfold INT_MAX at h
  have h1 : n % 4294967296 = n := Nat.mod_eq_of_lt (by omega)
  unfold int_val
  rw [h1]
  have h2 : n < 2147483648 := by omega
  simp [h2]

theorem spi_transfer_bytes_returns (NUMOF : Nat) (hw : SpiHw) (hhw : hw.signals_ready)
    (dev : Nat) (hdev : dev < NUMOF) (out : Nat → Nat) (in_ptr : Option Nat)
    (length : Nat) (hlen : length ≤ INT_MAX) (s : SpiState) :
    ∃ s1, ReturnsWith
      (fun fuel => spi_transfer_bytes NUMOF hw fuel dev out in_ptr length s)
      (s1, (length : Int)) := by
  obtain ⟨s1, h1, _⟩ := spi_transfer_loop_returns hw hhw dev out in_ptr length hlen
    length 0 s (by omega)
  refine ⟨s1, ?_⟩
  have hnot : ¬ NUMOF ≤ dev := by omega
  have := returnsWith_map _ (fun s1 => (s1, int_val length)) s1 h1
  simp only [int_val_of_le length hlen] at this
  simp only [spi_transfer_bytes, hnot, if_false, int_val_of_le length hlen]
  exact this

/-- C8: for every dev >= SPI_NUMOF, spi_transfer_byte, spi_transfer_bytes,
spi_transfer_reg and spi_transfer_regs each return -1 and access no SPI
register; for every dev < SPI_NUMOF, with the hardware signalling EVENTS_READY
and length <= INT_MAX, they return the number of bytes of the data transfer:
1 for spi_transfer_byte and spi_transfer_reg, length for spi_transfer_bytes
and spi_transfer_regs. -/
theorem spi_transfer_return_codes (SPI_NUMOF : Nat) (hw : SpiHw) (dev : Nat)
    (reg : Nat) (out1 : Nat) (out : Nat → Nat) (in_ptr : Option Nat) (length : Nat)
    (s : SpiState) :
    (SPI_NUMOF ≤ dev → ∀ fuel,
      spi_transfer_byte SPI_NUMOF hw fuel dev out1 in_ptr s = some (s, -1) ∧
      spi_transfer_bytes SPI_NUMOF hw fuel dev out in_ptr length s = some (s, -1) ∧
      spi_transfer_reg SPI_NUMOF hw fuel dev reg out1 in_ptr s = some (s, -1) ∧
      spi_transfer_regs SPI_NUMOF hw fuel dev reg out in_ptr length s = some (s, -1)) ∧
    (dev < SPI_NUMOF → hw.signals_ready → length ≤ INT_MAX →
      (∃ s1, ReturnsWith
        (fun fuel => spi_transfer_byte SPI_NUMOF hw fuel dev out1 in_ptr s) (s1, 1)) ∧
      (∃ s1, ReturnsWith
        (fun fuel => spi_transfer_bytes SPI_NUMOF hw fuel dev out in_ptr length s)
        (s1, (length : Int))) ∧
      (∃ s1, ReturnsWith
        (fun fuel => spi_transfer_reg SPI_NUMOF hw fuel dev reg out1 in_ptr s) (s1, 1)) ∧
      (∃ s1, ReturnsWith
        (fun fuel => spi_transfer_regs SPI_NUMOF hw fuel dev reg out in_ptr length s)
        (s1, (length : Int)))) := by
  constructor
  · intro hdev fuel
    simp [spi_transfer_byte, spi_transfer_bytes, spi_transfer_reg, spi_transfer_regs, hdev]
  · intro hdev hhw hlen
    have one : (1 : Nat) ≤ INT_MAX := by decide
    have byte : ∀ (o : Nat) (p : Option Nat) (s0 : SpiState), ∃ s1, ReturnsWith
        (fun fuel => spi_transfer_byte SPI_NUMOF hw fuel dev o p s0) (s1, 1) := by
      intro o p s0
      obtain ⟨s1, h⟩ := spi_transfer_bytes_returns SPI_NUMOF hw hhw dev hdev
        (fun _ => o) p 1 one s0
      exact ⟨s1, by simpa [spi_transfer_byte] using h⟩
    refine ⟨byte out1 in_ptr s,
      spi_transfer_bytes_returns SPI_NUMOF hw hhw dev hdev out in_ptr length hlen s, ?_, ?_⟩
    · obtain ⟨s1, h1⟩ := byte reg none s
      obtain ⟨s2, h2⟩ := byte out1 in_ptr s1
      refine ⟨s2, ?_⟩
      unfold spi_transfer_reg
      exact returnsWith_bind _
        (fun fuel (r : SpiState × Int) => spi_transfer_byte SPI_NUMOF hw fuel dev out1 in_ptr r.1)
        (s1, 1) (s2, 1) h1 h2
    · obtain ⟨s1, h1⟩ := byte reg none s
      obtain ⟨s2, h2⟩ := spi_transfer_bytes_returns SPI_NUMOF hw hhw dev hdev out in_ptr
        length hlen s1
      refine ⟨s2, ?_⟩
      unfold spi_transfer_regs
      exact returnsWith_bind _
        (fun fuel (r : SpiState × Int) =>
          spi_transfer_bytes SPI_NUMOF hw fuel dev out in_ptr length r.1)
        (s1, 1) (s2, (length : Int)) h1 h2

/-- Witness of C8: with one SPI device, device 1 is rejected with -1 and no
access, and on hardware that signals EVENTS_READY at every read a transfer of
3 bytes on device 0 returns 3. -/
theorem spi_transfer_return_codes_witness :
    spi_transfer_regs 1 ⟨fun _ => 1, fun _ => 0⟩ 0 1 0x20 (fun i => i) none 3
        ⟨[], 0, 0, fun _ => 0⟩ = some (⟨[], 0, 0, fun _ => 0⟩, -1) ∧
    ∃ s1, ReturnsWith
      (fun fuel => spi_transfer_regs 1 ⟨fun _ => 1, fun _ => 0⟩ fuel 0 0x20 (fun i => i)
        none 3 ⟨[], 0, 0, fun _ => 0⟩) (s1, 3) :=
  ⟨((spi_transfer_return_codes 1 ⟨fun _ => 1, fun _ => 0⟩ 1 0x20 0 (fun i => i) none 3
      ⟨[], 0, 0, fun _ => 0⟩).1 (by decide) 0).2.2.2,
   ((spi_transfer_return_codes 1 ⟨fun _ => 1, fun _ => 0⟩ 0 0x20 0 (fun i => i) none 3
      ⟨[], 0, 0, fun _ => 0⟩).2 (by decide) (fun _ => ⟨0, rfl⟩) (by decide)).2.2.2⟩

/-! ## I2C -/

theorem wait_sr1_set_returns (hw : I2CHw) (mask : Nat) (k : Nat) :
    ∀ s : I2CState, hw.sr1 (s.sr1_reads + k) &&& mask ≠ 0 →
      ∃ m, ReturnsWith (fun fuel => wait_sr1_set hw mask fuel s) { s with sr1_reads := m } := by
  induction k with
  | zero =>
    intro s h
    refine ⟨s.sr1_reads + 1, 1, fun fuel hf => ?_⟩
    obtain ⟨f, rfl⟩ : ∃ f, fuel = f + 1 := ⟨fuel - 1, by omega⟩
    have h0 : ¬ hw.sr1 s.sr1_reads &&& mask = 0 := by simpa using h
    simp only [wait_sr1_set, h0, if_false]
    rfl
  | succ k ih =>
    intro s h
    by_cases h0 : hw.sr1 s.sr1_reads &&& mask = 0
    · obtain ⟨m, F, hF⟩ := ih (read_sr1 s)
        (by simpa [read_sr1, Nat.add_assoc, Nat.add_comm 1 k] using h)
      refine ⟨m, F + 1, fun fuel hf => ?_⟩
      obtain ⟨f, rfl⟩ : ∃ f, fuel = f + 1 := ⟨fuel - 1, by omega⟩
      simp only [wait_sr1_set, h0, if_true]
      exact hF f (by omega)
    · refine ⟨s.sr1_reads + 1, 1, fun fuel hf => ?_⟩
      obtain ⟨f, rfl⟩ : ∃ f, fuel = f + 1 := ⟨fuel - 1, by omega⟩
      simp only [wait_sr1_set, h0, if_false]
      rfl

theorem wait_sr1_clear_returns (hw : I2CHw) (mask : Nat) (k : Nat) :
    ∀ s : I2CState, hw.sr1 (s.sr1_reads + k) &&& mask = 0 →
      ∃ m, ReturnsWith (fun fuel => wait_sr1_clear hw mask fuel s) { s with sr1_reads := m } := by
  induction k with
  | zero =>
    intro s h
    refine ⟨s.sr1_reads + 1, 1, fun fuel hf => ?_⟩
    obtain ⟨f, rfl⟩ : ∃ f, fuel = f + 1 := ⟨fuel - 1, by omega⟩
    have h0 : hw.sr1 s.sr1_reads &&& mask = 0 := by simpa using h
    simp only [wait_sr1_clear, h0, ne_eq, not_true_eq_false, if_false]
    rfl
  | succ k ih =>
    intro s h
    by_cases h0 : hw.sr1 s.sr1_reads &&& mask = 0
    · refine ⟨s.sr1_reads + 1, 1, fun fuel hf => ?_⟩
      obtain ⟨f, rfl⟩ : ∃ f, fuel = f + 1 := ⟨fuel - 1, by omega⟩
      simp only [wait_sr1_clear, h0, ne_eq, not_true_eq_false, if_false]
      rfl
    · obtain ⟨m, F, hF⟩ := ih (read_sr1 s)
        (by simpa [read_sr1, Nat.add_assoc, Nat.add_comm 1 k] using h)
      refine ⟨m, F + 1, fun fuel hf => ?_⟩
      obtain ⟨f, rfl⟩ : ∃ f, fuel = f + 1 := ⟨fuel - 1, by omega⟩
      simp only [wait_sr1_clear, ne_eq, h0, not_false_eq_true, if_true]
      exact hF f (by omega)

theorem _start_returns (conf : I2CConf) (hw : I2CHw) (hhw : hw.answers conf)
    (address rw_flag : Nat) (s : I2CState) :
    ∃ s1, ReturnsWith (fun fuel => _start conf hw fuel address rw_flag s) s1 ∧
      s1.lock = s.lock ∧
      s1.trace = s.trace ++ [.set_bits .I2C_CR1 conf.I2C_CR1_START,
        .assign .I2C_DR ((address <<< 1) ||| rw_flag)] := by
  obtain ⟨k1, hk1⟩ := hhw.1 (reg_set_bits .I2C_CR1 conf.I2C_CR1_START s).sr1_reads
  obtain ⟨m1, h1⟩ := wait_sr1_set_returns hw conf.I2C_SR1_SB k1 _ hk1
  obtain ⟨k2, hk2⟩ := hhw.2.1 (reg_assign .I2C_DR ((address <<< 1) ||| rw_flag)
    { reg_set_bits .I2C_CR1 conf.I2C_CR1_START s with sr1_reads := m1 }).sr1_reads
  obtain ⟨m2, h2⟩ := wait_sr1_set_returns hw conf.I2C_SR1_ADDR k2 _ hk2
  refine ⟨_, returnsWith_bind _ _ _ _ h1 (returnsWith_bind _ _ _ _ h2 (returnsWith_pure _)),
    rfl, ?_⟩
  simp [read_sr1, read_sr2, reg_assign, reg_set_bits]

theorem _stop_returns (conf : I2CConf) (hw : I2CHw) (hhw : hw.answers conf)
    (s : I2CState) :
    ∃ s1, ReturnsWith (fun fuel => _stop conf hw fuel s) s1 ∧
      s1.lock = s.lock ∧
      s1.trace = s.trace ++ [.set_bits .I2C_CR1 conf.I2C_CR1_STOP] := by
  obtain ⟨k1, hk1⟩ := hhw.2.2.1 s.sr1_reads
  obtain ⟨m1, h1⟩ := wait_sr1_set_returns hw conf.I2C_SR1_BTF k1 _ hk1
  obtain ⟨k2, hk2⟩ := hhw.2.2.2 (reg_set_bits .I2C_CR1 conf.I2C_CR1_STOP
    { s with sr1_reads := m1 }).sr1_reads
  obtain ⟨m2, h2⟩ := wait_sr1_clear_returns hw conf.I2C_CR1_STOP k2 _ hk2
  refine ⟨_, returnsWith_bind _ _ _ _ h1 h2, rfl, ?_⟩
  simp [reg_set_bits]

theorem i2c_mutex_lock_handoff (hw : I2CHw) (isr : I2CState → I2CState × Option Nat)
    (pre : I2CState → I2CState) (evs : List I2CEv)
    (hisr : ∀ s, isr s = i2c_mutex_unlock (pre s))
    (hpre : ∀ s, (pre s).lock = s.lock ∧ (pre s).trace = s.trace ++ evs)
    (tid o : Nat) (s : I2CState) (hown : s.lock = { owner := some o, queue := [] })
    (hirq : hw.dma_irq ≠ .never) :
    ∃ s1, i2c_mutex_lock hw isr tid s = some s1 ∧
      s1.lock = { owner := some tid, queue := [] } ∧
      s1.trace = s.trace ++ handoff_events hw.dma_irq tid (evs ++ [.mutex_unlock]) := by
  cases h : hw.dma_irq with
  | never => exact absurd h hirq
  | before_lock =>
    have hl : (isr s).1.lock = { owner := none, queue := [] } := by
      rw [hisr s]
      simp [i2c_mutex_unlock, (hpre s).1, hown, mutex_unlock]
    have ht : (isr s).1.trace = s.trace ++ evs ++ [.mutex_unlock] := by
      rw [hisr s]
      simp [i2c_mutex_unlock, (hpre s).2]
    refine ⟨{ (isr s).1 with lock := { owner := some tid, queue := [] },
                             trace := (isr s).1.trace ++ [.mutex_lock tid] }, ?_, rfl, ?_⟩
    · simp only [i2c_mutex_lock, h, hl, mutex_lock]
    · simp [ht, handoff_events]
  | while_blocked =>
    have hw2 : ∀ s2 : I2CState, s2.lock = { owner := some o, queue := [tid] } →
        (isr s2).2 = some tid ∧ (isr s2).1.lock = { owner := some tid, queue := [] } ∧
          (isr s2).1.trace = s2.trace ++ evs ++ [.mutex_unlock] := by
      intro s2 h2
      rw [hisr s2]
      simp [i2c_mutex_unlock, (hpre s2).1, (hpre s2).2, h2, mutex_unlock]
    obtain ⟨w1, w2, w3⟩ := hw2
      { s with lock := { owner := some o, queue := [tid] },
               trace := s.trace ++ [.mutex_lock tid] } rfl
    refine ⟨(isr { s with lock := { owner := some o, queue := [tid] },
                          trace := s.trace ++ [.mutex_lock tid] }).1, ?_, w2, ?_⟩
    · simp only [i2c_mutex_lock, h, hown, mutex_lock, List.nil_append, w1, if_true]
    · simp [w3, handoff_events]

theorem i2c_mutex_lock_returns (hw : I2CHw) (isr : I2CState → I2CState × Option Nat)
    (pre : I2CState → I2CState)
    (hisr : ∀ s, isr s = i2c_mutex_unlock (pre s))
    (hpre : ∀ s, (pre s).lock = s.lock)
    (tid : Nat) (s : I2CState) (hq : s.lock.queue = [])
    (hfree : s.lock.owner = none ∨ hw.dma_irq ≠ .never) :
    ∃ s1, i2c_mutex_lock hw isr tid s = some s1 := by
  have hu : (isr s).1.lock = { owner := none, queue := [] } := by
    rw [hisr s]
    simp [i2c_mutex_unlock, hpre s, hq, mutex_unlock]
  have hv : ∀ (s2 : I2CState) (o : Nat), s2.lock = { owner := some o, queue := [tid] } →
      (isr s2).2 = some tid := by
    intro s2 o h2
    rw [hisr s2]
    simp [i2c_mutex_unlock, hpre s2, h2, mutex_unlock]
  cases h : hw.dma_irq with
  | before_lock =>
    simp only [i2c_mutex_lock, h, hu, mutex_lock]
    exact ⟨_, rfl⟩
  | never =>
    rcases hfree with hf | hf
    · simp only [i2c_mutex_lock, h, hf, mutex_lock]
      exact ⟨_, rfl⟩
    · exact absurd h hf
  | while_blocked =>
    cases ho : s.lock.owner with
    | none =>
      simp only [i2c_mutex_lock, h, ho, mutex_lock]
      exact ⟨_, rfl⟩
    | some o =>
      simp only [i2c_mutex_lock, h, ho, hq, mutex_lock, List.nil_append]
      rw [if_pos (hv _ o (by simp [ho]))]
      exact ⟨_, rfl⟩

theorem rx_isr_form (conf : I2CConf) :
    (∀ s, I2C_0_DMA_RX_ISR conf s = i2c_mutex_unlock
      (reg_set_bits .DMA_IFCR (0xf <<< conf.I2C_0_DMA_RX_OFF)
        (reg_clear_bits .DMA_RX_CCR conf.DMA_CCR1_EN (emit (.puts .RX_ISR) s)))) ∧
    (∀ s : I2CState, (reg_set_bits .DMA_IFCR (0xf <<< conf.I2C_0_DMA_RX_OFF)
        (reg_clear_bits .DMA_RX_CCR conf.DMA_CCR1_EN (emit (.puts .RX_ISR) s))).lock = s.lock ∧
      (reg_set_bits .DMA_IFCR (0xf <<< conf.I2C_0_DMA_RX_OFF)
        (reg_clear_bits .DMA_RX_CCR conf.DMA_CCR1_EN (emit (.puts .RX_ISR) s))).trace =
        s.trace ++ [.puts .RX_ISR, .clear_bits .DMA_RX_CCR conf.DMA_CCR1_EN,
          .set_bits .DMA_IFCR (0xf <<< conf.I2C_0_DMA_RX_OFF)]) :=
  ⟨fun _ => rfl, fun s => ⟨rfl, by simp [reg_set_bits, reg_clear_bits, emit]⟩⟩

theorem tx_isr_form (conf : I2CConf) :
    (∀ s, I2C_0_DMA_TX_ISR conf s = i2c_mutex_unlock
      (reg_set_bits .DMA_IFCR (0xf <<< conf.I2C_0_DMA_TX_OFF)
        (reg_clear_bits .DMA_TX_CCR conf.DMA_CCR1_EN (emit (.puts .TX_ISR) s)))) ∧
    (∀ s : I2CState, (reg_set_bits .DMA_IFCR (0xf <<< conf.I2C_0_DMA_TX_OFF)
        (reg_clear_bits .DMA_TX_CCR conf.DMA_CCR1_EN (emit (.puts .TX_ISR) s))).lock = s.lock ∧
      (reg_set_bits .DMA_IFCR (0xf <<< conf.I2C_0_DMA_TX_OFF)
        (reg_clear_bits .DMA_TX_CCR conf.DMA_CCR1_EN (emit (.puts .TX_ISR) s))).trace =
        s.trace ++ [.puts .TX_ISR, .clear_bits .DMA_TX_CCR conf.DMA_CCR1_EN,
          .set_bits .DMA_IFCR (0xf <<< conf.I2C_0_DMA_TX_OFF)]) :=
  ⟨fun _ => rfl, fun s => ⟨rfl, by simp [reg_set_bits, reg_clear_bits, emit]⟩⟩

theorem returnsWith_const {α : Type} (p : Option α) (a : α) (h : p = some a) :
    ReturnsWith (fun _ => p) a :=
  ⟨0, fun _ _ => h⟩

theorem i2c_read_bytes_returns (conf : I2CConf) (hw : I2CHw) (tid address data : Nat)
    (length : Int) (s : I2CState) (hnum : 0 < conf.I2C_NUMOF) (hhw : hw.answers conf)
    (hq : s.lock.queue = []) (hfree : s.lock.owner = none ∨ hw.dma_irq ≠ .never) :
    ∃ s1, ReturnsWith
      (fun fuel => i2c_read_bytes conf hw fuel tid I2C_0 address data length s)
      (s1, length) := by
  obtain ⟨a, ha, hal, _⟩ := _start_returns conf hw hhw address conf.I2C_FLAG_READ
    (reg_set_bits .I2C_CR2 (conf.I2C_CR2_DMAEN ||| conf.I2C_CR2_LAST)
      (reg_set_bits .DMA_RX_CCR conf.DMA_CCR1_EN
        (reg_assign .DMA_RX_CMAR data
          (reg_assign .DMA_RX_CNDTR (u32_of_int length) s))))
  have hal2 : a.lock = s.lock := hal
  obtain ⟨b, hb⟩ := i2c_mutex_lock_returns hw (I2C_0_DMA_RX_ISR conf) _
    (rx_isr_form conf).1 (fun x => ((rx_isr_form conf).2 x).1) tid a
    (by rw [hal2]; exact hq) (by rw [hal2]; exact hfree)
  obtain ⟨c, hc, _, _⟩ := _stop_returns conf hw hhw b
  refine ⟨c, ?_⟩
  have hn : ¬ conf.I2C_NUMOF ≤ I2C_0 := by unfold I2C_0; omega
  simp only [i2c_read_bytes, hn, if_false, ne_eq, not_true_eq_false]
  exact returnsWith_bind _ _ _ _ ha
    (returnsWith_bind _ _ _ _ (returnsWith_const _ _ hb)
      (returnsWith_map _ (fun s3 => (s3, length)) c hc))

theorem i2c_write_bytes_returns (conf : I2CConf) (hw : I2CHw) (tid address data : Nat)
    (length : Int) (s : I2CState) (hnum : 0 < conf.I2C_NUMOF) (hhw : hw.answers conf)
    (hq : s.lock.queue = []) (hfree : s.lock.owner = none ∨ hw.dma_irq ≠ .never) :
    ∃ s1, ReturnsWith
      (fun fuel => i2c_write_bytes conf hw fuel tid I2C_0 address data length s)
      (s1, length) := by
  obtain ⟨a, ha, hal, _⟩ := _start_returns conf hw hhw address conf.I2C_FLAG_WRITE
    (reg_set_bits .I2C_CR2 conf.I2C_CR2_DMAEN
      (reg_clear_bits .I2C_CR2 conf.I2C_CR2_LAST
        (reg_set_bits .DMA_TX_CCR conf.DMA_CCR1_EN
          (reg_assign .DMA_TX_CMAR data
            (reg_assign .DMA_TX_CNDTR (u32_of_int length) s)))))
  have hal2 : a.lock = s.lock := hal
  obtain ⟨b, hb⟩ := i2c_mutex_lock_returns hw (I2C_0_DMA_TX_ISR conf) _
    (tx_isr_form conf).1 (fun x => ((tx_isr_form conf).2 x).1) tid a
    (by rw [hal2]; exact hq) (by rw [hal2]; exact hfree)
  obtain ⟨c, hc, _, _⟩ := _stop_returns conf hw hhw b
  refine ⟨c, ?_⟩
  have hn : ¬ conf.I2C_NUMOF ≤ I2C_0 := by unfold I2C_0; omega
  simp only [i2c_write_bytes, hn, if_false, ne_eq, not_true_eq_false]
  exact returnsWith_bind _ _ _ _ ha
    (returnsWith_bind _ _ _ _ (returnsWith_const _ _ hb)
      (returnsWith_map _ (fun s3 => (s3, length)) c hc))

theorem i2c_write_regs_returns (conf : I2CConf) (hw : I2CHw) (tid address reg data : Nat)
    (length : Int) (s : I2CState) (hnum : 0 < conf.I2C_NUMOF) (hhw : hw.answers conf)
    (hq : s.lock.queue = []) (hfree : s.lock.owner = none ∨ hw.dma_irq ≠ .never) :
    ∃ s1, ReturnsWith
      (fun fuel => i2c_write_regs conf hw fuel tid I2C_0 address reg data length s)
      (s1, length) := by
  obtain ⟨a, ha, hal, _⟩ := _start_returns conf hw hhw address conf.I2C_FLAG_WRITE
    (reg_set_bits .DMA_TX_CCR conf.DMA_CCR1_EN
      (reg_assign .DMA_TX_CMAR data
        (reg_assign .DMA_TX_CNDTR (u32_of_int length)
          (reg_clear_bits .I2C_CR2 conf.I2C_CR2_DMAEN s))))
  have hal2 : a.lock = s.lock := hal
  obtain ⟨b, hb⟩ := i2c_mutex_lock_returns hw (I2C_0_DMA_TX_ISR conf) _
    (tx_isr_form conf).1 (fun x => ((tx_isr_form conf).2 x).1) tid
    (reg_set_bits .I2C_CR2 conf.I2C_CR2_DMAEN
      (reg_clear_bits .I2C_CR2 conf.I2C_CR2_LAST
        (reg_assign .I2C_DR (address % 256) a)))
    (by show a.lock.queue = []; rw [hal2]; exact hq)
    (by show a.lock.owner = none ∨ _; rw [hal2]; exact hfree)
  obtain ⟨c, hc, _, _⟩ := _stop_returns conf hw hhw b
  refine ⟨c, ?_⟩
  have hn : ¬ conf.I2C_NUMOF ≤ I2C_0 := by unfold I2C_0; omega
  simp only [i2c_write_regs, hn, if_false, ne_eq, not_true_eq_false]
  exact returnsWith_bind _ _ _ _ ha
    (returnsWith_bind _ _ _ _ (returnsWith_const _ _ hb)
      (returnsWith_map _ (fun s3 => (s3, length)) c hc))

theorem i2c_read_regs_returns (conf : I2CConf) (hw : I2CHw) (tid address reg data : Nat)
    (length : Int) (s : I2CState) (hnum : 0 < conf.I2C_NUMOF) (hhw : hw.answers conf)
    (hq : s.lock.queue = []) (hfree : s.lock.owner = none ∨ hw.dma_irq ≠ .never) :
    ∃ s1, ReturnsWith
      (fun fuel => i2c_read_regs conf hw fuel tid I2C_0 address reg data length s)
      (s1, length) := by
  obtain ⟨a, ha, hal, _⟩ := _start_returns conf hw hhw address conf.I2C_FLAG_WRITE s
  obtain ⟨b, hb, hbl, _⟩ := _stop_returns conf hw hhw (reg_assign .I2C_DR reg a)
  have hbl2 : b.lock = s.lock := by rw [hbl]; exact hal
  obtain ⟨c, hc⟩ := i2c_read_bytes_returns conf hw tid address data length b hnum hhw
    (by rw [hbl2]; exact hq) (by rw [hbl2]; exact hfree)
  refine ⟨c, ?_⟩
  have hn : ¬ conf.I2C_NUMOF ≤ I2C_0 := by unfold I2C_0; omega
  simp only [i2c_read_regs, hn, if_false, ne_eq, not_true_eq_false]
  exact returnsWith_bind _ _ _ _ ha (returnsWith_bind _ _ _ _ hb hc)

theorem wait_sr1_set_never (hw : I2CHw) (mask : Nat) (h : ∀ n, hw.sr1 n &&& mask = 0) :
    ∀ (fuel : Nat) (s : I2CState), wait_sr1_set hw mask fuel s = none := by
  intro fuel
  induction fuel with
  | zero => intro s; rfl
  | succ f ih =>
    intro s
    simp only [wait_sr1_set, h, if_true]
    exact ih _

theorem _start_never (conf : I2CConf) (hw : I2CHw)
    (h : ∀ n, hw.sr1 n &&& conf.I2C_SR1_ADDR = 0) (fuel address rw_flag : Nat)
    (s : I2CState) : _start conf hw fuel address rw_flag s = none := by
  unfold _start
  cases wait_sr1_set hw conf.I2C_SR1_SB fuel (reg_set_bits .I2C_CR1 conf.I2C_CR1_START s) with
  | none => rfl
  | some s1 => simp [wait_sr1_set_never hw conf.I2C_SR1_ADDR h]

theorem _start_never_sb (conf : I2CConf) (hw : I2CHw)
    (h : ∀ n, hw.sr1 n &&& conf.I2C_SR1_SB = 0) (fuel address rw_flag : Nat)
    (s : I2CState) : _start conf hw fuel address rw_flag s = none := by
  unfold _start
  rw [wait_sr1_set_never hw conf.I2C_SR1_SB h]
  rfl

theorem _start_silent (conf : I2CConf) (hw : I2CHw)
    (h : (∀ n, hw.sr1 n &&& conf.I2C_SR1_SB = 0) ∨
      (∀ n, hw.sr1 n &&& conf.I2C_SR1_ADDR = 0)) (fuel address rw_flag : Nat)
    (s : I2CState) : _start conf hw fuel address rw_flag s = none := by
  rcases h with h | h
  · exact _start_never_sb conf hw h fuel address rw_flag s
  · exact _start_never conf hw h fuel address rw_flag s

theorem wait_sr1_set_lock (hw : I2CHw) (mask : Nat) :
    ∀ (fuel : Nat) (s s1 : I2CState), wait_sr1_set hw mask fuel s = some s1 →
      s1.lock = s.lock := by
  intro fuel
  induction fuel with
  | zero => intro s s1 h; exact Option.noConfusion h
  | succ f ih =>
    intro s s1 h
    simp only [wait_sr1_set] at h
    split at h
    · have e := ih (read_sr1 s) s1 h
      exact e
    · cases h
      rfl

theorem wait_sr1_clear_lock (hw : I2CHw) (mask : Nat) :
    ∀ (fuel : Nat) (s s1 : I2CState), wait_sr1_clear hw mask fuel s = some s1 →
      s1.lock = s.lock := by
  intro fuel
  induction fuel with
  | zero => intro s s1 h; exact Option.noConfusion h
  | succ f ih =>
    intro s s1 h
    simp only [wait_sr1_clear] at h
    split at h
    · have e := ih (read_sr1 s) s1 h
      exact e
    · cases h
      rfl

theorem _start_lock (conf : I2CConf) (hw : I2CHw) (fuel address rw_flag : Nat)
    (s s1 : I2CState) (h : _start conf hw fuel address rw_flag s = some s1) :
    s1.lock = s.lock := by
  unfold _start at h
  cases h1 : wait_sr1_set hw conf.I2C_SR1_SB fuel
      (reg_set_bits .I2C_CR1 conf.I2C_CR1_START s) with
  | none => rw [h1] at h; exact Option.noConfusion h
  | some a =>
    rw [h1] at h
    simp only [Option.some_bind] at h
    cases h2 : wait_sr1_set hw conf.I2C_SR1_ADDR fuel
        (reg_assign .I2C_DR ((address <<< 1) ||| rw_flag) a) with
    | none => rw [h2] at h; exact Option.noConfusion h
    | some b =>
      rw [h2] at h
      simp only [Option.some_bind] at h
      cases h
      have e1 := wait_sr1_set_lock hw _ _ _ _ h1
      have e2 := wait_sr1_set_lock hw _ _ _ _ h2
      show b.lock = s.lock
      rw [e2]
      exact e1

theorem _stop_lock (conf : I2CConf) (hw : I2CHw) (fuel : Nat)
    (s s1 : I2CState) (h : _stop conf hw fuel s = some s1) :
    s1.lock = s.lock := by
  unfold _stop at h
  cases h1 : wait_sr1_set hw conf.I2C_SR1_BTF fuel s with
  | none => rw [h1] at h; exact Option.noConfusion h
  | some a =>
    rw [h1] at h
    simp only [Option.some_bind] at h
    have e1 := wait_sr1_set_lock hw _ _ _ _ h1
    have e2 := wait_sr1_clear_lock hw _ _ _ _ h
    rw [e2]
    exact e1

theorem i2c_mutex_lock_never (hw : I2CHw) (isr : I2CState → I2CState × Option Nat)
    (tid o : Nat) (s : I2CState) (hirq : hw.dma_irq = .never)
    (hown : s.lock.owner = some o) : i2c_mutex_lock hw isr tid s = none := by
  simp [i2c_mutex_lock, hirq, mutex_lock, hown]

theorem i2c_read_bytes_no_irq (conf : I2CConf) (hw : I2CHw) (fuel tid o address data : Nat)
    (length : Int) (s : I2CState) (hnum : 0 < conf.I2C_NUMOF)
    (hirq : hw.dma_irq = .never) (hown : s.lock.owner = some o) :
    i2c_read_bytes conf hw fuel tid I2C_0 address data length s = none := by
  have hn : ¬ conf.I2C_NUMOF ≤ I2C_0 := by unfold I2C_0; omega
  simp only [i2c_read_bytes, hn, if_false, ne_eq, not_true_eq_false]
  cases h1 : _start conf hw fuel address conf.I2C_FLAG_READ
      (reg_set_bits .I2C_CR2 (conf.I2C_CR2_DMAEN ||| conf.I2C_CR2_LAST)
        (reg_set_bits .DMA_RX_CCR conf.DMA_CCR1_EN
          (reg_assign .DMA_RX_CMAR data
            (reg_assign .DMA_RX_CNDTR (u32_of_int length) s)))) with
  | none => rfl
  | some a =>
    have e0 := _start_lock conf hw _ _ _ _ _ h1
    have e : a.lock = s.lock := e0
    simp only [Option.some_bind]
    rw [i2c_mutex_lock_never hw _ tid o a hirq (by rw [e]; exact hown)]
    rfl

theorem i2c_write_bytes_no_irq (conf : I2CConf) (hw : I2CHw) (fuel tid o address data : Nat)
    (length : Int) (s : I2CState) (hnum : 0 < conf.I2C_NUMOF)
    (hirq : hw.dma_irq = .never) (hown : s.lock.owner = some o) :
    i2c_write_bytes conf hw fuel tid I2C_0 address data length s = none := by
  have hn : ¬ conf.I2C_NUMOF ≤ I2C_0 := by unfold I2C_0; omega
  simp only [i2c_write_bytes, hn, if_false, ne_eq, not_true_eq_false]
  cases h1 : _start conf hw fuel address conf.I2C_FLAG_WRITE
      (reg_set_bits .I2C_CR2 conf.I2C_CR2_DMAEN
        (reg_clear_bits .I2C_CR2 conf.I2C_CR2_LAST
          (reg_set_bits .DMA_TX_CCR conf.DMA_CCR1_EN
            (reg_assign .DMA_TX_CMAR data
              (reg_assign .DMA_TX_CNDTR (u32_of_int length) s))))) with
  | none => rfl
  | some a =>
    have e0 := _start_lock conf hw _ _ _ _ _ h1
    have e : a.lock = s.lock := e0
    simp only [Option.some_bind]
    rw [i2c_mutex_lock_never hw _ tid o a hirq (by rw [e]; exact hown)]
    rfl

theorem i2c_write_regs_no_irq (conf : I2CConf) (hw : I2CHw)
    (fuel tid o address reg data : Nat)
    (length : Int) (s : I2CState) (hnum : 0 < conf.I2C_NUMOF)
    (hirq : hw.dma_irq = .never) (hown : s.lock.owner = some o) :
    i2c_write_regs conf hw fuel tid I2C_0 address reg data length s = none := by
  have hn : ¬ conf.I2C_NUMOF ≤ I2C_0 := by unfold I2C_0; omega
  simp only [i2c_write_regs, hn, if_false, ne_eq, not_true_eq_false]
  cases h1 : _start conf hw fuel address conf.I2C_FLAG_WRITE
      (reg_set_bits .DMA_TX_CCR conf.DMA_CCR1_EN
        (reg_assign .DMA_TX_CMAR data
          (reg_assign .DMA_TX_CNDTR (u32_of_int length)
            (reg_clear_bits .I2C_CR2 conf.I2C_CR2_DMAEN s)))) with
  | none => rfl
  | some a =>
    have e0 := _start_lock conf hw _ _ _ _ _ h1
    have e : a.lock = s.lock := e0
    simp only [Option.some_bind]
    rw [i2c_mutex_lock_never hw _ tid o _ hirq
      (by show a.lock.owner = some o; rw [e]; exact hown)]
    rfl

theorem i2c_read_regs_no_irq (conf : I2CConf) (hw : I2CHw)
    (fuel tid o address reg data : Nat)
    (length : Int) (s : I2CState) (hnum : 0 < conf.I2C_NUMOF)
    (hirq : hw.dma_irq = .never) (hown : s.lock.owner = some o) :
    i2c_read_regs conf hw fuel tid I2C_0 address reg data length s = none := by
  have hn : ¬ conf.I2C_NUMOF ≤ I2C_0 := by unfold I2C_0; omega
  simp only [i2c_read_regs, hn, if_false, ne_eq, not_true_eq_false]
  cases h1 : _start conf hw fuel address conf.I2C_FLAG_WRITE s with
  | none => rfl
  | some a =>
    have e0 := _start_lock conf hw _ _ _ _ _ h1
    have e : a.lock = s.lock := e0
    simp only [Option.some_bind]
    cases h2 : _stop conf hw fuel (reg_assign .I2C_DR reg a) with
    | none => rfl
    | some b =>
      have e1 := _stop_lock conf hw _ _ _ h2
      have e2 : b.lock = a.lock := e1
      simp only [Option.some_bind]
      exact i2c_read_bytes_no_irq conf hw fuel tid o address data length b hnum hirq
        (by rw [e2, e]; exact hown)

/-- C9, as stated, fails: on a valid device with length 1, when no slave
acknowledges the address (ADDR never set), i2c_read_bytes does not return for
any fuel, so it does not return length. -/
theorem i2c_read_bytes_nack_never_returns :
    ¬ ∃ fuel r, i2c_read_bytes stm32f1_conf hw_nack fuel 8 I2C_0 0x40 0x20000000 1
      (i2c_locked_state 1) = some r := by
  rintro ⟨fuel, r, h⟩
  have hn : ∀ n, hw_nack.sr1 n &&& stm32f1_conf.I2C_SR1_ADDR = 0 := by
    intro n
    show (0x1 &&& 0x2 : Nat) = 0
    decide
  have h0 : ¬ stm32f1_conf.I2C_NUMOF ≤ I2C_0 := by decide
  simp only [i2c_read_bytes, h0, if_false, ne_eq, not_true_eq_false,
    _start_never stm32f1_conf hw_nack hn, Option.none_bind] at h
  exact Option.noConfusion h

/-- C9, amended: for every dev >= I2C_NUMOF each of the eight transfer
functions returns -1 and leaves the driver state (registers, mutex, trace)
unchanged; for the valid device I2C_0 they return length (1 for the
single-byte variants) for every sufficient fuel, provided that the hardware
shows the status flags the driver waits for, no other thread waits on the
device mutex, and the mutex is free or the DMA completion interrupt is
delivered; on the valid device I2C_0 none of them returns, whatever the fuel,
when the hardware never shows SB or never shows ADDR, or when the device mutex
is held and the DMA completion interrupt is never delivered: no error code is
produced. -/
theorem i2c_transfer_return_codes (conf : I2CConf) (hw : I2CHw)
    (tid dev address reg data : Nat) (length : Int) (s : I2CState) :
    (conf.I2C_NUMOF ≤ dev → ∀ fuel,
      i2c_read_byte conf hw fuel tid dev address data s = some (s, -1) ∧
      i2c_read_bytes conf hw fuel tid dev address data length s = some (s, -1) ∧
      i2c_read_reg conf hw fuel tid dev address reg data s = some (s, -1) ∧
      i2c_read_regs conf hw fuel tid dev address reg data length s = some (s, -1) ∧
      i2c_write_byte conf hw fuel tid dev address data s = some (s, -1) ∧
      i2c_write_bytes conf hw fuel tid dev address data length s = some (s, -1) ∧
      i2c_write_reg conf hw fuel tid dev address reg data s = some (s, -1) ∧
      i2c_write_regs conf hw fuel tid dev address reg data length s = some (s, -1)) ∧
    (dev < conf.I2C_NUMOF → dev = I2C_0 → hw.answers conf → s.lock.queue = [] →
      (s.lock.owner = none ∨ hw.dma_irq ≠ .never) →
      (∃ s1, ReturnsWith
        (fun fuel => i2c_read_byte conf hw fuel tid dev address data s) (s1, 1)) ∧
      (∃ s1, ReturnsWith
        (fun fuel => i2c_read_bytes conf hw fuel tid dev address data length s)
        (s1, length)) ∧
      (∃ s1, ReturnsWith
        (fun fuel => i2c_read_reg conf hw fuel tid dev address reg data s) (s1, 1)) ∧
      (∃ s1, ReturnsWith
        (fun fuel => i2c_read_regs conf hw fuel tid dev address reg data length s)
        (s1, length)) ∧
      (∃ s1, ReturnsWith
        (fun fuel => i2c_write_byte conf hw fuel tid dev address data s) (s1, 1)) ∧
      (∃ s1, ReturnsWith
        (fun fuel => i2c_write_bytes conf hw fuel tid dev address data length s)
        (s1, length)) ∧
      (∃ s1, ReturnsWith
        (fun fuel => i2c_write_reg conf hw fuel tid dev address reg data s) (s1, 1)) ∧
      (∃ s1, ReturnsWith
        (fun fuel => i2c_write_regs conf hw fuel tid dev address reg data length s)
        (s1, length))) ∧
    (dev < conf.I2C_NUMOF → dev = I2C_0 →
      ((∀ n, hw.sr1 n &&& conf.I2C_SR1_SB = 0) ∨
        (∀ n, hw.sr1 n &&& conf.I2C_SR1_ADDR = 0) ∨
        (hw.dma_irq = .never ∧ s.lock.owner ≠ none)) → ∀ fuel,
      i2c_read_byte conf hw fuel tid dev address data s = none ∧
      i2c_read_bytes conf hw fuel tid dev address data length s = none ∧
      i2c_read_reg conf hw fuel tid dev address reg data s = none ∧
      i2c_read_regs conf hw fuel tid dev address reg data length s = none ∧
      i2c_write_byte conf hw fuel tid dev address data s = none ∧
      i2c_write_bytes conf hw fuel tid dev address data length s = none ∧
      i2c_write_reg conf hw fuel tid dev address reg data s = none ∧
      i2c_write_regs conf hw fuel tid dev address reg data length s = none) := by
  refine ⟨?_, ?_, ?_⟩
  · intro hdev fuel
    simp [i2c_read_byte, i2c_read_bytes, i2c_read_reg, i2c_read_regs, i2c_write_byte,
      i2c_write_bytes, i2c_write_reg, i2c_write_regs, hdev]
  · intro hlt hdev hhw hq hfree
    subst hdev
    have hnum : 0 < conf.I2C_NUMOF := by omega
    exact ⟨i2c_read_bytes_returns conf hw tid address data 1 s hnum hhw hq hfree,
      i2c_read_bytes_returns conf hw tid address data length s hnum hhw hq hfree,
      i2c_read_regs_returns conf hw tid address reg data 1 s hnum hhw hq hfree,
      i2c_read_regs_returns conf hw tid address reg data length s hnum hhw hq hfree,
      i2c_write_bytes_returns conf hw tid address data 1 s hnum hhw hq hfree,
      i2c_write_bytes_returns conf hw tid address data length s hnum hhw hq hfree,
      i2c_write_regs_returns conf hw tid address reg data 1 s hnum hhw hq hfree,
      i2c_write_regs_returns conf hw tid address reg data length s hnum hhw hq hfree⟩
  · intro hlt hdev hcase fuel
    subst hdev
    have hnum : 0 < conf.I2C_NUMOF := by omega
    have hn : ¬ conf.I2C_NUMOF ≤ I2C_0 := by unfold I2C_0; omega
    have hsilent : ((∀ n, hw.sr1 n &&& conf.I2C_SR1_SB = 0) ∨
        (∀ n, hw.sr1 n &&& conf.I2C_SR1_ADDR = 0)) ∨
        (hw.dma_irq = .never ∧ s.lock.owner ≠ none) := by
      rcases hcase with h | h | h
      · exact Or.inl (Or.inl h)
      · exact Or.inl (Or.inr h)
      · exact Or.inr h
    rcases hsilent with h | ⟨hirq, hown⟩
    · simp [i2c_read_byte, i2c_read_bytes, i2c_read_reg, i2c_read_regs, i2c_write_byte,
        i2c_write_bytes, i2c_write_reg, i2c_write_regs, hn, _start_silent conf hw h]
    · obtain ⟨o, ho⟩ := Option.ne_none_iff_exists'.mp hown
      exact ⟨i2c_read_bytes_no_irq conf hw fuel tid o address data 1 s hnum hirq ho,
        i2c_read_bytes_no_irq conf hw fuel tid o address data length s hnum hirq ho,
        i2c_read_regs_no_irq conf hw fuel tid o address reg data 1 s hnum hirq ho,
        i2c_read_regs_no_irq conf hw fuel tid o address reg data length s hnum hirq ho,
        i2c_write_bytes_no_irq conf hw fuel tid o address data 1 s hnum hirq ho,
        i2c_write_bytes_no_irq conf hw fuel tid o address data length s hnum hirq ho,
        i2c_write_regs_no_irq conf hw fuel tid o address reg data 1 s hnum hirq ho,
        i2c_write_regs_no_irq conf hw fuel tid o address reg data length s hnum hirq ho⟩

theorem hw_prompt_answers : hw_prompt.answers stm32f1_conf := by
  refine ⟨fun n => ⟨0, ?_⟩, fun n => ⟨0, ?_⟩, fun n => ⟨0, ?_⟩, fun n => ⟨0, ?_⟩⟩
  · show (0x7 &&& 0x1 : Nat) ≠ 0
    decide
  · show (0x7 &&& 0x2 : Nat) ≠ 0
    decide
  · show (0x7 &&& 0x4 : Nat) ≠ 0
    decide
  · show (0x7 &&& 0x200 : Nat) = 0
    decide

/-- Witness of the amended C9: device 1 is rejected; on the prompt hardware
a read of 2 bytes from the initialised device I2C_0 returns 2; on the bus
where no slave acknowledges, and on the hardware that never delivers the DMA
interrupt, the same read returns for no fuel. -/
theorem i2c_transfer_return_codes_witness :
    i2c_read_bytes stm32f1_conf hw_prompt 0 8 1 0x40 0x20000000 2 (i2c_locked_state 1) =
      some (i2c_locked_state 1, -1) ∧
    (∃ s1, ReturnsWith
      (fun fuel => i2c_read_bytes stm32f1_conf hw_prompt fuel 8 I2C_0 0x40 0x20000000 2
        (i2c_locked_state 1)) (s1, 2)) ∧
    (∀ fuel, i2c_read_bytes stm32f1_conf hw_nack fuel 8 I2C_0 0x40 0x20000000 2
      (i2c_locked_state 1) = none) ∧
    (∀ fuel, i2c_read_bytes stm32f1_conf hw_no_irq fuel 8 I2C_0 0x40 0x20000000 2
      (i2c_locked_state 1) = none) :=
  ⟨((i2c_transfer_return_codes stm32f1_conf hw_prompt 8 1 0x40 0 0x20000000 2
      (i2c_locked_state 1)).1 (by decide) 0).2.1,
   ((i2c_transfer_return_codes stm32f1_conf hw_prompt 8 I2C_0 0x40 0 0x20000000 2
      (i2c_locked_state 1)).2.1 (by decide) rfl hw_prompt_answers rfl
      (Or.inr (by decide))).2.1,
   fun fuel => ((i2c_transfer_return_codes stm32f1_conf hw_nack 8 I2C_0 0x40 0 0x20000000 2
      (i2c_locked_state 1)).2.2 (by decide) rfl
      (Or.inr (Or.inl (fun _ => by show (0x1 &&& 0x2 : Nat) = 0; decide))) fuel).2.1,
   fun fuel => ((i2c_transfer_return_codes stm32f1_conf hw_no_irq 8 I2C_0 0x40 0 0x20000000 2
      (i2c_locked_state 1)).2.2 (by decide) rfl
      (Or.inr (Or.inr ⟨rfl, by decide⟩)) fuel).2.1⟩

/-- C10: i2c_init_master returns 0 for the enabled device I2C_0 with speed
I2C_SPEED_NORMAL or I2C_SPEED_FAST, leaving the device mutex initialised and
locked by the caller; it returns -2 for every other speed regardless of dev,
and -1 for a dev that is not an enabled device when the speed is supported; in
both error cases the driver state is unchanged: no register is written and
the device mutex is neither initialised nor locked. -/
theorem i2c_init_master_codes (conf : I2CConf) (hw : I2CHw) (tid dev speed : Nat)
    (s : I2CState) :
    ((speed = conf.I2C_SPEED_NORMAL ∨ speed = conf.I2C_SPEED_FAST) → dev = I2C_0 →
      ∃ s1, i2c_init_master conf hw tid dev speed s = some (s1, 0) ∧
        s1.lock = { owner := some tid, queue := [] } ∧
        s1.trace.take (s.trace.length + 10) = s.trace ++
          [.clock .I2C_0_CLKEN, .clock .I2C_0_DMA_CLKEN, .clock .I2C_0_SCL_CLKEN,
           .clock .I2C_0_SDA_CLKEN,
           .nvic_set_priority conf.I2C_0_DMA_RX_IRQ conf.I2C_IRQ_PRIO,
           .nvic_set_priority conf.I2C_0_DMA_TX_IRQ conf.I2C_IRQ_PRIO,
           .nvic_enable_irq conf.I2C_0_DMA_RX_IRQ, .nvic_enable_irq conf.I2C_0_DMA_TX_IRQ,
           .mutex_init, .mutex_lock tid]) ∧
    (speed ≠ conf.I2C_SPEED_NORMAL → speed ≠ conf.I2C_SPEED_FAST →
      i2c_init_master conf hw tid dev speed s = some (s, -2)) ∧
    ((speed = conf.I2C_SPEED_NORMAL ∨ speed = conf.I2C_SPEED_FAST) → dev ≠ I2C_0 →
      i2c_init_master conf hw tid dev speed s = some (s, -1)) := by
  have key : ∀ ccr, ∃ s1, i2c_init_master_dev conf hw tid I2C_0 ccr s = some (s1, 0) ∧
      s1.lock = { owner := some tid, queue := [] } ∧
      s1.trace.take (s.trace.length + 10) = s.trace ++
          [.clock .I2C_0_CLKEN, .clock .I2C_0_DMA_CLKEN, .clock .I2C_0_SCL_CLKEN,
           .clock .I2C_0_SDA_CLKEN,
           .nvic_set_priority conf.I2C_0_DMA_RX_IRQ conf.I2C_IRQ_PRIO,
           .nvic_set_priority conf.I2C_0_DMA_TX_IRQ conf.I2C_IRQ_PRIO,
           .nvic_enable_irq conf.I2C_0_DMA_RX_IRQ, .nvic_enable_irq conf.I2C_0_DMA_TX_IRQ,
           .mutex_init, .mutex_lock tid] := by
    intro ccr
    simp only [i2c_init_master_dev, if_true, i2c_init_master_config, mutex_lock, mutex_init]
    refine ⟨_, rfl, ?_, ?_⟩
    · simp only [i2c_config_pin, i2c_store_dr]
      split <;> split <;> rfl
    · simp only [i2c_config_pin, i2c_store_dr]
      split <;> split <;>
        simp [reg_assign, reg_set_bits, emit, read_dr, List.take_append_eq_append_take]
  refine ⟨?_, ?_, ?_⟩
  · intro hs hd
    subst hd
    unfold i2c_init_master
    split
    · exact key _
    · split
      · exact key _
      · rcases hs with h | h <;> contradiction
  · intro h1 h2
    simp [i2c_init_master, h1, h2]
  · intro hs hd
    unfold i2c_init_master
    split
    · simp [i2c_init_master_dev, hd]
    · split
      · simp [i2c_init_master_dev, hd]
      · rcases hs with h | h <;> contradiction

theorem handoff_events_filter (conf : I2CConf) (irq : IrqDelivery) (tid : Nat)
    (isr_events : List I2CEv)
    (h : isr_events.filter (is_handoff_event conf) = [.mutex_unlock]) :
    (handoff_events irq tid isr_events).filter (is_handoff_event conf) =
      handoff_events irq tid [.mutex_unlock] := by
  cases irq <;> simp [handoff_events, List.filter_append, h, is_handoff_event, List.filter_cons]

theorem hw_early_answers : hw_early.answers stm32f1_conf := by
  refine ⟨fun n => ⟨0, ?_⟩, fun n => ⟨0, ?_⟩, fun n => ⟨0, ?_⟩, fun n => ⟨0, ?_⟩⟩
  · show (0x7 &&& 0x1 : Nat) ≠ 0
    decide
  · show (0x7 &&& 0x2 : Nat) ≠ 0
    decide
  · show (0x7 &&& 0x4 : Nat) ≠ 0
    decide
  · show (0x7 &&& 0x200 : Nat) = 0
    decide

/-- C4, as stated, fails: in i2c_read_bytes on the initialised device I2C_0 the
START condition is written before the calling thread calls mutex_lock; the
mutex is not locked before the hardware transfer is started. -/
theorem i2c_read_bytes_starts_before_lock :
    (i2c_read_bytes stm32f1_conf hw_prompt 3 8 I2C_0 0x40 0x20000000 2
      (i2c_locked_state 1)).map
        (fun r => (r.1.trace.filter (is_handoff_event stm32f1_conf), r.2)) =
      some ([.set_bits .I2C_CR1 0x100, .mutex_lock 8, .mutex_unlock,
             .set_bits .I2C_CR1 0x200], 2) ∧
    (i2c_read_bytes stm32f1_conf hw_prompt 3 8 I2C_0 0x40 0x20000000 2
      (i2c_locked_state 1)).map (fun r => r.1.trace.head?) =
      some (some (.assign .DMA_RX_CNDTR 2)) := by
  constructor <;> decide

/-- C4, amended: on the valid device I2C_0 with the device mutex held and no
waiter (as i2c_init_master leaves it), answering hardware and a delivered DMA
completion interrupt, each of i2c_read_bytes, i2c_write_bytes and
i2c_write_regs returns length with the caller as the holder of the mutex,
after these events: the caller configures the DMA channel and writes the START
condition first; then mutex_lock is called exactly once, by the caller, and
mutex_unlock exactly once, by the completion handler, in one of two orders:
when the interrupt is served while the caller is blocked the order is START,
mutex_lock, mutex_unlock, STOP (the unlock hands the mutex to the blocked
caller); when the interrupt is served before the caller reaches mutex_lock the
order is START, mutex_unlock, mutex_lock, STOP (the unlock frees the mutex and
the lock acquires it at once); the STOP condition is written only after both
calls. -/
theorem i2c_blocking_handoff_order (conf : I2CConf) (hw : I2CHw)
    (tid o address reg data : Nat) (length : Int) (s : I2CState)
    (hnum : 0 < conf.I2C_NUMOF) (hhw : hw.answers conf) (hirq : hw.dma_irq ≠ .never)
    (hown : s.lock = { owner := some o, queue := [] }) :
    (∃ s1, ReturnsWith
        (fun fuel => i2c_read_bytes conf hw fuel tid I2C_0 address data length s)
        (s1, length) ∧
      s1.lock = { owner := some tid, queue := [] } ∧
      s1.trace = s.trace ++
        ([.assign .DMA_RX_CNDTR (u32_of_int length), .assign .DMA_RX_CMAR data,
          .set_bits .DMA_RX_CCR conf.DMA_CCR1_EN,
          .set_bits .I2C_CR2 (conf.I2C_CR2_DMAEN ||| conf.I2C_CR2_LAST),
          .set_bits .I2C_CR1 conf.I2C_CR1_START,
          .assign .I2C_DR ((address <<< 1) ||| conf.I2C_FLAG_READ)] ++
         handoff_events hw.dma_irq tid (rx_isr_events conf) ++
         [.set_bits .I2C_CR1 conf.I2C_CR1_STOP]) ∧
      (hw.dma_irq = .while_blocked →
        (s1.trace.drop s.trace.length).filter (is_handoff_event conf) =
          [.set_bits .I2C_CR1 conf.I2C_CR1_START, .mutex_lock tid, .mutex_unlock,
           .set_bits .I2C_CR1 conf.I2C_CR1_STOP]) ∧
      (hw.dma_irq = .before_lock →
        (s1.trace.drop s.trace.length).filter (is_handoff_event conf) =
          [.set_bits .I2C_CR1 conf.I2C_CR1_START, .mutex_unlock, .mutex_lock tid,
           .set_bits .I2C_CR1 conf.I2C_CR1_STOP])) ∧
    (∃ s1, ReturnsWith
        (fun fuel => i2c_write_bytes conf hw fuel tid I2C_0 address data length s)
        (s1, length) ∧
      s1.lock = { owner := some tid, queue := [] } ∧
      s1.trace = s.trace ++
        ([.assign .DMA_TX_CNDTR (u32_of_int length), .assign .DMA_TX_CMAR data,
          .set_bits .DMA_TX_CCR conf.DMA_CCR1_EN,
          .clear_bits .I2C_CR2 conf.I2C_CR2_LAST,
          .set_bits .I2C_CR2 conf.I2C_CR2_DMAEN,
          .set_bits .I2C_CR1 conf.I2C_CR1_START,
          .assign .I2C_DR ((address <<< 1) ||| conf.I2C_FLAG_WRITE)] ++
         handoff_events hw.dma_irq tid (tx_isr_events conf) ++
         [.set_bits .I2C_CR1 conf.I2C_CR1_STOP]) ∧
      (hw.dma_irq = .while_blocked →
        (s1.trace.drop s.trace.length).filter (is_handoff_event conf) =
          [.set_bits .I2C_CR1 conf.I2C_CR1_START, .mutex_lock tid, .mutex_unlock,
           .set_bits .I2C_CR1 conf.I2C_CR1_STOP]) ∧
      (hw.dma_irq = .before_lock →
        (s1.trace.drop s.trace.length).filter (is_handoff_event conf) =
          [.set_bits .I2C_CR1 conf.I2C_CR1_START, .mutex_unlock, .mutex_lock tid,
           .set_bits .I2C_CR1 conf.I2C_CR1_STOP])) ∧
    (∃ s1, ReturnsWith
        (fun fuel => i2c_write_regs conf hw fuel tid I2C_0 address reg data length s)
        (s1, length) ∧
      s1.lock = { owner := some tid, queue := [] } ∧
      s1.trace = s.trace ++
        ([.clear_bits .I2C_CR2 conf.I2C_CR2_DMAEN,
          .assign .DMA_TX_CNDTR (u32_of_int length), .assign .DMA_TX_CMAR data,
          .set_bits .DMA_TX_CCR conf.DMA_CCR1_EN,
          .set_bits .I2C_CR1 conf.I2C_CR1_START,
          .assign .I2C_DR ((address <<< 1) ||| conf.I2C_FLAG_WRITE),
          .assign .I2C_DR (address % 256),
          .clear_bits .I2C_CR2 conf.I2C_CR2_LAST,
          .set_bits .I2C_CR2 conf.I2C_CR2_DMAEN] ++
         handoff_events hw.dma_irq tid (tx_isr_events conf) ++
         [.set_bits .I2C_CR1 conf.I2C_CR1_STOP]) ∧
      (hw.dma_irq = .while_blocked →
        (s1.trace.drop s.trace.length).filter (is_handoff_event conf) =
          [.set_bits .I2C_CR1 conf.I2C_CR1_START, .mutex_lock tid, .mutex_unlock,
           .set_bits .I2C_CR1 conf.I2C_CR1_STOP]) ∧
      (hw.dma_irq = .before_lock →
        (s1.trace.drop s.trace.length).filter (is_handoff_event conf) =
          [.set_bits .I2C_CR1 conf.I2C_CR1_START, .mutex_unlock, .mutex_lock tid,
           .set_bits .I2C_CR1 conf.I2C_CR1_STOP])) := by
  have hn : ¬ conf.I2C_NUMOF ≤ I2C_0 := by unfold I2C_0; omega
  have hrx : (rx_isr_events conf).filter (is_handoff_event conf) = [.mutex_unlock] := by
    simp [rx_isr_events, is_handoff_event, List.filter_cons]
  have htx : (tx_isr_events conf).filter (is_handoff_event conf) = [.mutex_unlock] := by
    simp [tx_isr_events, is_handoff_event, List.filter_cons]
  refine ⟨?_, ?_, ?_⟩
  · obtain ⟨a, ha, hal, hat⟩ := _start_returns conf hw hhw address conf.I2C_FLAG_READ
      (reg_set_bits .I2C_CR2 (conf.I2C_CR2_DMAEN ||| conf.I2C_CR2_LAST)
        (reg_set_bits .DMA_RX_CCR conf.DMA_CCR1_EN
          (reg_assign .DMA_RX_CMAR data
            (reg_assign .DMA_RX_CNDTR (u32_of_int length) s))))
    have hal2 : a.lock = s.lock := hal
    obtain ⟨b, hb, hbl, hbt⟩ := i2c_mutex_lock_handoff hw (I2C_0_DMA_RX_ISR conf) _ _
      (rx_isr_form conf).1 (rx_isr_form conf).2 tid o a (by rw [hal2]; exact hown) hirq
    obtain ⟨c, hc, hcl, hct⟩ := _stop_returns conf hw hhw b
    have htr : c.trace = s.trace ++
        ([.assign .DMA_RX_CNDTR (u32_of_int length), .assign .DMA_RX_CMAR data,
          .set_bits .DMA_RX_CCR conf.DMA_CCR1_EN,
          .set_bits .I2C_CR2 (conf.I2C_CR2_DMAEN ||| conf.I2C_CR2_LAST),
          .set_bits .I2C_CR1 conf.I2C_CR1_START,
          .assign .I2C_DR ((address <<< 1) ||| conf.I2C_FLAG_READ)] ++
         handoff_events hw.dma_irq tid (rx_isr_events conf) ++
         [.set_bits .I2C_CR1 conf.I2C_CR1_STOP]) := by
      rw [hct, hbt, hat]
      simp [reg_assign, reg_set_bits, rx_isr_events]
    refine ⟨c, ?_, by rw [hcl]; exact hbl, htr, ?_⟩
    · simp only [i2c_read_bytes, hn, if_false, ne_eq, not_true_eq_false]
      exact returnsWith_bind _ _ _ _ ha
        (returnsWith_bind _ _ _ _ (returnsWith_const _ _ hb)
          (returnsWith_map _ (fun s3 => (s3, length)) c hc))
    · have hf : (c.trace.drop s.trace.length).filter (is_handoff_event conf) =
          .set_bits .I2C_CR1 conf.I2C_CR1_START ::
            (handoff_events hw.dma_irq tid [.mutex_unlock] ++
              [.set_bits .I2C_CR1 conf.I2C_CR1_STOP]) := by
        rw [htr, List.drop_left]
        simp [List.filter_append, handoff_events_filter conf _ _ _ hrx, is_handoff_event,
          List.filter_cons]
      exact ⟨fun h => by rw [hf, h]; rfl, fun h => by rw [hf, h]; rfl⟩
  · obtain ⟨a, ha, hal, hat⟩ := _start_returns conf hw hhw address conf.I2C_FLAG_WRITE
      (reg_set_bits .I2C_CR2 conf.I2C_CR2_DMAEN
        (reg_clear_bits .I2C_CR2 conf.I2C_CR2_LAST
          (reg_set_bits .DMA_TX_CCR conf.DMA_CCR1_EN
            (reg_assign .DMA_TX_CMAR data
              (reg_assign .DMA_TX_CNDTR (u32_of_int length) s)))))
    have hal2 : a.lock = s.lock := hal
    obtain ⟨b, hb, hbl, hbt⟩ := i2c_mutex_lock_handoff hw (I2C_0_DMA_TX_ISR conf) _ _
      (tx_isr_form conf).1 (tx_isr_form conf).2 tid o a (by rw [hal2]; exact hown) hirq
    obtain ⟨c, hc, hcl, hct⟩ := _stop_returns conf hw hhw b
    have htr : c.trace = s.trace ++
        ([.assign .DMA_TX_CNDTR (u32_of_int length), .assign .DMA_TX_CMAR data,
          .set_bits .DMA_TX_CCR conf.DMA_CCR1_EN,
          .clear_bits .I2C_CR2 conf.I2C_CR2_LAST,
          .set_bits .I2C_CR2 conf.I2C_CR2_DMAEN,
          .set_bits .I2C_CR1 conf.I2C_CR1_START,
          .assign .I2C_DR ((address <<< 1) ||| conf.I2C_FLAG_WRITE)] ++
         handoff_events hw.dma_irq tid (tx_isr_events conf) ++
         [.set_bits .I2C_CR1 conf.I2C_CR1_STOP]) := by
      rw [hct, hbt, hat]
      simp [reg_assign, reg_set_bits, reg_clear_bits, tx_isr_events]
    refine ⟨c, ?_, by rw [hcl]; exact hbl, htr, ?_⟩
    · simp only [i2c_write_bytes, hn, if_false, ne_eq, not_true_eq_false]
      exact returnsWith_bind _ _ _ _ ha
        (returnsWith_bind _ _ _ _ (returnsWith_const _ _ hb)
          (returnsWith_map _ (fun s3 => (s3, length)) c hc))
    · have hf : (c.trace.drop s.trace.length).filter (is_handoff_event conf) =
          .set_bits .I2C_CR1 conf.I2C_CR1_START ::
            (handoff_events hw.dma_irq tid [.mutex_unlock] ++
              [.set_bits .I2C_CR1 conf.I2C_CR1_STOP]) := by
        rw [htr, List.drop_left]
        simp [List.filter_append, handoff_events_filter conf _ _ _ htx, is_handoff_event,
          List.filter_cons]
      exact ⟨fun h => by rw [hf, h]; rfl, fun h => by rw [hf, h]; rfl⟩
  · obtain ⟨a, ha, hal, hat⟩ := _start_returns conf hw hhw address conf.I2C_FLAG_WRITE
      (reg_set_bits .DMA_TX_CCR conf.DMA_CCR1_EN
        (reg_assign .DMA_TX_CMAR data
          (reg_assign .DMA_TX_CNDTR (u32_of_int length)
            (reg_clear_bits .I2C_CR2 conf.I2C_CR2_DMAEN s))))
    have hal2 : a.lock = s.lock := hal
    obtain ⟨b, hb, hbl, hbt⟩ := i2c_mutex_lock_handoff hw (I2C_0_DMA_TX_ISR conf) _ _
      (tx_isr_form conf).1 (tx_isr_form conf).2 tid o
      (reg_set_bits .I2C_CR2 conf.I2C_CR2_DMAEN
        (reg_clear_bits .I2C_CR2 conf.I2C_CR2_LAST
          (reg_assign .I2C_DR (address % 256) a)))
      (by show a.lock = _; rw [hal2]; exact hown) hirq
    obtain ⟨c, hc, hcl, hct⟩ := _stop_returns conf hw hhw b
    have htr : c.trace = s.trace ++
        ([.clear_bits .I2C_CR2 conf.I2C_CR2_DMAEN,
          .assign .DMA_TX_CNDTR (u32_of_int length), .assign .DMA_TX_CMAR data,
          .set_bits .DMA_TX_CCR conf.DMA_CCR1_EN,
          .set_bits .I2C_CR1 conf.I2C_CR1_START,
          .assign .I2C_DR ((address <<< 1) ||| conf.I2C_FLAG_WRITE),
          .assign .I2C_DR (address % 256),
          .clear_bits .I2C_CR2 conf.I2C_CR2_LAST,
          .set_bits .I2C_CR2 conf.I2C_CR2_DMAEN] ++
         handoff_events hw.dma_irq tid (tx_isr_events conf) ++
         [.set_bits .I2C_CR1 conf.I2C_CR1_STOP]) := by
      rw [hct, hbt]
      simp [reg_assign, reg_set_bits, reg_clear_bits, tx_isr_events, hat]
    refine ⟨c, ?_, by rw [hcl]; exact hbl, htr, ?_⟩
    · simp only [i2c_write_regs, hn, if_false, ne_eq, not_true_eq_false]
      exact returnsWith_bind _ _ _ _ ha
        (returnsWith_bind _ _ _ _ (returnsWith_const _ _ hb)
          (returnsWith_map _ (fun s3 => (s3, length)) c hc))
    · have hf : (c.trace.drop s.trace.length).filter (is_handoff_event conf) =
          .set_bits .I2C_CR1 conf.I2C_CR1_START ::
            (handoff_events hw.dma_irq tid [.mutex_unlock] ++
              [.set_bits .I2C_CR1 conf.I2C_CR1_STOP]) := by
        rw [htr, List.drop_left]
        simp [List.filter_append, handoff_events_filter conf _ _ _ htx, is_handoff_event,
          List.filter_cons]
      exact ⟨fun h => by rw [hf, h]; rfl, fun h => by rw [hf, h]; rfl⟩

/-- Witness of the amended C4: a read of 2 bytes by thread 8 from the device
initialised by thread 1 returns 2 with the mutex handed to thread 8; on the
prompt hardware, which serves the interrupt while the caller is blocked, the
hand-off events are START, mutex_lock, mutex_unlock, STOP, and on the early
hardware, which serves it before the call of mutex_lock, they are START,
mutex_unlock, mutex_lock, STOP. -/
theorem i2c_blocking_handoff_order_witness :
    (∃ s1, ReturnsWith
        (fun fuel => i2c_read_bytes stm32f1_conf hw_prompt fuel 8 I2C_0 0x40 0x20000000 2
          (i2c_locked_state 1)) (s1, 2) ∧
      s1.lock = { owner := some 8, queue := [] } ∧
      (s1.trace.drop (i2c_locked_state 1).trace.length).filter
          (is_handoff_event stm32f1_conf) =
        [.set_bits .I2C_CR1 0x100, .mutex_lock 8, .mutex_unlock,
         .set_bits .I2C_CR1 0x200]) ∧
    (∃ s1, ReturnsWith
        (fun fuel => i2c_read_bytes stm32f1_conf hw_early fuel 8 I2C_0 0x40 0x20000000 2
          (i2c_locked_state 1)) (s1, 2) ∧
      s1.lock = { owner := some 8, queue := [] } ∧
      (s1.trace.drop (i2c_locked_state 1).trace.length).filter
          (is_handoff_event stm32f1_conf) =
        [.set_bits .I2C_CR1 0x100, .mutex_unlock, .mutex_lock 8,
         .set_bits .I2C_CR1 0x200]) :=
  ⟨(match (i2c_blocking_handoff_order stm32f1_conf hw_prompt 8 1 0x40 0
      0x20000000 2 (i2c_locked_state 1) (by decide) hw_prompt_answers (by decide) rfl).1 with
    | ⟨s1, h1, h2, _, h4, _⟩ => ⟨s1, h1, h2, h4 rfl⟩),
   (match (i2c_blocking_handoff_order stm32f1_conf hw_early 8 1 0x40 0
      0x20000000 2 (i2c_locked_state 1) (by decide) hw_early_answers (by decide) rfl).1 with
    | ⟨s1, h1, h2, _, _, h5⟩ => ⟨s1, h1, h2, h5 rfl⟩)⟩

/-- Witness of C10: on the reset state, thread 1 initialises I2C_0 at
I2C_SPEED_FAST with result 0, while speed 0 gives -2 and device 1 gives -1
without any change of state. -/
theorem i2c_init_master_codes_witness :
    (∃ s1, i2c_init_master stm32f1_conf hw_prompt 1 I2C_0 2 i2c_reset_state = some (s1, 0) ∧
      s1.lock = { owner := some 1, queue := [] }) ∧
    i2c_init_master stm32f1_conf hw_prompt 1 I2C_0 0 i2c_reset_state =
      some (i2c_reset_state, -2) ∧
    i2c_init_master stm32f1_conf hw_prompt 1 1 2 i2c_reset_state =
      some (i2c_reset_state, -1) :=
  ⟨(match (i2c_init_master_codes stm32f1_conf hw_prompt 1 I2C_0 2
      i2c_reset_state).1 (Or.inr rfl) rfl with
    | ⟨s1, h1, h2, _⟩ => ⟨s1, h1, h2⟩),
   (i2c_init_master_codes stm32f1_conf hw_prompt 1 I2C_0 0 i2c_reset_state).2.1
     (by decide) (by decide),
   (i2c_init_master_codes stm32f1_conf hw_prompt 1 1 2 i2c_reset_state).2.2
     (Or.inr rfl) (by decide)⟩

/-! ## ADC -/

/-- C11 fails on the code: after adc_init of ADC_0 with the supported
resolution of 12 bits, adc_map(ADC_0, 0, 1, 2) with the sample value 0 and the
target interval 1 < 2 returns 0, which is below min, where the mapped value
must lie in min .. max. -/
theorem adc_map_outside_interval :
    (adc_init stm32f3_adc_conf ADC_0 .ADC_RES_12BIT adc_reset_state).map
        (fun r => (r.2, r.1.config ADC_0, adc_map r.1 ADC_0 0 1 2)) = some (0, 12, 0) ∧
    ¬ (∀ r ∈ adc_init stm32f3_adc_conf ADC_0 .ADC_RES_12BIT adc_reset_state,
        1 ≤ adc_map r.1 ADC_0 0 1 2 ∧ adc_map r.1 ADC_0 0 1 2 ≤ 2) := by
  constructor
  · decide
  · intro h
    have h1 : ∃ r, adc_init stm32f3_adc_conf ADC_0 .ADC_RES_12BIT adc_reset_state = some r := by
      cases hr : adc_init stm32f3_adc_conf ADC_0 .ADC_RES_12BIT adc_reset_state with
      | none =>
        have : (adc_init stm32f3_adc_conf ADC_0 .ADC_RES_12BIT adc_reset_state).map
            (fun r => r.2) = some 0 := by decide
        rw [hr] at this
        exact Option.noConfusion this
      | some r => exact ⟨r, rfl⟩
    obtain ⟨r, hr⟩ := h1
    have := (h r (by rw [hr]; exact rfl)).1
    unfold adc_map at this
    omega

/-! ## AT86RF231 reset -/

theorem at86rf231_delay_loop_spec (d : Nat) : ∀ (fuel : Nat) (s : At86State),
    d < 256 → d < fuel →
    at86rf231_delay_loop fuel d s =
      some ({ s with delay_iterations := s.delay_iterations + d }, 255) := by
  induction d with
  | zero =>
    intro fuel s _ hf
    obtain ⟨f, rfl⟩ : ∃ f, fuel = f + 1 := ⟨fuel - 1, by omega⟩
    simp [at86rf231_delay_loop]
  | succ d ih =>
    intro fuel s hd hf
    obtain ⟨f, rfl⟩ : ∃ f, fuel = f + 1 := ⟨fuel - 1, by omega⟩
    have e : (d + 1 + 255) % 256 = d := by omega
    simp only [at86rf231_delay_loop, ne_eq, Nat.add_one_ne_zero, not_false_eq_true, if_true, e]
    rw [ih f _ (by omega) (by omega)]
    simp [Nat.add_assoc, Nat.add_comm 1 d]

theorem at86rf231_wait_trx_off_spec (conf : At86Conf) (radio : Nat → Nat) (m : Nat) :
    ∀ (fuel : Nat) (s : At86State), m < 255 → m < fuel →
    ∃ s1, at86rf231_wait_trx_off conf radio fuel (m + 1) s = some s1 ∧
      s.status_reads < s1.status_reads ∧ s1.status_reads ≤ s.status_reads + (m + 1) ∧
      s1.delay_iterations = s.delay_iterations := by
  induction m with
  | zero =>
    intro fuel s _ hf
    obtain ⟨f, rfl⟩ : ∃ f, fuel = f + 1 := ⟨fuel - 1, by omega⟩
    refine ⟨_, by simp only [at86rf231_wait_trx_off]; rfl, ?_, ?_, ?_⟩ <;>
      simp [at86rf231_get_status]
  | succ m ih =>
    intro fuel s hm hf
    obtain ⟨f, rfl⟩ : ∃ f, fuel = f + 1 := ⟨fuel - 1, by omega⟩
    have e : (m + 1 + 1 + 255) % 256 = m + 1 := by omega
    have ne : ¬ (m + 1 = 0) := by omega
    simp only [at86rf231_wait_trx_off, e, ne, if_false]
    split
    · obtain ⟨s1, h1, h2, h3, h4⟩ := ih f (at86rf231_get_status conf radio s).1
        (by omega) (by omega)
      refine ⟨s1, h1, ?_, ?_, ?_⟩
      · have : (at86rf231_get_status conf radio s).1.status_reads = s.status_reads + 1 := rfl
        omega
      · have : (at86rf231_get_status conf radio s).1.status_reads = s.status_reads + 1 := rfl
        omega
      · rw [h4]; rfl
    · refine ⟨_, rfl, ?_, ?_, ?_⟩ <;> simp [at86rf231_get_status]

/-- C19: at86rf231_reset terminates for every sequence of status values the
radio returns: with fuel for 100 iterations it returns, the reset-pulse delay
loop having run exactly 50 iterations and the busy wait for TRX_OFF having read
the status register at least once and at most 100 times. -/
theorem at86rf231_reset_terminates (conf : At86Conf) (radio : Nat → Nat) (fuel : Nat)
    (s : At86State) :
    ∃ s1, at86rf231_reset conf radio (100 + fuel) s = some s1 ∧
      s1.delay_iterations = s.delay_iterations + 50 ∧
      s.status_reads < s1.status_reads ∧ s1.status_reads ≤ s.status_reads + 100 := by
  unfold at86rf231_reset
  rw [at86rf231_delay_loop_spec 50 (100 + fuel) _ (by omega) (by omega)]
  simp only [Option.some_bind]
  obtain ⟨s1, h1, h2, h3, h4⟩ := at86rf231_wait_trx_off_spec conf radio 99 (100 + fuel)
    { trace := (s.trace ++ [.spi_unselect, .slp_clear]) ++
        [.rst_clear, .reg_write conf.AT86RF231_REG__TRX_STATE
          conf.AT86RF231_TRX_STATE__FORCE_TRX_OFF],
      delay_iterations := s.delay_iterations + 50, status_reads := s.status_reads }
    (by omega) (by omega)
  exact ⟨s1, h1, h4, h2, h3⟩

/-! ## KW41Z radio: send -/

theorem iov_concat_length (vector : List iovec) :
    (iov_concat vector).length = iov_total vector := by
  induction vector with
  | nil => rfl
  | cons v rest ih => simp [iov_concat, iov_total, ih]

theorem kw41zrf_send_loop_fits (conf : Kw41zrfConf)
    (hmax : conf.KW41ZRF_MAX_PKT_LENGTH < SIZE_T_MOD) :
    ∀ (vector : List iovec) (len : Nat) (s : Kw41zrfState),
      len + iov_total vector + conf.IEEE802154_FCS_LEN ≤ conf.KW41ZRF_MAX_PKT_LENGTH →
      (kw41zrf_send_loop conf vector len s).2 = some (len + iov_total vector) ∧
      (∀ k, k < iov_total vector → (iov_concat vector)[k]? =
        some ((kw41zrf_send_loop conf vector len s).1.PKT_BUFFER_TX (len + 1 + k))) ∧
      (∀ k, (k ≤ len ∨ len + iov_total vector < k) →
        (kw41zrf_send_loop conf vector len s).1.PKT_BUFFER_TX k = s.PKT_BUFFER_TX k) ∧
      (kw41zrf_send_loop conf vector len s).1.pending_tx = s.pending_tx ∧
      (kw41zrf_send_loop conf vector len s).1.flags = s.flags ∧
      (kw41zrf_send_loop conf vector len s).1.sequences = s.sequences ∧
      (kw41zrf_send_loop conf vector len s).1.log_errors = s.log_errors ∧
      (kw41zrf_send_loop conf vector len s).1.tx_bytes = s.tx_bytes ∧
      ∃ new, (kw41zrf_send_loop conf vector len s).1.tx_loads = s.tx_loads ++ new ∧
        ∀ p ∈ new, p.1 + p.2 + conf.IEEE802154_FCS_LEN ≤ conf.KW41ZRF_MAX_PKT_LENGTH := by
  intro vector
  induction vector with
  | nil =>
    intro len s _
    refine ⟨rfl, ?_, fun _ _ => rfl, rfl, rfl, rfl, rfl, rfl, [], by simp [kw41zrf_send_loop], ?_⟩
    · intro k hk
      simp [iov_total] at hk
    · intro p hp
      simp at hp
  | cons v rest ih =>
    intro len s hfit
    have ht : iov_total (v :: rest) = v.iov_len + iov_total rest := rfl
    rw [ht] at hfit
    unfold SIZE_T_MOD at hmax
    have e1 : (len + v.iov_len + conf.IEEE802154_FCS_LEN) % SIZE_T_MOD =
        len + v.iov_len + conf.IEEE802154_FCS_LEN := by
      unfold SIZE_T_MOD
      exact Nat.mod_eq_of_lt (by omega)
    have e2 : (len + v.iov_len) % SIZE_T_MOD = len + v.iov_len := by
      unfold SIZE_T_MOD
      exact Nat.mod_eq_of_lt (by omega)
    have hno : ¬ conf.KW41ZRF_MAX_PKT_LENGTH <
        (len + v.iov_len + conf.IEEE802154_FCS_LEN) % SIZE_T_MOD := by
      rw [e1]; omega
    have hstep : kw41zrf_send_loop conf (v :: rest) len s =
        kw41zrf_send_loop conf rest (len + v.iov_len)
          (kw41zrf_tx_load v.iov_base v.iov_len len s).1 := by
      simp only [kw41zrf_send_loop, hno, if_false]
      simp only [kw41zrf_tx_load, e2]
    obtain ⟨h1, h2, h3, h4, h5, h6, h7, h8, new, h9, h10⟩ :=
      ih (len + v.iov_len) (kw41zrf_tx_load v.iov_base v.iov_len len s).1 (by omega)
    rw [hstep, ht]
    refine ⟨by rw [h1]; congr 1; omega, ?_, ?_, h4, h5, h6, h7, h8,
      (len, v.iov_len) :: new, ?_, ?_⟩
    · intro k hk
      by_cases hkv : k < v.iov_len
      · have hl : k < ((List.range v.iov_len).map v.iov_base).length := by simpa using hkv
        rw [iov_concat, List.getElem?_append_left hl, h3 (len + 1 + k) (Or.inl (by omega))]
        simp [kw41zrf_tx_load, hkv]
      · have hl : ((List.range v.iov_len).map v.iov_base).length ≤ k := by
          simp; omega
        rw [iov_concat, List.getElem?_append_right hl, h2 _ (by simp; omega)]
        simp only [List.length_map, List.length_range]
        congr 2
        omega
    · intro k hk
      rw [h3 k (by omega)]
      have : ¬ (len + 1 ≤ k ∧ k < len + 1 + v.iov_len) := by omega
      simp [kw41zrf_tx_load, this]
    · rw [h9]
      simp [kw41zrf_tx_load]
    · intro p hp
      rcases List.mem_cons.mp hp with h | h
      · subst h
        show len + v.iov_len + conf.IEEE802154_FCS_LEN ≤ conf.KW41ZRF_MAX_PKT_LENGTH
        omega
      · exact h10 p h

theorem kw41zrf_tx_exec_frame (conf : Kw41zrfConf) (s : Kw41zrfState) :
    (kw41zrf_tx_exec conf s).PKT_BUFFER_TX = s.PKT_BUFFER_TX ∧
    (kw41zrf_tx_exec conf s).pending_tx = s.pending_tx ∧
    (kw41zrf_tx_exec conf s).tx_loads = s.tx_loads := by
  unfold kw41zrf_tx_exec
  split <;> exact ⟨rfl, rfl, rfl⟩

theorem kw41zrf_send_finish_spec (conf : Kw41zrfConf) (n : Nat) (t : Kw41zrfState) :
    (kw41zrf_send_finish conf n t).2 = int_val n ∧
    (∀ k, (kw41zrf_send_finish conf n t).1.PKT_BUFFER_TX k =
      if k = 0 then (n + conf.IEEE802154_FCS_LEN) % 256 else t.PKT_BUFFER_TX k) ∧
    (kw41zrf_send_finish conf n t).1.pending_tx = t.pending_tx ∧
    (kw41zrf_send_finish conf n t).1.tx_loads = t.tx_loads := by
  unfold kw41zrf_send_finish
  refine ⟨rfl, ?_, ?_, ?_⟩
  · intro k
    simp only
    cases conf.MODULE_NETSTATS_L2 <;> simp only [Bool.false_eq_true, if_false, if_true] <;>
      split <;> simp only [(kw41zrf_tx_exec_frame conf _).1]
  · simp only
    cases conf.MODULE_NETSTATS_L2 <;> simp only [Bool.false_eq_true, if_false, if_true] <;>
      split <;> simp only [(kw41zrf_tx_exec_frame conf _).2.1]
  · simp only
    cases conf.MODULE_NETSTATS_L2 <;> simp only [Bool.false_eq_true, if_false, if_true] <;>
      split <;> simp only [(kw41zrf_tx_exec_frame conf _).2.2]

/-- C12 fails on the code: for the one-entry vector with iov_len = 2^32 - 1 the
size_t sum in the test of the send loop wraps around to 1, the test passes, and
kw41zrf_netdev_send calls kw41zrf_tx_load(buf, 4294967295, 0), for which
offset + len + IEEE802154_FCS_LEN exceeds KW41ZRF_MAX_PKT_LENGTH; the copy
writes far behind the TX packet buffer. -/
theorem kw41zrf_tx_load_out_of_bounds :
    (kw41zrf_netdev_send kw41z_conf true [⟨fun _ => 0xAB, 4294967295⟩]
      kw41zrf_idle_state).1.tx_loads = [(0, 4294967295)] ∧
    kw41z_conf.KW41ZRF_MAX_PKT_LENGTH < 0 + 4294967295 + kw41z_conf.IEEE802154_FCS_LEN ∧
    (kw41zrf_netdev_send kw41z_conf true [⟨fun _ => 0xAB, 4294967295⟩]
      kw41zrf_idle_state).1.PKT_BUFFER_TX 100000 = 0xAB := by
  decide

/-- C13 fails on the code: for the one-entry vector with iov_len = 2^32 - 1 the
sum of the lengths plus IEEE802154_FCS_LEN exceeds KW41ZRF_MAX_PKT_LENGTH, but
kw41zrf_netdev_send does not return -EOVERFLOW: it returns -1, counts a pending
transmission and requests the transmit sequence. -/
theorem kw41zrf_netdev_send_misses_overflow :
    kw41z_conf.KW41ZRF_MAX_PKT_LENGTH <
      iov_total [⟨fun _ => 0xAB, 4294967295⟩] + kw41z_conf.IEEE802154_FCS_LEN ∧
    (kw41zrf_netdev_send kw41z_conf true [⟨fun _ => 0xAB, 4294967295⟩]
      kw41zrf_idle_state).2 = -1 ∧
    (kw41zrf_netdev_send kw41z_conf true [⟨fun _ => 0xAB, 4294967295⟩]
      kw41zrf_idle_state).2 ≠ -(kw41z_conf.EOVERFLOW : Int) ∧
    (kw41zrf_netdev_send kw41z_conf true [⟨fun _ => 0xAB, 4294967295⟩]
      kw41zrf_idle_state).1.pending_tx = 1 ∧
    (kw41zrf_netdev_send kw41z_conf true [⟨fun _ => 0xAB, 4294967295⟩]
      kw41zrf_idle_state).1.sequences = [.XCVSEQ_IDLE, .XCVSEQ_TRANSMIT] := by
  decide

/-- C14: when the packet fits (the sum N of all iov_len plus
IEEE802154_FCS_LEN is at most KW41ZRF_MAX_PKT_LENGTH, itself at most 255, the
largest value of the frame length octet) and kw41zrf_can_switch_to_idle holds,
kw41zrf_netdev_send returns N, writes PKT_BUFFER_TX[0] = N +
IEEE802154_FCS_LEN, places the iovec contents contiguously and in order at the
buffer offsets 1 .. N, leaves the bytes behind them as they were, increments
dev->pending_tx by exactly 1, and every kw41zrf_tx_load call stays within the
bound. -/
theorem kw41zrf_netdev_send_loads_frame (conf : Kw41zrfConf) (vector : List iovec)
    (s : Kw41zrfState)
    (hfit : iov_total vector + conf.IEEE802154_FCS_LEN ≤ conf.KW41ZRF_MAX_PKT_LENGTH)
    (hmax : conf.KW41ZRF_MAX_PKT_LENGTH ≤ 255) :
    (kw41zrf_netdev_send conf true vector s).2 = (iov_total vector : Int) ∧
    (kw41zrf_netdev_send conf true vector s).1.PKT_BUFFER_TX 0 =
      iov_total vector + conf.IEEE802154_FCS_LEN ∧
    (iov_concat vector).length = iov_total vector ∧
    (∀ k, k < iov_total vector → (iov_concat vector)[k]? =
      some ((kw41zrf_netdev_send conf true vector s).1.PKT_BUFFER_TX (k + 1))) ∧
    (∀ k, iov_total vector < k →
      (kw41zrf_netdev_send conf true vector s).1.PKT_BUFFER_TX k = s.PKT_BUFFER_TX k) ∧
    (kw41zrf_netdev_send conf true vector s).1.pending_tx = s.pending_tx + 1 ∧
    (∃ new, (kw41zrf_netdev_send conf true vector s).1.tx_loads = s.tx_loads ++ new ∧
      ∀ p ∈ new, p.1 + p.2 + conf.IEEE802154_FCS_LEN ≤ conf.KW41ZRF_MAX_PKT_LENGTH) := by
  have hm : conf.KW41ZRF_MAX_PKT_LENGTH < SIZE_T_MOD := by unfold SIZE_T_MOD; omega
  obtain ⟨h1, h2, h3, h4, h5, h6, h7, h8, new, h9, h10⟩ :=
    kw41zrf_send_loop_fits conf hm vector 0 s (by omega)
  have hsend : kw41zrf_netdev_send conf true vector s =
      kw41zrf_send_finish conf (iov_total vector)
        { kw41zrf_set_sequence .XCVSEQ_IDLE (kw41zrf_send_loop conf vector 0 s).1 with
          pending_tx := (kw41zrf_send_loop conf vector 0 s).1.pending_tx + 1 } := by
    unfold kw41zrf_netdev_send
    have hl : kw41zrf_send_loop conf vector 0 s =
        ((kw41zrf_send_loop conf vector 0 s).1, some (0 + iov_total vector)) := by
      rw [← h1]
    rw [hl]
    simp
  have hfin := kw41zrf_send_finish_spec conf
  obtain ⟨f1, f2, f3, f4⟩ := hfin (iov_total vector)
    { kw41zrf_set_sequence .XCVSEQ_IDLE (kw41zrf_send_loop conf vector 0 s).1 with
      pending_tx := (kw41zrf_send_loop conf vector 0 s).1.pending_tx + 1 }
  rw [hsend]
  refine ⟨?_, ?_, iov_concat_length vector, ?_, ?_, ?_, new, ?_, h10⟩
  · rw [f1]
    exact int_val_of_le _ (by unfold INT_MAX; omega)
  · rw [f2 0]
    simp only [if_true]
    exact Nat.mod_eq_of_lt (by omega)
  · intro k hk
    rw [h2 k hk, f2 (k + 1)]
    simp only [Nat.add_one_ne_zero, if_false]
    have e : 0 + 1 + k = k + 1 := by omega
    rw [e]
    rfl
  · intro k hk
    rw [f2 k]
    have : k ≠ 0 := by omega
    simp only [this, if_false]
    exact h3 k (Or.inr (by omega))
  · rw [f3]
    show (kw41zrf_send_loop conf vector 0 s).1.pending_tx + 1 = _
    rw [h4]
  · rw [f4]
    exact h9

/-- Witness of C14: two entries of 3 and 2 bytes are sent as a frame of 5
bytes with the frame length octet 7. -/
theorem kw41zrf_netdev_send_loads_frame_witness :
    (kw41zrf_netdev_send kw41z_conf true [⟨fun j => j + 1, 3⟩, ⟨fun j => j + 10, 2⟩]
      kw41zrf_idle_state).2 = 5 ∧
    (kw41zrf_netdev_send kw41z_conf true [⟨fun j => j + 1, 3⟩, ⟨fun j => j + 10, 2⟩]
      kw41zrf_idle_state).1.PKT_BUFFER_TX 0 = 5 + 2 ∧
    (kw41zrf_netdev_send kw41z_conf true [⟨fun j => j + 1, 3⟩, ⟨fun j => j + 10, 2⟩]
      kw41zrf_idle_state).1.pending_tx = 0 + 1 :=
  match kw41zrf_netdev_send_loads_frame kw41z_conf
    [⟨fun j => j + 1, 3⟩, ⟨fun j => j + 10, 2⟩] kw41zrf_idle_state (by decide) (by decide) with
  | ⟨h1, h2, _, _, _, h6, _⟩ => ⟨h1, h2, h6⟩

/-- C15, as stated, fails: with switching to idle prevented, a vector whose
length of 200 bytes does not fit makes kw41zrf_netdev_send return -EOVERFLOW,
not 0. -/
theorem kw41zrf_netdev_send_busy_overflow :
    (kw41zrf_netdev_send kw41z_conf false [⟨fun _ => 0xAB, 200⟩] kw41zrf_idle_state).2 =
      -(kw41z_conf.EOVERFLOW : Int) ∧
    (kw41zrf_netdev_send kw41z_conf false [⟨fun _ => 0xAB, 200⟩] kw41zrf_idle_state).2 ≠ 0 := by
  decide

/-- C15, amended: when the packet fits and an ongoing sequence prevents
switching to idle (kw41zrf_can_switch_to_idle(dev) is false),
kw41zrf_netdev_send does not wait: it returns 0 with dev->pending_tx
unchanged, the frame length octet PKT_BUFFER_TX[0] unwritten and no
transceiver sequence requested. -/
theorem kw41zrf_netdev_send_busy (conf : Kw41zrfConf) (vector : List iovec)
    (s : Kw41zrfState)
    (hfit : iov_total vector + conf.IEEE802154_FCS_LEN ≤ conf.KW41ZRF_MAX_PKT_LENGTH)
    (hmax : conf.KW41ZRF_MAX_PKT_LENGTH < SIZE_T_MOD) :
    (kw41zrf_netdev_send conf false vector s).2 = 0 ∧
    (kw41zrf_netdev_send conf false vector s).1.pending_tx = s.pending_tx ∧
    (kw41zrf_netdev_send conf false vector s).1.PKT_BUFFER_TX 0 = s.PKT_BUFFER_TX 0 ∧
    (kw41zrf_netdev_send conf false vector s).1.sequences = s.sequences := by
  obtain ⟨h1, _, h3, h4, _, h6, _⟩ := kw41zrf_send_loop_fits conf hmax vector 0 s (by omega)
  have hsend : kw41zrf_netdev_send conf false vector s =
      ((kw41zrf_send_loop conf vector 0 s).1, 0) := by
    unfold kw41zrf_netdev_send
    have hl : kw41zrf_send_loop conf vector 0 s =
        ((kw41zrf_send_loop conf vector 0 s).1, some (0 + iov_total vector)) := by
      rw [← h1]
    rw [hl]
    simp
  rw [hsend]
  exact ⟨rfl, h4, h3 0 (Or.inl (Nat.le_refl 0)), h6⟩

/-- Witness of the amended C15: a vector of 5 bytes on a busy device. -/
theorem kw41zrf_netdev_send_busy_witness :
    (kw41zrf_netdev_send kw41z_conf false [⟨fun j => j + 1, 3⟩, ⟨fun j => j + 10, 2⟩]
      kw41zrf_idle_state).2 = 0 ∧
    (kw41zrf_netdev_send kw41z_conf false [⟨fun j => j + 1, 3⟩, ⟨fun j => j + 10, 2⟩]
      kw41zrf_idle_state).1.pending_tx = kw41zrf_idle_state.pending_tx :=
  match kw41zrf_netdev_send_busy kw41z_conf
    [⟨fun j => j + 1, 3⟩, ⟨fun j => j + 10, 2⟩] kw41zrf_idle_state (by decide) (by decide) with
  | ⟨h1, h2, _, _⟩ => ⟨h1, h2⟩

/-! ## KW41Z radio: receive -/

theorem rx_frame_length_le (conf : Kw41zrfConf) (rx : Kw41zrfRx) (n : Nat)
    (hfield : conf.ZLL_IRQSTS_RX_FRAME_LENGTH_MASK >>>
      conf.ZLL_IRQSTS_RX_FRAME_LENGTH_SHIFT ≤ n) :
    rx_frame_length conf rx ≤ n := by
  unfold rx_frame_length
  refine le_trans (Nat.mod_le _ _) (le_trans ?_ hfield)
  rw [Nat.shiftRight_eq_div_pow, Nat.shiftRight_eq_div_pow]
  exact Nat.div_le_div_right Nat.and_le_right

theorem int_val_sub_two (n : Nat) (h : n ≤ 127) :
    int_val ((n + SIZE_T_MOD - 2) % SIZE_T_MOD) = (n : Int) - 2 := by
  unfold SIZE_T_MOD
  by_cases h2 : 2 ≤ n
  · have e : (n + 4294967296 - 2) % 4294967296 = n - 2 := by omega
    rw [e, int_val_of_le _ (by unfold INT_MAX; omega)]
    omega
  · have e : (n + 4294967296 - 2) % 4294967296 = n + 4294967294 := by omega
    rw [e]
    unfold int_val
    have e2 : (n + 4294967294) % 4294967296 = n + 4294967294 := by omega
    rw [e2]
    have : ¬ n + 4294967294 < 2147483648 := by omega
    simp only [this, if_false]
    push_cast
    omega

/-- C16: kw41zrf_netdev_recv with buf == NULL returns, for every len and
info, the received frame length pkt_len (the RX_FRAME_LENGTH field of IRQSTS,
a field of 7 bits), copies nothing, writes nothing to info and leaves the
statistics alone; and a subsequent recv on the same frame with a buffer of at
least that many bytes does not return -ENOBUFS (ENOBUFS is an error number
above 2). -/
theorem kw41zrf_netdev_recv_null_buf (conf : Kw41zrfConf) (rx : Kw41zrfRx)
    (buf : Nat → Nat) (len : Nat) (info_null : Bool) (info : netdev_ieee802154_rx_info_t)
    (rx_count rx_bytes : Nat)
    (hfield : conf.ZLL_IRQSTS_RX_FRAME_LENGTH_MASK >>>
      conf.ZLL_IRQSTS_RX_FRAME_LENGTH_SHIFT ≤ 127)
    (herr : 2 < conf.ENOBUFS) :
    (kw41zrf_netdev_recv conf rx true buf len info_null info rx_count rx_bytes).ret =
      (rx_frame_length conf rx : Int) ∧
    (kw41zrf_netdev_recv conf rx true buf len info_null info rx_count rx_bytes).copied = 0 ∧
    (kw41zrf_netdev_recv conf rx true buf len info_null info rx_count rx_bytes).buf = buf ∧
    (kw41zrf_netdev_recv conf rx true buf len info_null info rx_count rx_bytes).info = info ∧
    (kw41zrf_netdev_recv conf rx true buf len info_null info rx_count
      rx_bytes).info_written = false ∧
    (kw41zrf_netdev_recv conf rx true buf len info_null info rx_count
      rx_bytes).rx_count = rx_count ∧
    (kw41zrf_netdev_recv conf rx true buf len info_null info rx_count
      rx_bytes).rx_bytes = rx_bytes ∧
    (∀ (buf2 : Nat → Nat) (len2 : Nat), rx_frame_length conf rx ≤ len2 →
      (kw41zrf_netdev_recv conf rx false buf2 len2 info_null info rx_count rx_bytes).ret ≠
        -(conf.ENOBUFS : Int)) := by
  have hle := rx_frame_length_le conf rx 127 hfield
  refine ⟨?_, rfl, rfl, rfl, rfl, rfl, rfl, ?_⟩
  · show int_val (rx_frame_length conf rx) = _
    exact int_val_of_le _ (by unfold INT_MAX; omega)
  · intro buf2 len2 hlen
    have hn : ¬ len2 < rx_frame_length conf rx := by omega
    simp only [kw41zrf_netdev_recv, Bool.false_eq_true, if_false, hn]
    rw [int_val_sub_two _ hle]
    omega

/-- Witness of C16: a frame of 5 bytes is announced as 5 with a NULL buffer,
and a following call with a buffer of 10 bytes does not fail with -ENOBUFS. -/
theorem kw41zrf_netdev_recv_null_buf_witness :
    (kw41zrf_netdev_recv kw41z_conf ⟨0x05000000, 0, fun k => k⟩ true (fun _ => 0) 0 true
      ⟨0, 0⟩ 0 0).copied = 0 ∧
    (kw41zrf_netdev_recv kw41z_conf ⟨0x05000000, 0, fun k => k⟩ false (fun _ => 0) 10 true
      ⟨0, 0⟩ 0 0).ret ≠ -(kw41z_conf.ENOBUFS : Int) :=
  match kw41zrf_netdev_recv_null_buf kw41z_conf ⟨0x05000000, 0, fun k => k⟩ (fun _ => 0) 0
    true ⟨0, 0⟩ 0 0 (by decide) (by decide) with
  | ⟨_, h2, _, _, _, _, _, h8⟩ => ⟨h2, h8 (fun _ => 0) 10 (by decide)⟩

/-- C17: for a non-NULL buf, kw41zrf_netdev_recv returns -ENOBUFS if and only
if the received frame length pkt_len is greater than len (the frame length
being a field of 7 bits and ENOBUFS an error number above 2), and in that case
neither buf nor info is written. -/
theorem kw41zrf_netdev_recv_enobufs (conf : Kw41zrfConf) (rx : Kw41zrfRx)
    (buf : Nat → Nat) (len : Nat) (info_null : Bool) (info : netdev_ieee802154_rx_info_t)
    (rx_count rx_bytes : Nat)
    (hfield : conf.ZLL_IRQSTS_RX_FRAME_LENGTH_MASK >>>
      conf.ZLL_IRQSTS_RX_FRAME_LENGTH_SHIFT ≤ 127)
    (herr : 2 < conf.ENOBUFS) :
    ((kw41zrf_netdev_recv conf rx false buf len info_null info rx_count rx_bytes).ret =
        -(conf.ENOBUFS : Int) ↔ len < rx_frame_length conf rx) ∧
    (len < rx_frame_length conf rx →
      (kw41zrf_netdev_recv conf rx false buf len info_null info rx_count rx_bytes).buf = buf ∧
      (kw41zrf_netdev_recv conf rx false buf len info_null info rx_count rx_bytes).copied = 0 ∧
      (kw41zrf_netdev_recv conf rx false buf len info_null info rx_count rx_bytes).info = info ∧
      (kw41zrf_netdev_recv conf rx false buf len info_null info rx_count
        rx_bytes).info_written = false) := by
  have hle := rx_frame_length_le conf rx 127 hfield
  by_cases hlt : len < rx_frame_length conf rx
  · simp [kw41zrf_netdev_recv, hlt]
  · refine ⟨?_, fun h => absurd h hlt⟩
    simp only [kw41zrf_netdev_recv, Bool.false_eq_true, if_false, hlt, iff_false]
    rw [int_val_sub_two _ hle]
    omega

/-- Witness of C17: a frame of 5 bytes and a buffer of 3 bytes. -/
theorem kw41zrf_netdev_recv_enobufs_witness :
    ((kw41zrf_netdev_recv kw41z_conf ⟨0x05000000, 0, fun k => k⟩ false (fun _ => 0) 3 false
        ⟨0, 0⟩ 0 0).ret = -(kw41z_conf.ENOBUFS : Int) ↔
      3 < rx_frame_length kw41z_conf ⟨0x05000000, 0, fun k => k⟩) :=
  (kw41zrf_netdev_recv_enobufs kw41z_conf ⟨0x05000000, 0, fun k => k⟩ (fun _ => 0) 3 false
    ⟨0, 0⟩ 0 0 (by decide) (by decide)).1

/-- C18 fails on the code: for the frame lengths 0 and 1, which the 7-bit
field can report, with a non-NULL buf and len >= pkt_len,
kw41zrf_netdev_recv returns pkt_len - 2 computed in size_t and converted to
int, that is -2 and -1: a negative value, not a byte count, while 0 and 1
bytes were copied. -/
theorem kw41zrf_netdev_recv_short_frame_negative :
    rx_frame_length kw41z_conf ⟨0, 0, fun k => k⟩ = 0 ∧
    (kw41zrf_netdev_recv kw41z_conf ⟨0, 0, fun k => k⟩ false (fun _ => 0) 16 true
      ⟨0, 0⟩ 0 0).ret = -2 ∧
    (kw41zrf_netdev_recv kw41z_conf ⟨0, 0, fun k => k⟩ false (fun _ => 0) 16 true
      ⟨0, 0⟩ 0 0).copied = 0 ∧
    rx_frame_length kw41z_conf ⟨0x01000000, 0, fun k => k⟩ = 1 ∧
    (kw41zrf_netdev_recv kw41z_conf ⟨0x01000000, 0, fun k => k⟩ false (fun _ => 0) 16 true
      ⟨0, 0⟩ 0 0).ret = -1 ∧
    (kw41zrf_netdev_recv kw41z_conf ⟨0x01000000, 0, fun k => k⟩ false (fun _ => 0) 16 true
      ⟨0, 0⟩ 0 0).copied = 1 := by
  decide


theorem kw41zrf_send_loop_keeps (conf : Kw41zrfConf) :
    ∀ (vector : List iovec) (len : Nat) (s : Kw41zrfState),
      (kw41zrf_send_loop conf vector len s).1.pending_tx = s.pending_tx ∧
      (kw41zrf_send_loop conf vector len s).1.sequences = s.sequences ∧
      (kw41zrf_send_loop conf vector len s).1.PKT_BUFFER_TX 0 = s.PKT_BUFFER_TX 0 := by
  intro vector
  induction vector with
  | nil => intro len s; exact ⟨rfl, rfl, rfl⟩
  | cons v rest ih =>
    intro len s
    unfold kw41zrf_send_loop
    split
    · exact ⟨rfl, rfl, rfl⟩
    · obtain ⟨h1, h2, h3⟩ := ih (kw41zrf_tx_load v.iov_base v.iov_len len s).2
        (kw41zrf_tx_load v.iov_base v.iov_len len s).1
      refine ⟨h1, h2, ?_⟩
      rw [h3]
      simp [kw41zrf_tx_load]

theorem kw41zrf_send_loop_overflow_only_if (conf : Kw41zrfConf) :
    ∀ (vector : List iovec) (len total : Nat) (s : Kw41zrfState), len ≤ total →
      (kw41zrf_send_loop conf vector len s).2 = none →
      ∃ i, i < vector.length ∧ conf.KW41ZRF_MAX_PKT_LENGTH <
        total + iov_total (vector.take (i + 1)) + conf.IEEE802154_FCS_LEN := by
  intro vector
  induction vector with
  | nil =>
    intro len total s _ h
    simp [kw41zrf_send_loop] at h
  | cons v rest ih =>
    intro len total s hle h
    unfold kw41zrf_send_loop at h
    split at h
    · rename_i hc
      refine ⟨0, by simp, ?_⟩
      have := Nat.mod_le (len + v.iov_len + conf.IEEE802154_FCS_LEN) SIZE_T_MOD
      simp only [Nat.zero_add, List.take_succ_cons, List.take_zero, iov_total]
      omega
    · obtain ⟨i, hi, hb⟩ := ih (kw41zrf_tx_load v.iov_base v.iov_len len s).2
        (total + v.iov_len) (kw41zrf_tx_load v.iov_base v.iov_len len s).1
        (by
          have := Nat.mod_le (len + v.iov_len) SIZE_T_MOD
          show (len + v.iov_len) % SIZE_T_MOD ≤ total + v.iov_len
          omega) h
      refine ⟨i + 1, by simpa using hi, ?_⟩
      simp only [List.take_succ_cons, iov_total]
      omega

/-- The overflow path of the send function: when the send loop rejects the
packet, kw41zrf_netdev_send returns -EOVERFLOW with dev->pending_tx, the frame
length octet and the requested sequences unchanged, and some prefix of the
vector has a sum of lengths that exceeds the maximum together with the FCS. -/
theorem kw41zrf_netdev_send_overflow_path (conf : Kw41zrfConf) (can_switch_to_idle : Bool)
    (vector : List iovec) (s : Kw41zrfState)
    (h : (kw41zrf_send_loop conf vector 0 s).2 = none) :
    (kw41zrf_netdev_send conf can_switch_to_idle vector s).2 = -(conf.EOVERFLOW : Int) ∧
    (kw41zrf_netdev_send conf can_switch_to_idle vector s).1.pending_tx = s.pending_tx ∧
    (kw41zrf_netdev_send conf can_switch_to_idle vector s).1.PKT_BUFFER_TX 0 =
      s.PKT_BUFFER_TX 0 ∧
    (kw41zrf_netdev_send conf can_switch_to_idle vector s).1.sequences = s.sequences ∧
    ∃ i, i < vector.length ∧ conf.KW41ZRF_MAX_PKT_LENGTH <
      iov_total (vector.take (i + 1)) + conf.IEEE802154_FCS_LEN := by
  obtain ⟨k1, k2, k3⟩ := kw41zrf_send_loop_keeps conf vector 0 s
  obtain ⟨i, hi, hb⟩ := kw41zrf_send_loop_overflow_only_if conf vector 0 0 s (Nat.le_refl 0) h
  have hsend : kw41zrf_netdev_send conf can_switch_to_idle vector s =
      ((kw41zrf_send_loop conf vector 0 s).1, -(conf.EOVERFLOW : Int)) := by
    unfold kw41zrf_netdev_send
    have hl : kw41zrf_send_loop conf vector 0 s =
        ((kw41zrf_send_loop conf vector 0 s).1, none) := by
      rw [← h]
    rw [hl]
  rw [hsend]
  exact ⟨rfl, k1, k3, k2, i, hi, by omega⟩


/-- The copy path of the receive function: for a frame length pkt_len of 2 to
127 bytes, a non-NULL buf and len >= pkt_len, kw41zrf_netdev_recv copies the
pkt_len bytes behind the frame length octet and returns pkt_len - 2, which is
non-negative and not larger than the number of bytes copied. -/
theorem kw41zrf_netdev_recv_copies_frame (conf : Kw41zrfConf) (rx : Kw41zrfRx)
    (buf : Nat → Nat) (len : Nat) (info_null : Bool) (info : netdev_ieee802154_rx_info_t)
    (rx_count rx_bytes : Nat)
    (hmin : 2 ≤ rx_frame_length conf rx) (hmax : rx_frame_length conf rx ≤ 127)
    (hlen : rx_frame_length conf rx ≤ len) :
    (kw41zrf_netdev_recv conf rx false buf len info_null info rx_count rx_bytes).ret =
      (rx_frame_length conf rx : Int) - 2 ∧
    0 ≤ (kw41zrf_netdev_recv conf rx false buf len info_null info rx_count rx_bytes).ret ∧
    (kw41zrf_netdev_recv conf rx false buf len info_null info rx_count rx_bytes).copied =
      rx_frame_length conf rx ∧
    (kw41zrf_netdev_recv conf rx false buf len info_null info rx_count rx_bytes).ret ≤
      ((kw41zrf_netdev_recv conf rx false buf len info_null info rx_count
        rx_bytes).copied : Int) ∧
    (∀ k, k < rx_frame_length conf rx →
      (kw41zrf_netdev_recv conf rx false buf len info_null info rx_count rx_bytes).buf k =
        rx.PKT_BUFFER_RX (k + 1)) ∧
    (∀ k, rx_frame_length conf rx ≤ k →
      (kw41zrf_netdev_recv conf rx false buf len info_null info rx_count rx_bytes).buf k =
        buf k) := by
  have hn : ¬ len < rx_frame_length conf rx := by omega
  have hret : (kw41zrf_netdev_recv conf rx false buf len info_null info rx_count
      rx_bytes).ret = (rx_frame_length conf rx : Int) - 2 := by
    simp only [kw41zrf_netdev_recv, Bool.false_eq_true, if_false, hn]
    exact int_val_sub_two _ hmax
  have hcop : (kw41zrf_netdev_recv conf rx false buf len info_null info rx_count
      rx_bytes).copied = rx_frame_length conf rx := by
    simp only [kw41zrf_netdev_recv, Bool.false_eq_true, if_false, hn]
  refine ⟨hret, by rw [hret]; omega, hcop, by rw [hret, hcop]; omega, ?_, ?_⟩
  · intro k hk
    simp only [kw41zrf_netdev_recv, Bool.false_eq_true, if_false, hn, hk, if_true]
  · intro k hk
    have : ¬ k < rx_frame_length conf rx := by omega
    simp only [kw41zrf_netdev_recv, Bool.false_eq_true, if_false, hn, this]

end RIOT
